import Mathlib

/-!
# nicpoyia-shell: command splitting, redirection parsing, process bookkeeping,
signals, built-ins and job execution

A shallow embedding of the shell (`jobs.c`, `commands.c`, `processes.c`,
`string_processing.c`, `bash_builtin_functions.c`, `pipes.c`).  C strings are modelled as `List Char`
(the characters before the terminating NUL); reading the terminator itself
yields `'\x00'`.  A loop over `strtok` results becomes a traversal of the list
of tokens.  Memory allocation is taken to succeed (also for a request of zero
bytes), and the capacity of a buffer is modelled only where it is mentioned.

The global tables of `processes.h` (process slots, job slots, the PIDs of each
job) are a record `Tables` that every bookkeeping function takes and returns.
System calls are not run: `executeRedirections` yields the list of calls it
makes into `files.c`, the child's PID is an argument of the parent side of
`executeProcess`, and what the non-blocking `waitpid` reports for a PID is a
function given to `releaseCompleteBackgroundProcesses`.

The signal router of `processes.c` acts on a record `SignalState` (the
installed dispositions, the saved native ones, the foreground PID) and logs
the signals it sends.  The built-in layer (`bash_builtin_functions.c`) acts on
a record `BuiltinState`: its global variables, the environment of the
process, and the calls it makes (`system`, `chdir`, `kill`, ...).  The job
executor (`handlePipedCommands`) acts on a `ShellState`, which holds both
records of tables and a log of what happened; what the host answers (`which`,
`mkfifo`, `fork`) is given by a record `Host`.  A function returns `none`
where the C code reads outside a string or an array, or the behaviour of an
operation is undefined.
-/

namespace Shell

/-! ## C string primitives -/

/-- Read `s[i]` of a C string: the characters of `s`, then the NUL terminator. -/
def charAt (s : List Char) (i : Nat) : Char := s.getD i '\x00'

/-- Worker of `strtokAll`: `cur` holds, reversed, the characters of the token
being scanned. -/
def strtokAux (d : Char) : List Char → List Char → List (List Char)
  | [], cur => if cur = [] then [] else [cur.reverse]
  | c :: cs, cur =>
    if c = d then
      (if cur = [] then strtokAux d cs [] else cur.reverse :: strtokAux d cs [])
    else strtokAux d cs (c :: cur)

/-- The successive results of `strtok(s, delim)`, `strtok(NULL, delim)`, ...
until `NULL`, for a one-character delimiter string: the maximal non-empty runs
of characters different from the delimiter, left to right. -/
def strtokAll (d : Char) (s : List Char) : List (List Char) := strtokAux d s []

/-- How often the loop of `removeSpacesFromBeginning` advances the pointer.
The loop tests `(*string)[firstPos]` and then advances both the pointer
`*string` and the index `firstPos`, so the characters it tests are those at
the offsets 0, 2, 4, ... of the string it was given.  `none` when a test reads
past the terminating NUL (the last character sits at an even offset and is a
space, like every character at an even offset before it). -/
def removeSpacesAdvance : List Char → Option Nat
  | [] => some 0
  | [c] => if c = ' ' then none else some 0
  | c :: _ :: rest =>
    if c = ' ' then (removeSpacesAdvance rest).map (fun n => n + 1) else some 0

/-- Function `removeSpacesFromBeginning` (`string_processing.c`): the string
the pointer is left at; `none` when the loop reads past the terminator. -/
def removeSpacesFromBeginning (string : List Char) : Option (List Char) :=
  (removeSpacesAdvance string).map (fun n => string.drop n)

/-- The strings of an array passed through `removeSpacesFromBeginning` one by
one, as the loops that store copies do. -/
def removeSpacesEach : List (List Char) → Option (List (List Char))
  | [] => some []
  | string :: rest =>
    match removeSpacesFromBeginning string with
    | none => none
    | some string' => (removeSpacesEach rest).map (fun r => string' :: r)

/-! ## processes.c: redirection parsing -/

/-- Function `isFileDescriptor`: the character is `0`, `1`, `2` or `&`. -/
def isFileDescriptor (character : Char) : Bool :=
  let charOffset : Int := (character.toNat : Int) - ('0'.toNat : Int)
  if 0 ≤ charOffset ∧ charOffset ≤ 2 then true
  else if character = '&' then true
  else false

/-- Function `isRedirectionSymbol`: the character is `<` or `>`. -/
def isRedirectionSymbol (character : Char) : Bool :=
  if character = '<' then true
  else if character = '>' then true
  else false

/-- Function `findRedirections`: split a redirection string into its type part
and its target, and classify the type part.  The result is `(type, target)`;
`none` stands for the `-1` return (the target buffer cannot be allocated
because the string is shorter than the type part). -/
def findRedirections (redString : List Char) : Option (Nat × List Char) :=
  let redTypeLength : Nat :=
    if isRedirectionSymbol (charAt redString 0) then
      (if charAt redString 0 = charAt redString 1 then 2 else 1)
    else
      (if charAt redString 1 = ' ' ∧ isRedirectionSymbol (charAt redString 2) = true
        then 3 else 2)
  if redString.length < redTypeLength then none
  else
    let redType := redString.take redTypeLength
    let redTarget := (redString.drop redTypeLength).filter (fun c => c ≠ ' ')
    let last := charAt redType (redTypeLength - 1)
    let ty : Nat :=
      if last = '<' then
        (if redType.length = 1 ∨ charAt redType 0 = '0' then 1 else 0)
      else if last = '>' then
        (if redTypeLength = 1 then 2
         else
          let c := charAt redType (redType.length - 2)
          if c = '1' then 2
          else if c = '2' then 3
          else if c = '&' then 4
          else if c = '>' then 5
          else 0)
      else 0
    some (ty, redTarget)

/-- Function `isRedirection`: `2` when the word ends with a redirection symbol, `1`
when it contains one elsewhere, `0` otherwise. -/
def isRedirection (string : List Char) : Nat :=
  if string.length = 0 then 0
  else if isRedirectionSymbol (charAt string (string.length - 1)) then 2
  else if string.any isRedirectionSymbol then 1
  else 0

/-- The local variables of the tokenisation loop of `splitRedirectionStrings`
that live across iterations.  `redStrings` holds the clauses stored so far (its
length is the C variable `redirections`). -/
structure RedScan where
  nextString : List Char
  nextStringArgs : Nat
  redSymbolPassed : Bool
  redStrings : List (List Char)
  redArgs : Nat
deriving DecidableEq, Repr

/-- State of `splitRedirectionStrings` before the first word. -/
def RedScan.init : RedScan :=
  { nextString := [], nextStringArgs := 0, redSymbolPassed := false,
    redStrings := [], redArgs := 0 }

/-- One iteration of the `while (nextCommandWord != NULL)` loop of
`splitRedirectionStrings`; `none` is the `return -1` on two pending symbols. -/
def redScanStep (st : RedScan) (nextCommandWord : List Char) : Option RedScan :=
  let nextStringArgs := st.nextStringArgs + 1
  if (!isFileDescriptor (charAt nextCommandWord 0)
        && !isRedirectionSymbol (charAt nextCommandWord 0))
      && (!st.redSymbolPassed && st.redStrings.length == 0) then
    -- ordinary command word: `nextStringArgs = 0; continue;`
    some { st with nextStringArgs := 0 }
  else
    let nextString := st.nextString ++ nextCommandWord ++ [' ']
    let redirectionType := isRedirection nextCommandWord
    if redirectionType = 1 then
      some { nextString := [], nextStringArgs := 0, redSymbolPassed := false,
             redStrings := st.redStrings ++ [nextString],
             redArgs := st.redArgs + nextStringArgs }
    else if redirectionType = 2 then
      (if st.redSymbolPassed = false then
        some { st with nextString := nextString, nextStringArgs := nextStringArgs,
                       redSymbolPassed := true }
      else none)
    else if st.redSymbolPassed then
      some { nextString := [], nextStringArgs := 0, redSymbolPassed := false,
             redStrings := st.redStrings ++ [nextString],
             redArgs := st.redArgs + nextStringArgs }
    else
      some { st with nextString := nextString, nextStringArgs := nextStringArgs }

/-- The word loop of `splitRedirectionStrings` over the remaining words. -/
def redScanLoop : RedScan → List (List Char) → Option RedScan
  | st, [] => some st
  | st, w :: ws =>
    match redScanStep st w with
    | none => none
    | some st' => redScanLoop st' ws

/-- Function `splitRedirectionStrings`: the redirection clauses of a stage text, in
order, and `redArgs`, the number of words counted as redirection arguments.
`none` is the `-1` return.  The fixed capacities of the C buffers (three
clauses, `MAX_PROCESS_SIZE` characters) are not modelled. -/
def splitRedirectionStrings (commandCopy : List Char) : Option (List (List Char) × Nat) :=
  match redScanLoop RedScan.init (strtokAll ' ' commandCopy) with
  | none => none
  | some st => some (st.redStrings, st.redArgs)

/-- The value `executeRedirections(command, 0, ...)` hands back to
`executeProcess`: `redArgs` of `splitRedirectionStrings`, or `none` for `-1`. -/
def executeRedirectionsArgs (command : List Char) : Option Nat :=
  match splitRedirectionStrings command with
  | none => none
  | some r => some r.2

/-- Function `subString` (`bash_builtin_functions.c`): `len` characters of `str` from
index `begin` (fewer when the string ends before); `none` is the null pointer
returned for an empty string or a range that leaves the string.  The
parameters are `size_t` values, so the sum `begin + len` is taken modulo
`2 ^ 64`. -/
def subString (str : List Char) (begin len : Nat) : Option (List Char) :=
  if str.length = 0 ∨ str.length < begin ∨ str.length < (begin + len) % 2 ^ 64 then none
  else some ((str.drop begin).take len)

/-- Child side of `executeProcess`: the vector `nonIOArguments` handed to
`execvp` (without its terminating `NULL`).  `nonIOArgs = args - IOArgs` is a C
`int`; the copy loop `for (i = 0; i < nonIOArgs; i++)` runs `nonIOArgs.toNat`
times.  `none` is a `-1` return before `execvp`. -/
def executeProcessArgv (commandName : List Char) (commandArguments : List (List Char))
    (isBackground : Bool) (args : Nat) (processString : List Char) :
    Option (List (List Char)) :=
  let stripped : Option (List Char) :=
    if isBackground = true ∧ charAt commandName (commandName.length - 1) = '&' then
      subString commandName 0 (commandName.length - 1)
    else some commandName
  match stripped with
  | none => none
  | some commandName =>
    match executeRedirectionsArgs processString with
    | none => none
    | some IOArgs =>
      let nonIOArgs : Int := (args : Int) - (IOArgs : Int)
      some (commandName :: commandArguments.take nonIOArgs.toNat)

/-! ## commands.c -/

/-- Function `parseCommand`: command name, arguments and argument count of a stage
text; `none` is the `-1` return (a text without any word asks for an array of
`-1` pointers). -/
def parseCommand (command : List Char) : Option (List Char × List (List Char) × Nat) :=
  match strtokAll ' ' command with
  | [] => none
  | nextWord :: rest =>
    let argumentsCount := rest.length
    match removeSpacesEach (rest.take argumentsCount) with
    | none => none
    | some arguments => some (nextWord, arguments, argumentsCount)

/-! ## jobs.c -/

/-- Function `isBackground`: returns the flag together with the updated `*jobScript`
and `*args`; `none` when `removeSpacesFromBeginning` reads past the end of
the string. -/
def isBackground (jobScript : List Char) (arguments : List (List Char)) (args : Nat) :
    Option (Bool × List Char × Nat) :=
  if args = 0 then
    (if charAt jobScript (jobScript.length - 1) = '&' then some (true, jobScript, args)
     else some (false, jobScript, args))
  else
    let last := arguments.getD (args - 1) []
    if last = ['&'] ∨ charAt last (last.length - 1) = '&' then
      some (true, jobScript, args - 1)
    else
      match removeSpacesFromBeginning jobScript with
      | none => none
      | some jobScript' =>
        let indexToTheEnd := jobScript'.length - 1
        if charAt jobScript' indexToTheEnd = '&' then
          some (true, jobScript'.take indexToTheEnd, args)
        else some (false, jobScript', args)

/-- Body of the stage loop of `handlePipedCommands` for a stage that is forked
(built-in dispatch and the `which` probe are external): `parseCommand`, then
`isBackground`, then `executeProcess` on the stage text; the result is the
vector given to `execvp`. -/
def stageExecArgv (pipedCount : Nat) (stage : List Char) : Option (List (List Char)) :=
  match parseCommand stage with
  | none => none
  | some (commandName, commandArguments, argsCount) =>
    match isBackground commandName commandArguments argsCount with
    | none => none
    | some (userBackground, commandName, argsCount) =>
      let backgroundProcess := if pipedCount = 1 then userBackground else true
      executeProcessArgv commandName commandArguments backgroundProcess argsCount stage

/-- Function `getPipedProcesses` with `countOnly = 0`: the stages of a job;
`none` when `removeSpacesFromBeginning` reads past the end of a stage. -/
def getPipedProcesses (pipeDelimited : List Char) : Option (List (List Char)) :=
  removeSpacesEach (strtokAll '|' pipeDelimited)

/-- Second loop of `splilToParts`: the parts from index `partIndex` on; with
the `&` delimiter a part gets `&` appended when it is not the last one or the
word itself ends with `&`. -/
def splilFill (word : List Char) (delimiter : Char) (partsCount : Nat) :
    Nat → List (List Char) → List (List Char)
  | _, [] => []
  | partIndex, nextPart :: rest =>
    (if delimiter = '&' then
      (if partIndex + 1 < partsCount ∨ charAt word (word.length - 1) = '&'
        then nextPart ++ ['&'] else nextPart)
     else nextPart) :: splilFill word delimiter partsCount (partIndex + 1) rest

/-- Function `splilToParts`: the parts of `word` cut at `delimiter`. -/
def splilToParts (word : List Char) (delimiter : Char) : List (List Char) :=
  let partsCount := (strtokAll delimiter word).length
  splilFill word delimiter partsCount 0 (strtokAll delimiter word)

/-- Inner `for (j ...)` loop of `splitBackgroundAndSerial`: store the parts
one by one; the flag is `true` when the loop left through
`return totalIndex - 1`, in which case the part just written is not reported. -/
def sbsStore (totalParts : Nat) :
    List (List Char) → List (List Char) → List (List Char) × Bool
  | stored, [] => (stored, false)
  | stored, p :: ps =>
    if stored.length + 1 > totalParts then (stored, true)
    else sbsStore totalParts (stored ++ [p]) ps

/-- Outer `for (i ...)` loop of `splitBackgroundAndSerial`. -/
def sbsLoop (totalParts : Nat) :
    List (List Char) → List (List Char) → List (List Char)
  | stored, [] => stored
  | stored, amp :: amps =>
    match sbsStore totalParts stored (splilToParts amp ';') with
    | (stored', true) => stored'
    | (stored', false) => sbsLoop totalParts stored' amps

/-- Function `splitBackgroundAndSerial`: the reported parts of `word`, cut at `&` and
then at `;`.  Without any `&`-part the function returns `totalIndex = 0`. -/
def splitBackgroundAndSerial (word : List Char) : List (List Char) :=
  let semicolonParts := (splilToParts word ';').length
  let ampersandDevided := splilToParts word '&'
  let ampersandParts := ampersandDevided.length
  let totalParts := semicolonParts + ampersandParts + 1
  if ampersandParts > 0 then sbsLoop totalParts [] ampersandDevided
  else []

/-- Function `splitJobs` with `countOnly = 1`: the words of the script. -/
def splitJobsWords (jobScript : List Char) : List (List Char) :=
  strtokAll ' ' jobScript

/-- The jobs one call of `splitBackgroundAndSerial` contributes in
`splitJobs`: each part is copied and passed through
`removeSpacesFromBeginning`. -/
def jobsOfConcat (lastConcatJob : List Char) : Option (List (List Char)) :=
  removeSpacesEach (splitBackgroundAndSerial lastConcatJob)

/-- The `while (wordIndex < wordsCount)` loop of `splitJobs` and the final
flush: `lastConcatJob` collects words until it ends with `&` or `;`. -/
def splitJobsLoop : List Char → List (List Char) → Option (List (List Char))
  | lastConcatJob, [] =>
    if lastConcatJob.length > 0 then jobsOfConcat lastConcatJob else some []
  | lastConcatJob, word :: words =>
    let concat :=
      if lastConcatJob.length = 0 then word else lastConcatJob ++ [' '] ++ word
    if charAt concat (concat.length - 1) = '&' ∨ charAt concat (concat.length - 1) = ';' then
      match jobsOfConcat concat with
      | none => none
      | some jobs => (splitJobsLoop [] words).map (fun later => jobs ++ later)
    else splitJobsLoop concat words

/-- Function `splitJobs` with `countOnly = 0`, given the words of the first
pass; `none` when `removeSpacesFromBeginning` reads past the end of a part. -/
def splitJobs (splittedWords : List (List Char)) : Option (List (List Char)) :=
  splitJobsLoop [] splittedWords

/-- Capacity of the `words` array of `executeScript`. -/
def MAX_ARGS_SIZE : Nat := 128

/-- The job list `executeScript` computes: the word pass of `splitJobs`
followed by its split pass.  `none` when the script has more words than the
`words` array holds (or the split pass reads past the end of a part). -/
def executeScriptJobs (script : List Char) : Option (List (List Char)) :=
  let words := splitJobsWords script
  if words.length > MAX_ARGS_SIZE then none else splitJobs words

/-! ## processes.c: choosing and applying the redirections -/

/-- The C library function `atoi` on the digits that follow an optional sign:
the worker accumulates decimal digits and stops at the first other character. -/
def atoiDigits : List Char → Int → Int
  | [], acc => acc
  | c :: cs, acc =>
    if c.isDigit then atoiDigits cs (acc * 10 + ((c.toNat : Int) - ('0'.toNat : Int)))
    else acc

/-- The C library function `atoi`: skip white space, read an optional sign and
the decimal digits that follow; `0` when there is no digit.  Overflow of `int`
is not modelled. -/
def atoi (s : List Char) : Int :=
  match s.dropWhile
      (fun c => c = ' ' ∨ c = '\t' ∨ c = '\n' ∨ c = '\x0b' ∨ c = '\x0c' ∨ c = '\r') with
  | '-' :: rest => - atoiDigits rest 0
  | '+' :: rest => atoiDigits rest 0
  | rest => atoiDigits rest 0

/-- Function `checkIfFd`: for a target that starts with `&`, the number that
follows the `&`; `0` for every other target ("not a file descriptor"). -/
def checkIfFd (redirectionString : List Char) : Int :=
  if redirectionString.length = 0 then 0
  else if charAt redirectionString 0 = '&' then atoi (redirectionString.drop 1)
  else 0

/-- The four target pointers of `executeRedirections`; `none` is `NULL`. -/
structure RedTargets where
  redirectFromInput : Option (List Char)
  redirectToStdOut : Option (List Char)
  redirectToStdOutAppend : Option (List Char)
  redirectToStdErr : Option (List Char)
deriving DecidableEq, Repr

/-- All four target pointers `NULL`, as `executeRedirections` starts. -/
def RedTargets.init : RedTargets :=
  { redirectFromInput := none, redirectToStdOut := none,
    redirectToStdOutAppend := none, redirectToStdErr := none }

/-- The `switch (redType)` of `executeRedirections`: record the target of one
clause. -/
def selectTarget (t : RedTargets) (redType : Nat) (redTarget : List Char) : RedTargets :=
  if redType = 1 then { t with redirectFromInput := some redTarget }
  else if redType = 2 then { t with redirectToStdOut := some redTarget }
  else if redType = 3 then { t with redirectToStdErr := some redTarget }
  else if redType = 4 then
    { t with redirectToStdOut := some redTarget, redirectToStdErr := some redTarget }
  else if redType = 5 then { t with redirectToStdOutAppend := some redTarget }
  else t

/-- The `for (redCounter ...)` loop of `executeRedirections` over the clauses;
`none` is the `return -1` after a failing `findRedirections`. -/
def selectTargets : RedTargets → List (List Char) → Option RedTargets
  | t, [] => some t
  | t, nextRedString :: rest =>
    match findRedirections nextRedString with
    | none => none
    | some (redType, redTarget) => selectTargets (selectTarget t redType redTarget) rest

/-- The calls into `files.c` that `executeRedirections` makes. -/
inductive RedirCall where
  | redirectStdIn (filename : List Char)
  | redirectStdInFd (fd : Int)
  | redirectStdOut (filename : List Char) (appendMode : Nat)
  | redirectStdOutFd (fd : Int)
  | redirectStdErr (filename : List Char)
  | redirectStdErrFd (fd : Int)
deriving DecidableEq, Repr

/-- The second half of `executeRedirections`: for the chosen targets, in the
order standard input, standard output, standard error, either duplicate the
descriptor `checkIfFd` reports (when it is positive) or open the file. -/
def redirectionCalls (t : RedTargets) : List RedirCall :=
  (match t.redirectFromInput with
    | none => []
    | some target =>
      if checkIfFd target > 0 then [RedirCall.redirectStdInFd (checkIfFd target)]
      else [RedirCall.redirectStdIn target])
  ++ (match t.redirectToStdOutAppend with
    | some target =>
      if checkIfFd target > 0 then [RedirCall.redirectStdOutFd (checkIfFd target)]
      else [RedirCall.redirectStdOut target 1]
    | none =>
      match t.redirectToStdOut with
      | none => []
      | some target =>
        if checkIfFd target > 0 then [RedirCall.redirectStdOutFd (checkIfFd target)]
        else [RedirCall.redirectStdOut target 0])
  ++ (match t.redirectToStdErr with
    | none => []
    | some target =>
      if checkIfFd target > 0 then [RedirCall.redirectStdErrFd (checkIfFd target)]
      else [RedirCall.redirectStdErr target])

/-- Function `executeRedirections` with `toPipe = 0`: the targets chosen from
the clauses of the stage text, the calls made for them, and the returned
`redArgs`; `none` is a `-1` return.  Whether the calls succeed is up to the
operating system and does not change the returned value. -/
def executeRedirections (command : List Char) :
    Option (RedTargets × List RedirCall × Nat) :=
  match splitRedirectionStrings command with
  | none => none
  | some (redirectionStrings, redArgs) =>
    match selectTargets RedTargets.init redirectionStrings with
    | none => none
    | some t => some (t, redirectionCalls t, redArgs)

/-! ## processes.c, jobs.c: the process table and the job table -/

/-- Number of slots of the process table. -/
def MAX_ACTIVE_PROCESSES : Nat := 10

/-- Number of slots of the job table. -/
def MAX_JOBS_RUNNING : Nat := 10

/-- A line the bookkeeping functions print on standard output. -/
inductive OutLine where
  | insufficientResources
  | jobFinished (jobNumber : Int)
deriving DecidableEq, Repr

/-- The global bookkeeping variables of `processes.h`, and the lines printed so
far.  The arrays are lists; a well-formed state has `MAX_ACTIVE_PROCESSES`
process slots, `MAX_JOBS_RUNNING` job slots and job rows of
`MAX_ACTIVE_PROCESSES` entries.  Reading outside a list yields `0` and writing
outside it changes nothing. -/
structure Tables where
  processes : List Int
  actPrCount : Int
  activeJobs : Int
  jobsRunning : List Int
  jobProcessesActive : List Int
  jobPIDs : List (List Int)
  printed : List OutLine
deriving DecidableEq, Repr

/-- Index of the first entry equal to `v`, counting from `i`; the search of
the loops `for (i = 0; i < MAX; i++) if (a[i] == v)`. -/
def firstIndexOf (v : Int) : List Int → Nat → Option Nat
  | [], _ => none
  | x :: xs, i => if x = v then some i else firstIndexOf v xs (i + 1)

/-- Index of the first row that contains `pid`, counting from `i`. -/
def firstRowWith (pid : Int) : List (List Int) → Nat → Option Nat
  | [], _ => none
  | row :: rows, i => if pid ∈ row then some i else firstRowWith pid rows (i + 1)

/-- Function `getJobIndex`: the first job row that holds `pid`, or `-1`. -/
def getJobIndex (s : Tables) (pid : Int) : Int :=
  match firstRowWith pid s.jobPIDs 0 with
  | some i => (i : Int)
  | none => -1

/-- Function `getProcessIndex`: the first process slot that holds `pid`, or
`-1`. -/
def getProcessIndex (s : Tables) (pid : Int) : Int :=
  match firstIndexOf pid s.processes 0 with
  | some i => (i : Int)
  | none => -1

/-- Function `processesInitialization`: every process slot free, no active
process. -/
def processesInitialization (s : Tables) : Tables :=
  { s with processes := List.replicate MAX_ACTIVE_PROCESSES 0, actPrCount := 0 }

/-- Function `allocateProcess`: the returned index (or `-1`) and the new state.
`none` stands for the `while (processes[prIndex])` scan leaving the array. -/
def allocateProcess (s : Tables) : Option (Int × Tables) :=
  if s.actPrCount = (MAX_ACTIVE_PROCESSES : Int) then
    some (-1, { s with printed := s.printed ++ [OutLine.insufficientResources] })
  else
    match firstIndexOf 0 s.processes 0 with
    | none => none
    | some prIndex =>
      some ((prIndex : Int),
        { s with processes := s.processes.set prIndex 1, actPrCount := s.actPrCount + 1 })

/-- Function `deallocateProcess`: the return value and the new state. -/
def deallocateProcess (s : Tables) (processIndex : Nat) : Int × Tables :=
  if s.actPrCount = 0 then (-1, s)
  else if s.processes.getD processIndex 0 = 0 then (-1, s)
  else (0, { s with processes := s.processes.set processIndex 0,
                    actPrCount := s.actPrCount - 1 })

/-- Function `processFinished`: release the first slot that holds `pid`. -/
def processFinished (s : Tables) (pid : Int) : Int × Tables :=
  if pid = -1 then (-1, s)
  else
    match firstIndexOf pid s.processes 0 with
    | some i => (0, (deallocateProcess s i).2)
    | none => (-1, s)

/-- Function `processStarted`: record `pid` in the row of job `jobIndex`. -/
def processStarted (s : Tables) (jobIndex : Nat) (pid : Int) : Int × Tables :=
  let count := s.jobProcessesActive.getD jobIndex 0
  if count = (MAX_ACTIVE_PROCESSES : Int) then (-1, s)
  else
    (0, { s with
      jobPIDs := s.jobPIDs.set jobIndex ((s.jobPIDs.getD jobIndex []).set count.toNat pid),
      jobProcessesActive := s.jobProcessesActive.set jobIndex (count + 1) })

/-- Function `jobProcessCompleted`: clear the first entry of the row that
holds `pid`, and free the job when that was its last process. -/
def jobProcessCompleted (s : Tables) (jobIndex : Nat) (pid : Int) : Int × Tables :=
  if s.jobProcessesActive.getD jobIndex 0 = 0 then (-1, s)
  else
    match firstIndexOf pid (s.jobPIDs.getD jobIndex []) 0 with
    | none => (-1, s)
    | some i =>
      let count := s.jobProcessesActive.getD jobIndex 0 - 1
      let s1 : Tables :=
        { s with
          jobPIDs := s.jobPIDs.set jobIndex ((s.jobPIDs.getD jobIndex []).set i 0),
          jobProcessesActive := s.jobProcessesActive.set jobIndex count }
      if count = 0 then
        (0, { s1 with jobsRunning := s1.jobsRunning.set jobIndex 0,
                      activeJobs := s1.activeJobs - 1,
                      printed := s1.printed ++ [OutLine.jobFinished ((jobIndex : Int) + 1)] })
      else (0, s1)

/-- Function `jobStarted` (`jobs.c`): the returned slot (or `-1`) and the new
state. -/
def jobStarted (s : Tables) : Int × Tables :=
  if s.activeJobs = (MAX_JOBS_RUNNING : Int) then
    (-1, { s with printed := s.printed ++ [OutLine.insufficientResources] })
  else
    let s1 : Tables := { s with activeJobs := s.activeJobs + 1 }
    match firstIndexOf 0 s1.jobsRunning 0 with
    | some i =>
      ((i : Int), { s1 with jobsRunning := s1.jobsRunning.set i 1,
                            jobProcessesActive := s1.jobProcessesActive.set i 0 })
    | none => (-1, s1)

/-- One iteration of the loop of `releaseCompleteBackgroundProcesses` for slot
`i`; `terminated pid` is what the non-blocking `waitpid` reports for `pid`. -/
def releaseStep (terminated : Int → Bool) (s : Tables) (i : Nat) : Tables :=
  let nextPid := s.processes.getD i 0
  if terminated nextPid then
    let jobIndex := getJobIndex s nextPid
    let s1 := if jobIndex ≠ -1 then (jobProcessCompleted s jobIndex.toNat nextPid).2 else s
    (deallocateProcess s1 i).2
  else s

/-- The loop of `releaseCompleteBackgroundProcesses` over the slots listed. -/
def releaseLoop (terminated : Int → Bool) : Tables → List Nat → Tables
  | s, [] => s
  | s, i :: rest => releaseLoop terminated (releaseStep terminated s i) rest

/-- Function `releaseCompleteBackgroundProcesses`: the loop runs over the
indices `0 .. backgroundProcesses - 1`, where `backgroundProcesses` is the
value of `actPrCount` on entry. -/
def releaseCompleteBackgroundProcesses (terminated : Int → Bool) (s : Tables) : Tables :=
  releaseLoop terminated s (List.range s.actPrCount.toNat)

/-- Parent side of `executeProcess`, from the allocation of the process slot
to the return: the slot receives the child's PID; a background stage is
recorded in the job row, a foreground one is waited for and released; when the
job is not a background job the slot is released.  `none` when no slot could
be allocated or one of the two checks that follow the allocation fails (the
function returns before `fork`), or the scan left the array. -/
def executeProcessParent (s : Tables) (jobIndex : Nat) (processPid : Int)
    (isBackground lastInBackground : Bool) : Option Tables :=
  match allocateProcess s with
  | none => none
  | some (processIndex, s0) =>
    if processIndex = -1 then none
    else if s0.actPrCount = 0 then none
    else if s0.processes.getD processIndex.toNat 0 = 0 then none
    else
      let s1 : Tables := { s0 with processes := s0.processes.set processIndex.toNat processPid }
      let s2 : Tables :=
        if isBackground then (processStarted s1 jobIndex processPid).2
        else (deallocateProcess s1 processIndex.toNat).2
      let s3 : Tables :=
        if !lastInBackground then (deallocateProcess s2 processIndex.toNat).2 else s2
      some s3

/-! ## processes.c, nicpoyiash.c: signal routing -/

/-- What `signal` can install for a signal number or hand back: the shell's
own handler (the function `signal_handler`), the default action, "ignore", a
handler that was installed before the shell started, or the error value
`SIG_ERR`. -/
inductive Disposition where
  | shellHandler
  | default
  | ignore
  | inherited (id : Nat)
  | error
deriving DecidableEq, Repr

/-- A `kill` call made by the signal handler: to a given PID, or to
`getpid()`, the shell itself. -/
inductive SignalSent where
  | toProcess (pid : Int) (signalCode : Nat)
  | toShell (signalCode : Nat)
deriving DecidableEq, Repr

/-- The state the signal handler works on: the dispositions installed in the
process (indexed by signal number), the array `nativeSignalHandlerFPs`, the
variable `foregroundProcess`, and the `kill` calls made so far. -/
structure SignalState where
  installed : List Disposition
  nativeSignalHandlerFPs : List Disposition
  foregroundProcess : Int
  sent : List SignalSent
deriving DecidableEq, Repr

/-- The C library function `signal(signalCode, handler)`: the disposition
that was installed is returned and `handler` takes its place; for `SIGKILL`
(9), `SIGSTOP` (19) and numbers outside the table nothing changes and
`SIG_ERR` is returned. -/
def signal (installed : List Disposition) (signalCode : Nat) (handler : Disposition) :
    Disposition × List Disposition :=
  if signalCode = 0 ∨ signalCode = 9 ∨ signalCode = 19 ∨ installed.length ≤ signalCode then
    (Disposition.error, installed)
  else (installed.getD signalCode Disposition.default, installed.set signalCode handler)

/-- The loop of `main` that installs the shell handler for the signals 1 to 31
and saves what `signal` returns in `nativeSignalHandlerFPs`. -/
def installHandlers : SignalState → List Nat → SignalState
  | st, [] => st
  | st, signalCode :: rest =>
    let r := signal st.installed signalCode Disposition.shellHandler
    installHandlers
      { st with installed := r.2,
                nativeSignalHandlerFPs := st.nativeSignalHandlerFPs.set signalCode r.1 }
      rest

/-- The signal set-up of `main`, from the dispositions the process starts
with. -/
def mainSignalSetup (initial : List Disposition) : SignalState :=
  installHandlers
    { installed := initial, nativeSignalHandlerFPs := List.replicate 32 Disposition.default,
      foregroundProcess := 0, sent := [] }
    ((List.range 32).drop 1)

/-- Function `signal_handler`.  With no foreground process the block declares
a local variable named `signal_handler`, initialised with
`nativeSignalHandlerFPs[signalCode]`; inside the block that variable hides the
function, so both calls of `signal` install its value.  The signal sent to the
shell itself is delivered with the disposition installed at that time; its
action is not part of the model. -/
def signal_handler (st : SignalState) (signalCode : Nat) : SignalState :=
  if st.foregroundProcess = 0 then
    let signal_handler := st.nativeSignalHandlerFPs.getD signalCode Disposition.default
    let first := signal st.installed signalCode signal_handler
    let saved := st.nativeSignalHandlerFPs.set signalCode first.1
    let second := signal first.2 signalCode signal_handler
    { st with installed := second.2,
              nativeSignalHandlerFPs := saved.set signalCode second.1,
              sent := st.sent ++ [SignalSent.toShell signalCode] }
  else
    { st with sent := st.sent ++ [SignalSent.toProcess st.foregroundProcess signalCode] }

/-! ## bash_builtin_functions.c -/

/-- A call a built-in function makes into the operating system or the C
library, apart from the environment calls `setenv` and `putenv`, which act on
the environment kept in the state. -/
inductive BuiltinCall where
  | system (command : List Char)
  | chdir (path : List Char)
  | execvp (file : List Char) (argv : List (List Char))
  | kill (pid : Int) (signalCode : Int)
  | printf (text : List Char)
  | printWorkingDirectory
deriving DecidableEq, Repr

/-- The global variables of `bash_builtin_functions.c`, the environment of the
process (name and value of each variable) and the calls made so far. -/
structure BuiltinState where
  exitEnabled : Int
  waitForInput : Int
  commandWaiting : Option (List Char)
  waitToRead : Int
  variableToRead : Option (List Char)
  environment : List (List Char × List Char)
  calls : List BuiltinCall
deriving DecidableEq, Repr

/-- The variables as their initialisers leave them, for a given environment. -/
def BuiltinState.init (environment : List (List Char × List Char)) : BuiltinState :=
  { exitEnabled := 0, waitForInput := 0, commandWaiting := none, waitToRead := 0,
    variableToRead := none, environment := environment, calls := [] }

/-- Functions `exitNow`, `inputWaiting` and `readFromUser`. -/
def exitNow (st : BuiltinState) : Int := st.exitEnabled

def inputWaiting (st : BuiltinState) : Int := st.waitForInput

def readFromUser (st : BuiltinState) : Int := st.waitToRead

/-- Give `name` the value `value` in an environment: the first entry for
`name` is replaced, or a new entry is added at the end. -/
def envSet : List (List Char × List Char) → List Char → List Char →
    List (List Char × List Char)
  | [], name, value => [(name, value)]
  | (n, v) :: rest, name, value =>
    if n = name then (name, value) :: rest else (n, v) :: envSet rest name value

/-- The C library function `getenv`. -/
def getenv (environment : List (List Char × List Char)) (name : List Char) :
    Option (List Char) :=
  (environment.find? (fun entry => entry.1 = name)).map (fun entry => entry.2)

/-- The C library function `setenv(name, value, 1)`: nothing changes (the call
fails) for a null or empty name and for a name that contains `=`. -/
def setenv (environment : List (List Char × List Char)) (name : Option (List Char))
    (value : List Char) : List (List Char × List Char) :=
  match name with
  | none => environment
  | some name =>
    if name = [] ∨ '=' ∈ name then environment else envSet environment name value

/-- The C library function `putenv`: a string `NAME=VALUE` defines `NAME`; a
string without `=` removes the variable of that name. -/
def putenv (environment : List (List Char × List Char)) (string : List Char) :
    List (List Char × List Char) :=
  if '=' ∈ string then
    envSet environment (string.takeWhile (fun c => c ≠ '='))
      ((string.dropWhile (fun c => c ≠ '=')).drop 1)
  else environment.filter (fun entry => entry.1 ≠ string)

/-- The replacement `escape` makes for one character: the characters of
`esc_char` become a backslash and the letter of `essc_str` at the same
index. -/
def escapeChar (c : Char) : List Char :=
  if c = '\x07' then ['\\', 'a']
  else if c = '\x08' then ['\\', 'b']
  else if c = '\x0c' then ['\\', 'f']
  else if c = '\n' then ['\\', 'n']
  else if c = '\r' then ['\\', 'r']
  else if c = '\t' then ['\\', 't']
  else if c = '\x0b' then ['\\', 'v']
  else if c = '\\' then ['\\', '\\']
  else [c]

/-- Function `escape`. -/
def escape (buffer : List Char) : List Char := buffer.flatMap escapeChar

/-- Function `concatenateArguments` for a command name and an argument array
that are not null: the command name (nothing for `read`), then the escaped
arguments `beg` to `fin`, separated by spaces.  `none` when an argument read
lies outside the array.  The capacity `MAX_COMMAND_LENGTH` of the result is
not modelled. -/
def concatenateArguments (bashCommand : List Char) (commandArguments : List (List Char))
    (beg fin : Int) : Option (List Char) :=
  if beg > fin then some bashCommand
  else
    let fullCommand : List Char :=
      if bashCommand = "read".toList then [] else escape bashCommand ++ [' ']
    match commandArguments[beg.toNat]? with
    | none => none
    | some first =>
      if beg = 0 ∧ fin = 0 then some (fullCommand ++ escape first)
      else
        let more := (commandArguments.drop (beg.toNat + 1)).take (fin - beg).toNat
        if more.length < (fin - beg).toNat then none
        else
          some (fullCommand ++ escape first
            ++ more.flatMap (fun argument => ' ' :: escape argument))

/-- Function `isEnvSet`: the index of the first `=`, or 0 when there is none. -/
def isEnvSet (commandName : List Char) : Nat :=
  if commandName.indexOf '=' < commandName.length then commandName.indexOf '=' else 0

/-- A `system` call with the text `concatenateArguments` builds. -/
def systemConcatenated (st : BuiltinState) (bashCommand : List Char)
    (commandArguments : List (List Char)) (args : Nat) : Option BuiltinState :=
  match concatenateArguments bashCommand commandArguments 0 ((args : Int) - 1) with
  | none => none
  | some command => some { st with calls := st.calls ++ [BuiltinCall.system command] }

def executeDot (st : BuiltinState) (commandName : List Char)
    (commandArguments : List (List Char)) (args : Nat) : Option BuiltinState :=
  systemConcatenated st commandName commandArguments args

def executeSource (st : BuiltinState) (commandArguments : List (List Char)) (args : Nat) :
    Option BuiltinState :=
  systemConcatenated st "source".toList commandArguments args

/-- Function `executeCd` reads `commandArguments[0]` whatever `args` is. -/
def executeCd (st : BuiltinState) (commandArguments : List (List Char)) : Option BuiltinState :=
  match commandArguments[0]? with
  | none => none
  | some path => some { st with calls := st.calls ++ [BuiltinCall.chdir path] }

/-- Functions `executeDeclare` and `executeTypeset`, which differ in the
command they hand to `system`. -/
def executeDeclare (st : BuiltinState) (hostCommand : List Char)
    (commandArguments : List (List Char)) (args : Nat) : Option BuiltinState :=
  if args = 0 then some { st with calls := st.calls ++ [BuiltinCall.system hostCommand] }
  else
    match commandArguments[0]? with
    | none => none
    | some string => some { st with environment := putenv st.environment string }

def executeEcho (st : BuiltinState) (commandArguments : List (List Char)) (args : Nat) :
    Option BuiltinState :=
  systemConcatenated st "echo".toList commandArguments args

/-- Function `executeExec`: the model goes on as the C code does when `execvp`
returns, that is, when it fails; when it succeeds the image of the shell is
replaced and nothing of the program runs any more. -/
def executeExec (st : BuiltinState) (commandArguments : List (List Char)) :
    Option BuiltinState :=
  match commandArguments[0]? with
  | none => none
  | some file =>
    some { st with calls := st.calls ++ [BuiltinCall.execvp file commandArguments] }

def executeExit (st : BuiltinState) : BuiltinState := { st with exitEnabled := 1 }

def executeExport (st : BuiltinState) (commandArguments : List (List Char)) :
    Option BuiltinState :=
  match commandArguments[0]? with
  | none => none
  | some string => some { st with environment := putenv st.environment string }

/-- Function `executeHistory`: only the complaint about too many arguments has
an effect; with one argument the argument is read by `sscanf`. -/
def executeHistory (st : BuiltinState) (commandArguments : List (List Char)) (args : Nat) :
    Option BuiltinState :=
  if args > 1 then
    some { st with calls := st.calls
      ++ [BuiltinCall.printf "nicpoyia-sh: history: too many arguments\n".toList] }
  else if args = 1 then
    match commandArguments[0]? with
    | none => none
    | some _ => some st
  else some st

/-- The usage line of `kill`. -/
def killUsage : List Char :=
  ("kill: usage: kill [-s sigspec | -n signum | -sigspec] pid | jobspec ... "
    ++ "or kill -l [sigspec]\n").toList

/-- Function `executeKill`; 15 is `SIGTERM`. -/
def executeKill (st : BuiltinState) (commandArguments : List (List Char)) (args : Nat) :
    Option BuiltinState :=
  if args = 0 then some { st with calls := st.calls ++ [BuiltinCall.printf killUsage] }
  else
    match commandArguments[0]? with
    | none => none
    | some first =>
      if args = 1 then
        some { st with calls := st.calls ++ [BuiltinCall.kill (atoi first) 15] }
      else if charAt first 0 ≠ '-' then
        some { st with calls := st.calls ++ [BuiltinCall.printf killUsage] }
      else
        match commandArguments[1]? with
        | none => none
        | some second =>
          some { st with calls := st.calls
            ++ [BuiltinCall.kill (atoi second) (atoi (first.drop 1))] }

/-- The scan of `parseLetCommand`: the index of the last `=` and the index of
the last operator character, from the values `equalIndex` and `operatorIndex`
reached at index `argIndex`. -/
def parseLetScan : List Char → Nat → Nat → Nat → Nat × Nat
  | [], _, equalIndex, operatorIndex => (equalIndex, operatorIndex)
  | c :: rest, argIndex, equalIndex, operatorIndex =>
    if c = '=' then parseLetScan rest (argIndex + 1) argIndex operatorIndex
    else if c = '+' ∨ c = '-' ∨ c = '*' ∨ c = '/' ∨ c = '%' then
      parseLetScan rest (argIndex + 1) equalIndex argIndex
    else parseLetScan rest (argIndex + 1) equalIndex operatorIndex

/-- What `parseLetCommand` hands back. -/
structure LetCommand where
  variableName : Option (List Char)
  value1 : Int
  value2 : Int
  operator : Char
deriving DecidableEq, Repr

/-- Function `parseLetCommand`: the inner `none` is the `-1` return, the outer
`none` a null string handed to `atoi`.  The lengths given to `subString` are
`int` values converted to `size_t`. -/
def parseLetCommand (argument : List Char) : Option (Option LetCommand) :=
  let scan := parseLetScan argument 0 0 0
  let equalIndex := scan.1
  let operatorIndex := scan.2
  if equalIndex = 0 ∨ operatorIndex = 0 then some none
  else if ((equalIndex : Int) - (operatorIndex : Int)).natAbs ≤ 1 then some none
  else
    let value1String := subString argument (equalIndex + 1)
      (((operatorIndex : Int) - (equalIndex : Int) - 1) % (2 : Int) ^ 64).toNat
    let value2String := subString argument (operatorIndex + 1)
      (((argument.length : Int) - (operatorIndex : Int) - 1) % (2 : Int) ^ 64).toNat
    match value1String, value2String with
    | some s1, some s2 =>
      some (some { variableName := subString argument 0 equalIndex,
                   value1 := atoi s1, value2 := atoi s2,
                   operator := charAt argument operatorIndex })
    | _, _ => none

/-- The bounds of the C type `int`. -/
def INT_MIN : Int := -2147483648

def INT_MAX : Int := 2147483647

/-- The arithmetic of `executeLet` on `int` values: `/` truncates toward zero
and `%` is its remainder; `none` for a division by zero and for a result
outside the range of `int`, where C leaves the behaviour undefined.  An
operator character other than the five leaves `result` at 0. -/
def letResult (value1 value2 : Int) (operator : Char) : Option Int :=
  let result : Option Int :=
    if operator = '+' then some (value1 + value2)
    else if operator = '-' then some (value1 - value2)
    else if operator = '*' then some (value1 * value2)
    else if operator = '/' then (if value2 = 0 then none else some (Int.tdiv value1 value2))
    else if operator = '%' then (if value2 = 0 then none else some (Int.tmod value1 value2))
    else some 0
  match result with
  | none => none
  | some r => if INT_MIN ≤ r ∧ r ≤ INT_MAX then some r else none

/-- The text `sprintf` writes for `%d`. -/
def decimal (n : Int) : List Char := (toString n).toList

def executeLet (st : BuiltinState) (commandArguments : List (List Char)) (args : Nat) :
    Option BuiltinState :=
  if args = 0 then
    some { st with calls := st.calls
      ++ [BuiltinCall.printf "nicpoyia-sh: let: expression expected\n".toList] }
  else
    match commandArguments[0]? with
    | none => none
    | some argument =>
      match parseLetCommand argument with
      | none => none
      | some none => some st
      | some (some parsed) =>
        match letResult parsed.value1 parsed.value2 parsed.operator with
        | none => none
        | some result =>
          some { st with
            environment := setenv st.environment parsed.variableName (decimal result) }

def executeLocal (st : BuiltinState) (commandArguments : List (List Char)) (args : Nat) :
    Option BuiltinState :=
  if args = 0 then some { st with waitForInput := 1, commandWaiting := some "local".toList }
  else systemConcatenated st "local".toList commandArguments args

/-- Function `executeLogout`; `logoutFails` is whether `system` reports a
non-zero status for the host's `logout`. -/
def executeLogout (logoutFails : Bool) (st : BuiltinState) : BuiltinState :=
  let st1 : BuiltinState :=
    { st with calls := st.calls ++ [BuiltinCall.system "logout 2> /dev/null".toList] }
  if logoutFails then
    { st1 with calls := st1.calls ++ [BuiltinCall.printf
        "nicpoyia-sh: logout: not login shell: use \x60exit\x27\n".toList] }
  else st1

def executePwd (st : BuiltinState) : BuiltinState :=
  { st with calls := st.calls ++ [BuiltinCall.printWorkingDirectory] }

/-- The usage line of `read`. -/
def readUsage : List Char :=
  ("read: usage: read [-ers] [-a array] [-d delim] [-i text] [-n nchars] [-N nchars] "
    ++ "[-p prompt] [-t timeout] [-u fd] [name ...]\n").toList

/-- The `for` loop of `executeRead` that looks for the variable name: the
index of the last argument that starts neither with `-` nor with `"`. -/
def readVariableScan (commandArguments : List (List Char)) : List Nat → Int → Option Int
  | [], variableIndex => some variableIndex
  | i :: rest, variableIndex =>
    match commandArguments[i]? with
    | none => none
    | some argument =>
      if charAt argument 0 ≠ '-' ∧ charAt argument 0 ≠ '"' then
        readVariableScan commandArguments rest (i : Int)
      else readVariableScan commandArguments rest variableIndex

/-- The `-p` case of `executeRead`: the pointer `commandArguments[1]` is moved
one character on, the argument before the variable name is cut at the index
"length of the last argument minus one", and the arguments 1 to
`variableIndex - 1` are printed.  `none` when a read or the write lies outside
a string or the array. -/
def readPrompt (commandArguments : List (List Char)) (args variableIndex : Nat) :
    Option (List Char) :=
  match commandArguments[1]?, commandArguments[args - 1]? with
  | some second, some last =>
    if second = [] ∨ last = [] then none
    else
      let moved := commandArguments.set 1 (second.drop 1)
      match moved[variableIndex - 1]? with
      | none => none
      | some target =>
        if target.length < last.length - 1 then none
        else
          let cut := moved.set (variableIndex - 1) (target.take (last.length - 1))
          match concatenateArguments "read".toList cut 1 ((variableIndex : Int) - 1) with
          | none => none
          | some text => some (text ++ ['\n'])
  | _, _ => none

/-- Function `executeRead`.  The buffer the variable name is copied into is
allocated two bytes short; buffer sizes are not modelled. -/
def executeRead (st : BuiltinState) (commandArguments : List (List Char)) (args : Nat) :
    Option BuiltinState :=
  if st.waitToRead ≠ 0 then
    match commandArguments[0]? with
    | none => none
    | some value =>
      some { st with environment := setenv st.environment st.variableToRead value,
                     waitToRead := 0, variableToRead := none }
  else if args = 0 then
    some { st with waitForInput := 1, commandWaiting := some "read".toList }
  else
    match (if args = 2 then commandArguments[1]? else some []) with
    | none => none
    | some second =>
      if args = 2 ∧ charAt second 0 = '-' then
        some { st with calls := st.calls ++ [BuiltinCall.printf readUsage] }
      else if st.waitForInput ≠ 0 then some st
      else
        match readVariableScan commandArguments (List.range args) (-1) with
        | none => none
        | some variableIndex =>
          if variableIndex < 0 then some st
          else
            let prompted : Option BuiltinState :=
              if variableIndex ≥ 2
                  ∧ (commandArguments.getD 0 []).length = 2
                  ∧ charAt (commandArguments.getD 0 []) 1 = 'p' then
                match readPrompt commandArguments args variableIndex.toNat with
                | none => none
                | some text => some { st with calls := st.calls ++ [BuiltinCall.printf text] }
              else some st
            match prompted with
            | none => none
            | some st1 =>
              some { st1 with variableToRead := commandArguments[variableIndex.toNat]?,
                              waitToRead := 1,
                              commandWaiting := some "read".toList }

def executeClear (st : BuiltinState) : BuiltinState :=
  { st with calls := st.calls ++ [BuiltinCall.system "clear".toList] }

def executeSetEnv (st : BuiltinState) (commandName : List Char) : BuiltinState :=
  { st with environment := putenv st.environment commandName }

/-- Function `executeBashBuiltinFunction` for a command name that is not null:
the returned value and the new state; `none` when a built-in reads outside the
argument array. -/
def executeBashBuiltinFunction (logoutFails : Bool) (st : BuiltinState)
    (commandName : List Char) (commandArguments : List (List Char)) (args : Nat) :
    Option (Int × BuiltinState) :=
  if charAt commandName 0 = '.' then
    (executeDot st commandName commandArguments args).map (fun s => (1, s))
  else if commandName = "source".toList then
    (executeSource st commandArguments args).map (fun s => (1, s))
  else if commandName = "cd".toList then
    (executeCd st commandArguments).map (fun s => (1, s))
  else if commandName = "declare".toList then
    (executeDeclare st "declare".toList commandArguments args).map (fun s => (1, s))
  else if commandName = "typeset".toList then
    (executeDeclare st "typeset".toList commandArguments args).map (fun s => (1, s))
  else if commandName = "echo".toList then
    (executeEcho st commandArguments args).map (fun s => (1, s))
  else if commandName = "exec".toList then
    (if args = 0 then some (-1, st)
     else (executeExec st commandArguments).map (fun s => (1, s)))
  else if commandName = "exit".toList then some (1, executeExit st)
  else if commandName = "export".toList then
    (if args = 0 then some (-1, st)
     else (executeExport st commandArguments).map (fun s => (1, s)))
  else if commandName = "history".toList then
    (executeHistory st commandArguments args).map (fun s => (1, s))
  else if commandName = "kill".toList then
    (executeKill st commandArguments args).map (fun s => (1, s))
  else if commandName = "let".toList then
    (executeLet st commandArguments args).map (fun s => (1, s))
  else if commandName = "local".toList then
    (executeLocal st commandArguments args).map (fun s => (1, s))
  else if commandName = "logout".toList then some (1, executeLogout logoutFails st)
  else if commandName = "pwd".toList then some (1, executePwd st)
  else if commandName = "read".toList then
    (executeRead st commandArguments args).map (fun s => (1, s))
  else if commandName = "clear".toList then some (1, executeClear st)
  else if isEnvSet commandName > 0 then some (1, executeSetEnv st commandName)
  else some (0, st)

/-- Function `continueBashExecution`: the pending command is dispatched with
the input line as its only argument; `none` also when `commandWaiting` is
null, which `executeBashBuiltinFunction` dereferences. -/
def continueBashExecution (logoutFails : Bool) (st : BuiltinState)
    (inputScript : List Char) : Option (Int × BuiltinState) :=
  match st.commandWaiting with
  | none => none
  | some commandName =>
    match executeBashBuiltinFunction logoutFails st commandName [inputScript] 1 with
    | none => none
    | some (continueRsult, st1) =>
      some (continueRsult, { st1 with waitForInput := 0, commandWaiting := none })

/-! ## pipes.c, jobs.c: running the stages of a job -/

/-- Function `toLowerCase` (`string_processing.c`): the string in lower case,
and whether that changed a character. -/
def toLowerCase (string : List Char) : List Char × Bool :=
  (string.map Char.toLower, decide (string.map Char.toLower ≠ string))

/-- Capacity of the FIFO array of a job. -/
def MAX_PIPES_PER_JOB : Nat := 256

/-- What the host answers to the calls the job executor makes: whether
`access` finds the FIFO `fifo<i>`, whether `mkfifo` fails for it, whether the
`which` probe finds a command, the value `fork` returns to the shell for the
stage at a position (a PID, or `-1`), and whether the host's `logout`
fails. -/
structure Host where
  fifoExists : Nat → Bool
  mkfifoFails : Nat → Bool
  commandFound : List Char → Bool
  fork : Nat → Int
  logoutFails : Bool

/-- What the job executor does that is visible from outside, in order. -/
inductive JobEvent where
  | mkfifo (fifoName : List Char)
  | removeFifo (fifoName : List Char)
  | executeProcess (pipelinePos : Nat) (commandName : List Char)
      (isBackground lastInBackground : Bool)
  | forked (processPid : Int)
  | waitForeground (processPid : Int)
  | waitpid (nextPid : Int)
  | kill (pid : Int) (signalCode : Int)
  | printJob (jobNumber : Int) (pid : Int) (commandName pipedJob : List Char)
  | commandNotFound (commandName : List Char)
deriving DecidableEq, Repr

/-- The state of the shell between two calls of the job executor. -/
structure ShellState where
  builtins : BuiltinState
  tables : Tables
  events : List JobEvent
deriving DecidableEq, Repr

/-- The name `sprintf(nextFifoName, "fifo%d", i)` writes. -/
def fifoName (i : Nat) : List Char := "fifo".toList ++ decimal (i : Int)

/-- The loop of `createPipes` over the FIFO numbers listed: the names stored
so far and the FIFOs made; the flag tells that `mkfifo` failed and the
function returned `-1`. -/
def createPipesLoop (host : Host) :
    List Nat → List (List Char) → List JobEvent → List (List Char) × List JobEvent × Bool
  | [], pipesArray, made => (pipesArray, made, false)
  | i :: rest, pipesArray, made =>
    if host.fifoExists i = false then
      (if host.mkfifoFails i then (pipesArray, made, true)
       else createPipesLoop host rest (pipesArray ++ [fifoName i])
              (made ++ [JobEvent.mkfifo (fifoName i)]))
    else createPipesLoop host rest (pipesArray ++ [fifoName i]) made

/-- Function `createPipes`: the returned value, the names stored in
`pipesArray` and the FIFOs made. -/
def createPipes (host : Host) (pipedProcesses : Nat) :
    Int × List (List Char) × List JobEvent :=
  let pipesCount : Int := (pipedProcesses : Int) - 1
  if pipesCount > (MAX_PIPES_PER_JOB : Int) then (-1, [], [])
  else
    match createPipesLoop host (List.range pipesCount.toNat) [] [] with
    | (pipesArray, made, true) => (-1, pipesArray, made)
    | (pipesArray, made, false) => (pipesCount, pipesArray, made)

/-- Function `destroyPipes`: the returned value and the `rm -f` calls. -/
def destroyPipes (pipedProcesses : Nat) (pipesArray : List (List Char)) :
    Int × List JobEvent :=
  let pipesCount : Int := (pipedProcesses : Int) - 1
  if pipesCount > (MAX_PIPES_PER_JOB : Int) then (-1, [])
  else (pipesCount, (pipesArray.take pipesCount.toNat).map JobEvent.removeFifo)

/-- Function `executeProcess` as the shell sees it: the returned value, the
tables and what happened.  `forkResult` is what `fork` returns to the shell;
the child's side runs in another process.  `none` when the scan of
`allocateProcess` leaves the table or `forkResult` is not a value `fork`
returns to a parent. -/
def executeProcess (s : Tables) (jobIndex : Nat) (forkResult : Int)
    (isBackground lastInBackground : Bool) : Option (Int × Tables × List JobEvent) :=
  match allocateProcess s with
  | none => none
  | some (processIndex, s0) =>
    if processIndex = -1 then some (-1, s0, [])
    else if s0.actPrCount = 0 then some (-1, s0, [])
    else if s0.processes.getD processIndex.toNat 0 = 0 then some (-1, s0, [])
    else if forkResult = -1 then some (-1, s0, [])
    else if forkResult ≤ 0 then none
    else
      match executeProcessParent s jobIndex forkResult isBackground lastInBackground with
      | none => none
      | some s3 =>
        some (1, s3,
          JobEvent.forked forkResult
            :: (if isBackground then [] else [JobEvent.waitForeground forkResult]))

/-- The variables the stage loop of `handlePipedCommands` carries along. -/
structure StageLoop where
  shell : ShellState
  jobIndex : Int
  forkedProcesses : Int
  processError : Bool
deriving DecidableEq, Repr

/-- How the stage loop ends: through one of its `return` statements, or by
running to completion. -/
inductive StageOutcome where
  | returned (value : Int) (shell : ShellState)
  | completed (vars : StageLoop)
deriving DecidableEq, Repr

/-- The body of the stage loop of `handlePipedCommands` for the stage at
position `i`.  `none` when the stage has no word (`parseCommand` fails and the
command name is used all the same), or a function that is called reads outside
a string or an array. -/
def stageBody (host : Host) (pipedCount : Nat) (pipedJob : List Char)
    (lastInBackground : Bool) (vars : StageLoop) (i : Nat) (stage : List Char) :
    Option StageOutcome :=
  match parseCommand stage with
  | none => none
  | some (commandName, commandArguments, argsCount) =>
    match isBackground commandName commandArguments argsCount with
    | none => none
    | some (userBackground, commandName, argsCount) =>
      let backgroundProcess : Bool := if pipedCount = 1 then userBackground else true
      match executeBashBuiltinFunction host.logoutFails vars.shell.builtins commandName
          commandArguments argsCount with
      | none => none
      | some (builtinResult, builtins) =>
        let shell : ShellState := { vars.shell with builtins := builtins }
        if builtinResult ≠ 0 then some (StageOutcome.completed { vars with shell := shell })
        else
          let started : Int × Tables :=
            if pipedCount = 1 then jobStarted shell.tables else (vars.jobIndex, shell.tables)
          let jobIndex := started.1
          let shell : ShellState := { shell with tables := started.2 }
          if pipedCount = 1 ∧ jobIndex = -1 then some (StageOutcome.returned (-1) shell)
          else if commandName = [] then none
          else
            let commandNameProcessedCut : List Char :=
              if charAt commandName (commandName.length - 1) = '&' then commandName.dropLast
              else commandName
            let lower := toLowerCase commandNameProcessedCut
            if host.commandFound lower.1 ∧ lower.2 = false then
              match executeProcess shell.tables jobIndex.toNat (host.fork i)
                  backgroundProcess lastInBackground with
              | none => none
              | some (executionResult, tables, happened) =>
                let printed : List JobEvent :=
                  if lastInBackground then
                    [JobEvent.printJob (jobIndex + 1)
                      ((tables.jobPIDs.getD jobIndex.toNat []).getD i 0)
                      commandNameProcessedCut pipedJob]
                  else []
                some (StageOutcome.completed
                  { shell := { shell with
                      tables := tables,
                      events := shell.events
                        ++ [JobEvent.executeProcess i commandName backgroundProcess
                              lastInBackground]
                        ++ happened ++ printed },
                    jobIndex := jobIndex,
                    forkedProcesses :=
                      if executionResult ≠ -1 then vars.forkedProcesses + executionResult
                      else vars.forkedProcesses,
                    processError := vars.processError })
            else
              some (StageOutcome.completed
                { shell := { shell with events := shell.events
                    ++ [JobEvent.commandNotFound commandNameProcessedCut] },
                  jobIndex := jobIndex,
                  forkedProcesses := vars.forkedProcesses,
                  processError := true })

/-- The stage loop `for (i = 0; i < pipedCount; i++)` over the stages from
position `i` on. -/
def stageLoop (host : Host) (pipedCount : Nat) (pipedJob : List Char)
    (lastInBackground : Bool) : StageLoop → Nat → List (List Char) → Option StageOutcome
  | vars, _, [] => some (StageOutcome.completed vars)
  | vars, i, stage :: rest =>
    match stageBody host pipedCount pipedJob lastInBackground vars i stage with
    | none => none
    | some (StageOutcome.returned value shell) => some (StageOutcome.returned value shell)
    | some (StageOutcome.completed vars') =>
      stageLoop host pipedCount pipedJob lastInBackground vars' (i + 1) rest

/-- One round of the final wait loop of `handlePipedCommands`: the first
non-zero PID of the job row (0 when there is none) is waited for, the entry
at index `i` of the row, where `i` is the loop variable of the stage loop
after its end, is cleared, and the process slot of the PID is released.
`none` when `i` lies outside the row. -/
def waitRound (s : Tables) (jobIndex i : Nat) : Option (Tables × Int) :=
  let row := s.jobPIDs.getD jobIndex []
  let nextPid : Int := ((row.take MAX_ACTIVE_PROCESSES).find? (fun pid => pid ≠ 0)).getD 0
  if MAX_ACTIVE_PROCESSES ≤ i then none
  else
    let s1 : Tables := { s with jobPIDs := s.jobPIDs.set jobIndex (row.set i 0) }
    some ((processFinished s1 nextPid).2, nextPid)

/-- The final wait loop, for the number of rounds still to run. -/
def waitRounds : Nat → Tables → Nat → Nat → List Int → Option (Tables × List Int)
  | 0, s, _, _, waited => some (s, waited)
  | rounds + 1, s, jobIndex, i, waited =>
    match waitRound s jobIndex i with
    | none => none
    | some (s1, nextPid) => waitRounds rounds s1 jobIndex i (waited ++ [nextPid])

/-- Function `handlePipedCommands`: the returned value and the state of the
shell.  `pipedCount` is the number of stages `executeJob` counted.  `none`
when the behaviour of the C code is undefined. -/
def handlePipedCommands (host : Host) (shell : ShellState) (pipedCount : Nat)
    (pipedJob : List Char) : Option (Int × ShellState) :=
  if pipedCount = 0 then none
  else
    match getPipedProcesses pipedJob with
    | none => none
    | some pipedProcesses =>
      let pipes : Int × List (List Char) × List JobEvent :=
        if pipedCount > 1 then createPipes host pipedCount else (0, [], [])
      let shell : ShellState := { shell with events := shell.events ++ pipes.2.2 }
      if pipedCount > 1 ∧ pipes.1 = -1 then some (-1, shell)
      else
        let started : Int × Tables :=
          if pipedCount > 1 then jobStarted shell.tables else (0, shell.tables)
        let shell : ShellState := { shell with tables := started.2 }
        if pipedCount > 1 ∧ started.1 = -1 then some (-1, shell)
        else
          let lastInBackground : Bool :=
            decide (charAt pipedJob (pipedJob.length - 1) = '&')
          match stageLoop host pipedCount pipedJob lastInBackground
              { shell := shell, jobIndex := 0, forkedProcesses := 0, processError := false }
              0 (pipedProcesses.take pipedCount) with
          | none => none
          | some (StageOutcome.returned value shell) => some (value, shell)
          | some (StageOutcome.completed vars) =>
            let jobIndex := vars.jobIndex.toNat
            let shell := vars.shell
            if vars.processError then
              let count := (shell.tables.jobProcessesActive.getD jobIndex 0).toNat
              let kills : List JobEvent :=
                (List.range count).map (fun processIndex =>
                  JobEvent.kill ((shell.tables.jobPIDs.getD jobIndex []).getD processIndex 0) 9)
              some (-1,
                { shell with
                  events := shell.events ++ kills,
                  tables := { shell.tables with
                    jobsRunning := shell.tables.jobsRunning.set jobIndex 0,
                    activeJobs := shell.tables.activeJobs - 1 } })
            else
              let waitedFor : Option (Tables × List Int) :=
                if lastInBackground = false ∧ pipedCount > 1 then
                  match waitRounds (shell.tables.jobProcessesActive.getD jobIndex 0).toNat
                      shell.tables jobIndex pipedCount [] with
                  | none => none
                  | some (tables, waited) =>
                    some ({ tables with
                      jobProcessesActive := tables.jobProcessesActive.set jobIndex 0 },
                      waited)
                else some (shell.tables, [])
              match waitedFor with
              | none => none
              | some (tables, waited) =>
                let tables : Tables :=
                  if lastInBackground = false then
                    { tables with jobsRunning := tables.jobsRunning.set jobIndex 0,
                                  activeJobs := tables.activeJobs - 1 }
                  else tables
                let destroyed : Int × List JobEvent :=
                  if pipedCount > 1 then destroyPipes pipedCount pipes.2.1 else (0, [])
                let shell : ShellState :=
                  { shell with
                    tables := tables,
                    events := shell.events ++ waited.map JobEvent.waitpid ++ destroyed.2 }
                if pipedCount > 1 ∧ destroyed.1 = -1 then some (-1, shell)
                else some (vars.forkedProcesses, shell)

/-- Function `executeJob`: the stages are counted with `getPipedProcesses`
and handed to `handlePipedCommands`. -/
def executeJob (host : Host) (shell : ShellState) (jobScript : List Char) :
    Option (Int × ShellState) :=
  handlePipedCommands host shell (strtokAll '|' jobScript).length jobScript

/-! ## Definitions used to state the properties -/

/-- The parts with `&` re-attached: every part but the last, and the last one
when `b` holds. -/
def attachAmp (b : Bool) : List (List Char) → List (List Char)
  | [] => []
  | [p] => [if b then p ++ ['&'] else p]
  | p :: q :: r => (p ++ ['&']) :: attachAmp b (q :: r)

/-- The parts `splitBackgroundAndSerial` stores when its bound is not reached:
every `&`-part cut at `;`. -/
def pieces (word : List Char) : List (List Char) :=
  (splilToParts word '&').flatMap (fun a => splilToParts a ';')

/-- The string from its first non-space character on: what the docstring of
`removeSpacesFromBeginning` describes. -/
def specTrimLeadingSpaces (s : List Char) : List Char :=
  s.dropWhile (fun c => c = ' ')

/-- The parts of one flushed `lastConcatJob`, each from its first non-space
character on. -/
def trimmedParts (lastConcatJob : List Char) : List (List Char) :=
  (splitBackgroundAndSerial lastConcatJob).map specTrimLeadingSpaces

/-- The loop of `splitJobs` with `trimmedParts` for the jobs of a flush. -/
def trimmedJobsLoop : List Char → List (List Char) → List (List Char)
  | lastConcatJob, [] =>
    if lastConcatJob.length > 0 then trimmedParts lastConcatJob else []
  | lastConcatJob, word :: words =>
    let concat :=
      if lastConcatJob.length = 0 then word else lastConcatJob ++ [' '] ++ word
    if charAt concat (concat.length - 1) = '&' ∨ charAt concat (concat.length - 1) = ';' then
      trimmedParts concat ++ trimmedJobsLoop [] words
    else trimmedJobsLoop concat words

/-- The jobs of a script given by its words, with `trimmedParts` for the jobs
of a flush. -/
def trimmedJobs (splittedWords : List (List Char)) : List (List Char) :=
  trimmedJobsLoop [] splittedWords

/-- No `;` and no `&` of the text is directly followed by a space. -/
def noSpaceAfterSeparator : List Char → Bool
  | c :: c' :: cs =>
    !((c = ';' || c = '&') && c' = ' ') && noSpaceAfterSeparator (c' :: cs)
  | _ => true

/-- The shape of `lastConcatJob` in `splitJobs`: the text does not start with
a space and none of its separators is followed by one. -/
def wellJoined (s : List Char) : Prop :=
  charAt s 0 ≠ ' ' ∧ noSpaceAfterSeparator s = true

/-- Characters that are command text: everything but the space and the two
job separators. -/
def isCommandText (c : Char) : Bool := !(c = ' ' || c = ';' || c = '&')

/-- The tokens of a text in the wording of the specification: cut the text at
every occurrence of the separator and keep the non-empty pieces. -/
def specTokens (d : Char) (s : List Char) : List (List Char) :=
  (s.splitOn d).filter (fun t => t ≠ [])

/-- Collapse every run of spaces to a single space. -/
def specCollapseSpaces : List Char → List Char
  | c :: c' :: cs =>
    if c = ' ' ∧ c' = ' ' then specCollapseSpaces (c' :: cs)
    else c :: specCollapseSpaces (c' :: cs)
  | cs => cs

/-- Whitespace normalisation in the wording of the specification: trailing
and leading spaces removed, every run of spaces collapsed to one. -/
def specNormaliseSpaces (s : List Char) : List Char :=
  specCollapseSpaces ((s.rdropWhile (fun c => c = ' ')).dropWhile (fun c => c = ' '))

/-- A token is redirection-related in the wording of the specification (4.B):
its first character is `<` or `>`, or it is an FD character (`0`, `1`, `2`,
`&`) followed by a redirection symbol, in the token itself or at the start of
the next token. -/
def specRedirectionRelated (token : List Char) (next : Option (List Char)) : Bool :=
  isRedirectionSymbol (charAt token 0)
  || (isFileDescriptor (charAt token 0)
      && (isRedirectionSymbol (charAt token 1)
          || (token.length == 1
              && (match next with
                  | some n => isRedirectionSymbol (charAt n 0)
                  | none => false))))

/-- Number of argument tokens that precede the first redirection-related
token, in the wording of the specification. -/
def specArgumentCount : List (List Char) → Nat
  | [] => 0
  | token :: rest =>
    if specRedirectionRelated token rest.head? then 0 else 1 + specArgumentCount rest

/-- The negation of the test that makes `splitRedirectionStrings` skip a word
as an ordinary command word: the word belongs to the redirection region. -/
def inRedirectionRegion (st : RedScan) (word : List Char) : Bool :=
  isFileDescriptor (charAt word 0) || isRedirectionSymbol (charAt word 0)
    || st.redSymbolPassed || st.redStrings.length != 0

/-- The target of the last clause whose redirection type satisfies `p`. -/
def lastTargetOf (p : Nat → Bool) : List (List Char) → Option (List Char)
  | [] => none
  | clause :: rest =>
    match lastTargetOf p rest with
    | some target => some target
    | none =>
      match findRedirections clause with
      | some (redType, target) => if p redType then some target else none
      | none => none

/-- Number of non-zero entries of an array. -/
def nonZeroCount (l : List Int) : Nat := l.countP (fun x => x ≠ 0)

/-- The process table is well formed and `actPrCount` equals the number of
non-zero entries of `processes[0..9]`. -/
def procInv (s : Tables) : Prop :=
  s.processes.length = MAX_ACTIVE_PROCESSES
    ∧ s.actPrCount = (nonZeroCount s.processes : Int)

/-- Every non-zero PID recorded in a row of `jobPIDs` also occupies a slot of
the process table. -/
def jobRowsInv (s : Tables) : Prop :=
  ∀ row ∈ s.jobPIDs, ∀ pid ∈ row, pid ≠ 0 → pid ∈ s.processes

instance (s : Tables) : Decidable (procInv s) := by
  unfold procInv; infer_instance

instance (s : Tables) : Decidable (jobRowsInv s) := by
  unfold jobRowsInv; infer_instance

/-- The tables after start-up: every slot free, nothing printed. -/
def Tables.empty : Tables :=
  { processes := List.replicate MAX_ACTIVE_PROCESSES 0
    actPrCount := 0
    activeJobs := 0
    jobsRunning := List.replicate MAX_JOBS_RUNNING 0
    jobProcessesActive := List.replicate MAX_JOBS_RUNNING 0
    jobPIDs := List.replicate MAX_JOBS_RUNNING (List.replicate MAX_ACTIVE_PROCESSES 0)
    printed := [] }

/-- The state in which `executeProcess` continues after `fork`: slot `i`,
reserved by `allocateProcess`, holds the child's PID. -/
def slotTaken (s : Tables) (i : Nat) (pid : Int) : Tables :=
  { s with processes := s.processes.set i pid, actPrCount := s.actPrCount + 1 }

/-- The tables while two background jobs run, each with one process: PID 41
in process slot 0 for job 1, PID 42 in process slot 1 for job 2. -/
def Tables.twoJobs : Tables :=
  { processes := [41, 42, 0, 0, 0, 0, 0, 0, 0, 0]
    actPrCount := 2
    activeJobs := 2
    jobsRunning := [1, 1, 0, 0, 0, 0, 0, 0, 0, 0]
    jobProcessesActive := [1, 1, 0, 0, 0, 0, 0, 0, 0, 0]
    jobPIDs := [41, 0, 0, 0, 0, 0, 0, 0, 0, 0] :: [42, 0, 0, 0, 0, 0, 0, 0, 0, 0]
      :: List.replicate 8 (List.replicate MAX_ACTIVE_PROCESSES 0)
    printed := [] }

/-- The tables of `Tables.twoJobs` after the process 41 of job 1 has finished
and has been released: process slot 0 and job slot 0 are free again. -/
def Tables.secondJobLeft : Tables :=
  { processes := [0, 42, 0, 0, 0, 0, 0, 0, 0, 0]
    actPrCount := 1
    activeJobs := 1
    jobsRunning := [0, 1, 0, 0, 0, 0, 0, 0, 0, 0]
    jobProcessesActive := [0, 1, 0, 0, 0, 0, 0, 0, 0, 0]
    jobPIDs := [0, 0, 0, 0, 0, 0, 0, 0, 0, 0] :: [42, 0, 0, 0, 0, 0, 0, 0, 0, 0]
      :: List.replicate 8 (List.replicate MAX_ACTIVE_PROCESSES 0)
    printed := [OutLine.jobFinished 1] }

/-- The names the specification lists as built-ins (4.F); a standalone `K=V`
is recognised besides. -/
def recognisedNames : List (List Char) :=
  ["cd".toList, "exit".toList, "export".toList, "declare".toList, "typeset".toList,
   "pwd".toList, "clear".toList, "echo".toList, "source".toList, ".".toList,
   "local".toList, "kill".toList, "let".toList, "history".toList, "exec".toList,
   "logout".toList, "read".toList]

/-- A command name of the form `K=V` with a non-empty `K`. -/
def isAssignment (commandName : List Char) : Prop :=
  ∃ K V : List Char, K ≠ [] ∧ '=' ∉ K ∧ commandName = K ++ '=' :: V

/-- One call of the built-in layer: a dispatch of a command, or the
continuation of the pending command with an input line. -/
inductive BuiltinOp where
  | dispatch (commandName : List Char) (commandArguments : List (List Char)) (args : Nat)
  | continuation (inputScript : List Char)
deriving DecidableEq, Repr

/-- The state after one call, when it is defined. -/
def runOp (logoutFails : Bool) (st : BuiltinState) : BuiltinOp → Option BuiltinState
  | BuiltinOp.dispatch commandName commandArguments args =>
    (executeBashBuiltinFunction logoutFails st commandName commandArguments args).map
      (fun r => r.2)
  | BuiltinOp.continuation inputScript =>
    (continueBashExecution logoutFails st inputScript).map (fun r => r.2)

/-- The state after a sequence of calls, when each of them is defined. -/
def runOps (logoutFails : Bool) : BuiltinState → List BuiltinOp → Option BuiltinState
  | st, [] => some st
  | st, op :: ops =>
    match runOp logoutFails st op with
    | none => none
    | some st1 => runOps logoutFails st1 ops

/-- The command name a call dispatches: its own, or the pending one. -/
def dispatchedName (st : BuiltinState) : BuiltinOp → Option (List Char)
  | BuiltinOp.dispatch commandName _ _ => some commandName
  | BuiltinOp.continuation _ => st.commandWaiting

/-- A host on which no command is found and nothing fails. -/
def Host.quiet : Host :=
  { fifoExists := fun _ => false
    mkfifoFails := fun _ => false
    commandFound := fun _ => false
    fork := fun _ => -1
    logoutFails := false }

/-- The shell after start-up: the variables of the built-in layer as
initialised, empty tables, nothing done yet. -/
def ShellState.init : ShellState :=
  { builtins := BuiltinState.init [], tables := Tables.empty, events := [] }

/-- The jobs of a script line run one after the other by `executeJob`, as
`executeScript` does. -/
def executeJobs (host : Host) : ShellState → List (List Char) → Option ShellState
  | shell, [] => some shell
  | shell, job :: jobs =>
    match executeJob host shell job with
    | none => none
    | some (_, shell1) => executeJobs host shell1 jobs

/-- A command name the dispatcher treats as a built-in: it starts with `.`, is
one of the recognised names, or is an assignment `K=V`. -/
def isBuiltinName (commandName : List Char) : Prop :=
  charAt commandName 0 = '.' ∨ commandName ∈ recognisedNames ∨ isAssignment commandName

/-- A stage of a job whose command name, as `parseCommand` and `isBackground`
leave it, is a built-in. -/
def isBuiltinStage (stage : List Char) : Prop :=
  ∃ (commandName : List Char) (commandArguments : List (List Char)) (argsCount : Nat)
    (userBackground : Bool) (name : List Char) (count : Nat),
    parseCommand stage = some (commandName, commandArguments, argsCount)
    ∧ isBackground commandName commandArguments argsCount = some (userBackground, name, count)
    ∧ isBuiltinName name

/-- The events that start a process: a call of `executeProcess` and a `fork`. -/
def JobEvent.startsProcess : JobEvent → Bool
  | JobEvent.executeProcess _ _ _ _ => true
  | JobEvent.forked _ => true
  | _ => false

/-- The tables when every job slot is taken. -/
def Tables.allJobsRunning : Tables :=
  { Tables.empty with
    activeJobs := 10
    jobsRunning := List.replicate MAX_JOBS_RUNNING 1 }

/-- The state a dispatch of `read X` leaves behind the initial one. -/
def BuiltinState.awaitingX : BuiltinState :=
  { BuiltinState.init [] with
    waitToRead := 1
    variableToRead := some "X".toList
    commandWaiting := some "read".toList }

/-- The state the dispatches of `read X` and `local` leave behind the initial
one. -/
def BuiltinState.bothPending : BuiltinState :=
  { BuiltinState.init [] with
    waitForInput := 1
    waitToRead := 1
    variableToRead := some "X".toList
    commandWaiting := some "local".toList }

/-- The state after `BuiltinState.bothPending` has been continued with the
line `5`. -/
def BuiltinState.readLeftPending : BuiltinState :=
  { BuiltinState.init [] with
    waitToRead := 1
    variableToRead := some "X".toList
    calls := [BuiltinCall.system "local 5".toList] }

/-- The characters `parseLetCommand` takes for an operator. -/
def isLetOperator (c : Char) : Prop := c = '+' ∨ c = '-' ∨ c = '*' ∨ c = '/' ∨ c = '%'

instance (c : Char) : Decidable (isLetOperator c) := by
  unfold isLetOperator; infer_instance

/-- A text without `=` and without operator characters. -/
def plainLetText (s : List Char) : Prop := ∀ c ∈ s, c ≠ '=' ∧ ¬ isLetOperator c

/-- The argument `V=AopB` of `let`, for the texts of its three parts. -/
def letArgument (V a : List Char) (op : Char) (b : List Char) : List Char :=
  V ++ '=' :: (a ++ op :: b)

instance (s : List Char) : Decidable (plainLetText s) := by
  unfold plainLetText; infer_instance

/-- The characters the specification has `escape` replace, each with the
letter that follows the backslash in its replacement. -/
def escapeTable : List (Char × Char) :=
  [('\x07', 'a'), ('\x08', 'b'), ('\x0c', 'f'), ('\n', 'n'), ('\r', 'r'), ('\t', 't'),
   ('\x0b', 'v'), ('\\', '\\')]

/-- The seven control characters of the table. -/
def escapedControls : List Char := ['\x07', '\x08', '\x0c', '\n', '\r', '\t', '\x0b']

/-- The escaped form of a string as the specification words it: each
character of the table becomes a backslash and its letter, every other
character is copied. -/
def specEscape : List Char → List Char
  | [] => []
  | c :: s =>
    match escapeTable.lookup c with
    | some letter => '\\' :: letter :: specEscape s
    | none => c :: specEscape s

/-- Whether `escape` replaces the character. -/
def isEscaped (c : Char) : Bool := (escapeTable.lookup c).isSome

/-- The events of a launch in the foreground: a call of `executeProcess` with
`isBackground = 0`, and the blocking `wait` such a call makes. -/
def JobEvent.inForeground : JobEvent → Bool
  | JobEvent.executeProcess _ _ isBackground _ => !isBackground
  | JobEvent.waitForeground _ => true
  | _ => false

/-- The state of the shell in which the stage loop ended. -/
def StageOutcome.shellOf : StageOutcome → ShellState
  | StageOutcome.returned _ shell => shell
  | StageOutcome.completed vars => vars.shell

/-- A host on which every command is found and `fork` gives the stage at
position `i` the PID `41 + i`. -/
def Host.running : Host :=
  { fifoExists := fun _ => false
    mkfifoFails := fun _ => false
    commandFound := fun _ => true
    fork := fun i => 41 + (i : Int)
    logoutFails := false }

/-- What `handlePipedCommands` returns for the job `ls | wc` on
`Host.running`, from the initial state: two forked processes; the FIFO made
and removed, the two launches, the two waits; the row of job 1 still holding
both PIDs. -/
def lsWcOutcome : Int × ShellState :=
  (2,
   { builtins := BuiltinState.init []
     tables := { Tables.empty with
       jobPIDs := Tables.empty.jobPIDs.set 0 [41, 42, 0, 0, 0, 0, 0, 0, 0, 0] }
     events :=
       [JobEvent.mkfifo "fifo0".toList,
        JobEvent.executeProcess 0 "ls".toList true false, JobEvent.forked 41,
        JobEvent.executeProcess 1 "wc".toList true false, JobEvent.forked 42,
        JobEvent.waitpid 41, JobEvent.waitpid 41,
        JobEvent.removeFifo "fifo0".toList] })

/-- The tables after a job was started, the processes 41 and 42 were recorded
in it, and 41 completed: the row of the job is `[0, 42, 0, ...]` and its count
is 1. -/
def Tables.firstOfTwoLeft : Tables :=
  (jobProcessCompleted
    (processStarted (processStarted (jobStarted Tables.empty).2 0 41).2 0 42).2 0 41).2

/-- The tables while the background job `a | b | c &` runs: the PIDs 41, 42
and 43 in the process slots 0, 1 and 2, all three recorded in the row of
job 1. -/
def Tables.threeStageJob : Tables :=
  { processes := [41, 42, 43, 0, 0, 0, 0, 0, 0, 0]
    actPrCount := 3
    activeJobs := 1
    jobsRunning := [1, 0, 0, 0, 0, 0, 0, 0, 0, 0]
    jobProcessesActive := [3, 0, 0, 0, 0, 0, 0, 0, 0, 0]
    jobPIDs := [41, 42, 43, 0, 0, 0, 0, 0, 0, 0]
      :: List.replicate 9 (List.replicate MAX_ACTIVE_PROCESSES 0)
    printed := [] }

/-- The tables of `Tables.threeStageJob` after the process 41 has been
released: slot 0 is free, `actPrCount` is 2, and the job still counts two
processes, 42 and 43. -/
def Tables.firstStageReaped : Tables :=
  { processes := [0, 42, 43, 0, 0, 0, 0, 0, 0, 0]
    actPrCount := 2
    activeJobs := 1
    jobsRunning := [1, 0, 0, 0, 0, 0, 0, 0, 0, 0]
    jobProcessesActive := [2, 0, 0, 0, 0, 0, 0, 0, 0, 0]
    jobPIDs := [0, 42, 43, 0, 0, 0, 0, 0, 0, 0]
      :: List.replicate 9 (List.replicate MAX_ACTIVE_PROCESSES 0)
    printed := [] }

/-- A report of the non-blocking wait in which the child 41 has terminated,
42 and 43 are still running, and the wait the loop makes for a free slot,
`waitpid(0, ...)`, which stands for any child of the process group, reports
a terminated child as well. -/
def reportFirstStage (pid : Int) : Bool := decide (pid = 0 ∨ pid = 41)

/-! # Theorems -/

/-! ## Redirection clauses (`findRedirections`, `splitRedirectionStrings`) -/

theorem filter_ne_space_of_not_mem (l : List Char) (h : ' ' ∉ l) :
    l.filter (fun c => c ≠ ' ') = l := by
  rw [List.filter_eq_self]
  intro a ha
  have : a ≠ ' ' := fun e => h (e ▸ ha)
  simpa using this

theorem target_filter (FILE : List Char) (h : ' ' ∉ FILE) :
    (FILE ++ [' ']).filter (fun c => c ≠ ' ') = FILE := by
  rw [List.filter_append, filter_ne_space_of_not_mem FILE h]
  simp

/-- A word that is a whole clause (it starts with an FD character or a
redirection symbol and `isRedirection` gives 1) is stored by
`splitRedirectionStrings` as the word followed by one space, counted once. -/
theorem redScanStep_single_word (w : List Char)
    (h1 : isFileDescriptor (charAt w 0) = true ∨ isRedirectionSymbol (charAt w 0) = true)
    (h2 : isRedirection w = 1) :
    redScanStep RedScan.init w
      = some { nextString := [], nextStringArgs := 0, redSymbolPassed := false,
               redStrings := [w ++ [' ']], redArgs := 1 } := by
  rcases h1 with h1 | h1 <;> simp [redScanStep, RedScan.init, h1, h2]

/-- Claim C1. For every target FILE that is non-empty, contains no space and
does not start with `<` or `>`, `findRedirections` applied to the clause that
`splitRedirectionStrings` assembles from a one-word clause (the word followed
by one space) returns exactly FILE as the target, with type 1 for `<FILE` and
`0<FILE`, type 2 for `>FILE` and `1>FILE`, type 5 for `>>FILE`, type 3 for
`2>FILE` and type 4 for `&>FILE`. -/
theorem findRedirections_accepted_syntaxes (FILE : List Char)
    (hne : FILE ≠ []) (hsp : ' ' ∉ FILE)
    (hlt : FILE.head? ≠ some '<') (hgt : FILE.head? ≠ some '>') :
    findRedirections ('<' :: (FILE ++ [' '])) = some (1, FILE)
    ∧ findRedirections ('0' :: '<' :: (FILE ++ [' '])) = some (1, FILE)
    ∧ findRedirections ('>' :: (FILE ++ [' '])) = some (2, FILE)
    ∧ findRedirections ('1' :: '>' :: (FILE ++ [' '])) = some (2, FILE)
    ∧ findRedirections ('>' :: '>' :: (FILE ++ [' '])) = some (5, FILE)
    ∧ findRedirections ('2' :: '>' :: (FILE ++ [' '])) = some (3, FILE)
    ∧ findRedirections ('&' :: '>' :: (FILE ++ [' '])) = some (4, FILE) := by
  have ht := target_filter FILE hsp
  cases FILE with
  | nil => exact absurd rfl hne
  | cons c cs =>
    have h1 : c ≠ '<' := fun e => hlt (by simp [e])
    have h2 : c ≠ '>' := fun e => hgt (by simp [e])
    have h1' : ¬ '<' = c := fun e => h1 e.symm
    have h2' : ¬ '>' = c := fun e => h2 e.symm
    refine ⟨?_, ?_, ?_, ?_, ?_, ?_, ?_⟩ <;>
      simp [findRedirections, charAt, isRedirectionSymbol, h1, h2, h1', h2'] <;>
      simpa using ht

theorem findRedirections_accepted_syntaxes_witness :
    ("out.txt".toList ≠ [] ∧ ' ' ∉ "out.txt".toList
      ∧ "out.txt".toList.head? ≠ some '<' ∧ "out.txt".toList.head? ≠ some '>')
    ∧ (findRedirections ('<' :: ("out.txt".toList ++ [' '])) = some (1, "out.txt".toList)
      ∧ findRedirections ('0' :: '<' :: ("out.txt".toList ++ [' ']))
          = some (1, "out.txt".toList)
      ∧ findRedirections ('>' :: ("out.txt".toList ++ [' '])) = some (2, "out.txt".toList)
      ∧ findRedirections ('1' :: '>' :: ("out.txt".toList ++ [' ']))
          = some (2, "out.txt".toList)
      ∧ findRedirections ('>' :: '>' :: ("out.txt".toList ++ [' ']))
          = some (5, "out.txt".toList)
      ∧ findRedirections ('2' :: '>' :: ("out.txt".toList ++ [' ']))
          = some (3, "out.txt".toList)
      ∧ findRedirections ('&' :: '>' :: ("out.txt".toList ++ [' ']))
          = some (4, "out.txt".toList)) :=
  ⟨by decide,
   findRedirections_accepted_syntaxes "out.txt".toList (by decide) (by decide)
     (by decide) (by decide)⟩

/-- Claim C2, evaluated where the code departs from it. For the stage text
`cat > out in` the clause `> out` is counted with two words, the trailing word
`in` is not counted, and `executeProcess` keeps the first `3 - 2 = 1` parsed
arguments: the vector handed to `execvp` is `cat`, `>`, so the redirection
operator reaches `execvp`. -/
theorem stageExecArgv_keeps_redirection_operator :
    splitRedirectionStrings "cat > out in".toList = some (["> out ".toList], 2)
    ∧ stageExecArgv 1 "cat > out in".toList = some ["cat".toList, ">".toList] := by
  decide

/-- Claim C3, evaluated where the code departs from it. For the stage text
`seq 1 2 > f` there are four tokens after the command name and one of them
(`1`) precedes the first redirection-related token, but
`splitRedirectionStrings` counts all four as redirection arguments, so
`n - redArgs` is 0 and `seq` is executed without arguments. -/
theorem splitRedirectionStrings_counts_numeric_arguments :
    parseCommand "seq 1 2 > f".toList
      = some ("seq".toList, ["1".toList, "2".toList, ">".toList, "f".toList], 4)
    ∧ splitRedirectionStrings "seq 1 2 > f".toList = some (["1 2 > f ".toList], 4)
    ∧ specArgumentCount ["1".toList, "2".toList, ">".toList, "f".toList] = 1
    ∧ stageExecArgv 1 "seq 1 2 > f".toList = some ["seq".toList] := by
  decide

/-- Claim C8, evaluated where the code departs from it. For the stage
`sleep 5&` the final argument `5&` ends with `&`; `isBackground` returns 1 but
reduces the argument count from 1 to 0 instead of stripping the `&`, so the
executor sees no argument at all and runs `sleep` alone. -/
theorem isBackground_drops_final_argument :
    parseCommand "sleep 5&".toList = some ("sleep".toList, ["5&".toList], 1)
    ∧ isBackground "sleep".toList ["5&".toList] 1 = some (true, "sleep".toList, 0)
    ∧ stageExecArgv 1 "sleep 5&".toList = some ["sleep".toList] := by
  decide

/-- Claim C9, evaluated where the code departs from it. For the scripts
`ls &>out` and `ls 2>&1`, single commands without `;` whose only `&` belongs
to a redirection clause, `splitJobs` returns two jobs and the clause is cut at
the `&`. -/
theorem splitJobs_cuts_redirection_ampersand :
    executeScriptJobs "ls &>out".toList = some ["ls &".toList, ">out".toList]
    ∧ executeScriptJobs "ls 2>&1".toList = some ["ls 2>&".toList, "1".toList] := by
  decide

/-- Claim C10, evaluated where the code departs from it. The clause `2 > f`,
assembled by `splitRedirectionStrings` from three tokens, is classified by
`findRedirections` with type 0 (no redirection) and target `f`, while the
unpadded `2>f` has type 3; the same happens for `1 > f` and `& > f`, whereas
`0 < f` keeps type 1. -/
theorem findRedirections_padded_clause_unclassified :
    splitRedirectionStrings "ls 2 > f".toList = some (["2 > f ".toList], 3)
    ∧ findRedirections "2 > f ".toList = some (0, "f".toList)
    ∧ findRedirections "2>f ".toList = some (3, "f".toList)
    ∧ findRedirections "1 > f ".toList = some (0, "f".toList)
    ∧ findRedirections "1>f ".toList = some (2, "f".toList)
    ∧ findRedirections "& > f ".toList = some (0, "f".toList)
    ∧ findRedirections "&>f ".toList = some (4, "f".toList)
    ∧ findRedirections "0 < f ".toList = some (1, "f".toList)
    ∧ findRedirections "0<f ".toList = some (1, "f".toList) := by
  decide

/-! ## Facts about `strtokAll` -/

theorem strtokAux_append_delim (d : Char) (x y : List Char) :
    ∀ cur, strtokAux d (x ++ d :: y) cur = strtokAux d x cur ++ strtokAux d y [] := by
  induction x with
  | nil =>
    intro cur
    by_cases h : cur = [] <;> simp [strtokAux, h]
  | cons c x ih =>
    intro cur
    by_cases hc : c = d
    · by_cases h : cur = [] <;> simp [strtokAux, hc, h, ih]
    · simp [strtokAux, hc, ih]

theorem strtokAll_append_delim (d : Char) (x y : List Char) :
    strtokAll d (x ++ d :: y) = strtokAll d x ++ strtokAll d y :=
  strtokAux_append_delim d x y []

theorem strtokAux_of_not_mem (d : Char) (x : List Char) (h : d ∉ x) :
    ∀ cur, strtokAux d x cur = if cur.reverse ++ x = [] then [] else [cur.reverse ++ x] := by
  induction x with
  | nil => intro cur; by_cases h : cur = [] <;> simp [strtokAux, h]
  | cons c x ih =>
    intro cur
    have hc : c ≠ d := fun e => h (by simp [e])
    have hx : d ∉ x := fun e => h (by simp [e])
    simp [strtokAux, hc, ih hx]

theorem strtokAll_of_not_mem (d : Char) (x : List Char) (h : d ∉ x) (hne : x ≠ []) :
    strtokAll d x = [x] := by
  simp [strtokAll, strtokAux_of_not_mem d x h, hne]

theorem strtokAll_nil (d : Char) : strtokAll d [] = [] := rfl

theorem strtokAll_delim_cons (d : Char) (y : List Char) :
    strtokAll d (d :: y) = strtokAll d y := by
  simpa [strtokAll_nil] using strtokAll_append_delim d [] y

theorem strtokAux_join (d : Char) (s : List Char) :
    ∀ cur, (strtokAux d s cur).flatten = cur.reverse ++ s.filter (fun c => c ≠ d) := by
  induction s with
  | nil => intro cur; by_cases h : cur = [] <;> simp [strtokAux, h]
  | cons c s ih =>
    intro cur
    by_cases hc : c = d
    · by_cases h : cur = [] <;> simp [strtokAux, hc, h, ih]
    · simp [strtokAux, hc, ih]

theorem strtokAll_join (d : Char) (s : List Char) :
    (strtokAll d s).flatten = s.filter (fun c => c ≠ d) := by
  simpa [strtokAll] using strtokAux_join d s []

theorem first_delim (d : Char) (s : List Char) :
    d ∉ s ∨ ∃ P rest, s = P ++ d :: rest ∧ d ∉ P := by
  induction s with
  | nil => left; simp
  | cons c s ih =>
    by_cases hc : c = d
    · right; exact ⟨[], s, by simp [hc], by simp⟩
    · rcases ih with h | ⟨P, rest, hs, hP⟩
      · left; simp [h, Ne.symm hc]
      · right; exact ⟨c :: P, rest, by simp [hs], by simp [hP, Ne.symm hc]⟩

theorem delim_induction (d : Char) (motive : List Char → Prop)
    (base : ∀ P, d ∉ P → motive P)
    (step : ∀ P rest, d ∉ P → motive rest → motive (P ++ d :: rest)) :
    ∀ s, motive s := by
  intro s
  generalize hn : s.length = n
  induction n using Nat.strong_induction_on generalizing s with
  | _ n ih =>
    rcases first_delim d s with hs | ⟨P, rest, hs, hP⟩
    · exact base s hs
    · subst hs
      exact step P rest hP (ih rest.length (by simp [← hn]; omega) rest rfl)

theorem strtokAll_mem (d : Char) (s : List Char) :
    ∀ t ∈ strtokAll d s, t ≠ [] ∧ d ∉ t := by
  refine delim_induction d (fun s => ∀ t ∈ strtokAll d s, t ≠ [] ∧ d ∉ t) ?_ ?_ s
  · intro P hP t ht
    by_cases hne : P = []
    · subst hne; simp [strtokAll_nil] at ht
    · rw [strtokAll_of_not_mem d P hP hne] at ht
      simp at ht; subst ht; exact ⟨hne, hP⟩
  · intro P rest hP ih t ht
    rw [strtokAll_append_delim] at ht
    rcases List.mem_append.1 ht with h | h
    · by_cases hne : P = []
      · subst hne; simp [strtokAll_nil] at h
      · rw [strtokAll_of_not_mem d P hP hne] at h
        simp at h; subst h; exact ⟨hne, hP⟩
    · exact ih t h

theorem strtokAll_length_le_one (d : Char) (P : List Char) (hP : d ∉ P) :
    (strtokAll d P).length ≤ 1 := by
  by_cases hne : P = []
  · subst hne; simp [strtokAll_nil]
  · simp [strtokAll_of_not_mem d P hP hne]

theorem strtokAll_length_cons (d a : Char) (y : List Char) :
    (strtokAll d y).length ≤ (strtokAll d (a :: y)).length := by
  by_cases ha : a = d
  · subst ha; rw [strtokAll_delim_cons]
  · have hd : d ≠ a := fun e => ha e.symm
    rcases first_delim d y with hy | ⟨P, rest, hy, hP⟩
    · have h1 : d ∉ a :: y := by simp [hd, hy]
      rw [strtokAll_of_not_mem d (a :: y) h1 (by simp)]
      exact strtokAll_length_le_one d y hy
    · subst hy
      have h1 : d ∉ a :: P := by simp [hd, hP]
      have e : a :: (P ++ d :: rest) = (a :: P) ++ d :: rest := by simp
      rw [e, strtokAll_append_delim, strtokAll_append_delim,
        strtokAll_of_not_mem d (a :: P) h1 (by simp)]
      have := strtokAll_length_le_one d P hP
      simp only [List.length_append, List.length_singleton]
      omega

theorem strtokAll_length_junction (d a : Char) (ha : a ≠ d) (x y : List Char) :
    (strtokAll d (x ++ [a])).length + (strtokAll d (a :: y)).length
      = (strtokAll d (x ++ a :: y)).length + 1 := by
  have hd : d ≠ a := fun e => ha e.symm
  refine delim_induction d (fun x => (strtokAll d (x ++ [a])).length
      + (strtokAll d (a :: y)).length = (strtokAll d (x ++ a :: y)).length + 1) ?_ ?_ x
  · intro P hP
    have h1 : d ∉ P ++ [a] := by simp [hP, hd]
    rw [strtokAll_of_not_mem d (P ++ [a]) h1 (by simp)]
    rcases first_delim d y with hy | ⟨Q, rest, hy, hQ⟩
    · have h2 : d ∉ a :: y := by simp [hd, hy]
      have h3 : d ∉ P ++ a :: y := by simp [hP, hd, hy]
      rw [strtokAll_of_not_mem d _ h2 (by simp), strtokAll_of_not_mem d _ h3 (by simp)]
      simp
    · subst hy
      have h2 : d ∉ a :: Q := by simp [hd, hQ]
      have h3 : d ∉ P ++ a :: Q := by simp [hP, hd, hQ]
      have e1 : a :: (Q ++ d :: rest) = (a :: Q) ++ d :: rest := by simp
      have e2 : P ++ a :: (Q ++ d :: rest) = (P ++ a :: Q) ++ d :: rest := by simp
      have t1 : strtokAll d (a :: (Q ++ d :: rest)) = [a :: Q] ++ strtokAll d rest := by
        rw [e1, strtokAll_append_delim, strtokAll_of_not_mem d _ h2 (by simp)]
      have t2 : strtokAll d (P ++ a :: (Q ++ d :: rest))
          = [P ++ a :: Q] ++ strtokAll d rest := by
        rw [e2, strtokAll_append_delim, strtokAll_of_not_mem d _ h3 (by simp)]
      rw [t1, t2]
      simp only [List.length_append, List.length_singleton]
      omega
  · intro P rest _ ih
    have e1 : (P ++ d :: rest) ++ [a] = P ++ d :: (rest ++ [a]) := by simp
    have e2 : (P ++ d :: rest) ++ a :: y = P ++ d :: (rest ++ a :: y) := by simp
    rw [e1, e2, strtokAll_append_delim, strtokAll_append_delim]
    simp only [List.length_append] at ih ⊢
    omega

/-! ## `splilToParts` -/

theorem splilFill_other (word : List Char) (d : Char) (hd : d ≠ '&') (cnt : Nat) :
    ∀ (parts : List (List Char)) (i : Nat), splilFill word d cnt i parts = parts := by
  intro parts
  induction parts with
  | nil => intro i; rfl
  | cons p ps ih => intro i; simp [splilFill, hd, ih]

theorem splilToParts_semicolon (word : List Char) :
    splilToParts word ';' = strtokAll ';' word := by
  simp [splilToParts, splilFill_other word ';' (by decide)]

theorem splilFill_amp (word : List Char) (cnt : Nat) :
    ∀ (parts : List (List Char)) (i : Nat), i + parts.length = cnt →
      splilFill word '&' cnt i parts
        = attachAmp (decide (charAt word (word.length - 1) = '&')) parts := by
  intro parts
  induction parts with
  | nil => intro i _; rfl
  | cons p ps ih =>
    intro i hi
    cases ps with
    | nil =>
      have : ¬ (i + 1 < cnt) := by simp at hi; omega
      simp [splilFill, attachAmp, this]
    | cons q r =>
      have h1 : i + 1 < cnt := by simp at hi; omega
      have := ih (i + 1) (by simp at hi ⊢; omega)
      simp [splilFill, attachAmp, h1] at this ⊢
      exact this

theorem splilToParts_amp (word : List Char) :
    splilToParts word '&'
      = attachAmp (decide (charAt word (word.length - 1) = '&')) (strtokAll '&' word) := by
  simp only [splilToParts]
  exact splilFill_amp word _ _ 0 (by simp)

theorem charAt_last (s : List Char) :
    charAt s (s.length - 1) = s.getLast?.getD '\x00' := by
  cases s with
  | nil => rfl
  | cons c cs =>
    simp only [charAt, List.length_cons, Nat.add_sub_cancel]
    rw [List.getLast?_eq_getElem?]
    simp [List.getD_eq_getElem?_getD]

theorem charAt_last_mem (s : List Char) (hne : s ≠ []) :
    charAt s (s.length - 1) ∈ s := by
  rw [charAt_last]
  cases h : s.getLast? with
  | none => simp [List.getLast?_eq_none_iff] at h; exact absurd h hne
  | some c => simpa using List.mem_of_getLast?_eq_some h

theorem charAt_last_append_cons (x : List Char) (a : Char) (rest : List Char) :
    charAt (x ++ a :: rest) ((x ++ a :: rest).length - 1)
      = if rest = [] then a else charAt rest (rest.length - 1) := by
  rw [charAt_last, charAt_last]
  cases rest with
  | nil => simp
  | cons r rs =>
    have : (r :: rs).getLast? = some ((r :: rs).getLast (by simp)) :=
      List.getLast?_eq_getLast _ _
    simp only [List.getLast?_append, List.getLast?_cons_cons, this]
    simp

theorem strtokAll_eq_nil (d : Char) (s : List Char) (h : strtokAll d s = []) :
    ∀ c ∈ s, c = d := by
  have hj := strtokAll_join d s
  rw [h] at hj
  intro c hc
  by_contra hcd
  have hm : c ∈ s.filter (fun c => c ≠ d) := by simp [List.mem_filter, hc, hcd]
  rw [← hj] at hm
  simp at hm

theorem attachAmp_length (b : Bool) : ∀ parts, (attachAmp b parts).length = parts.length
  | [] => rfl
  | [_] => rfl
  | _ :: q :: r => by simp [attachAmp, attachAmp_length b (q :: r)]

theorem attachAmp_cons_of_ne (b : Bool) (p : List Char) (ps : List (List Char))
    (h : ps ≠ []) : attachAmp b (p :: ps) = (p ++ ['&']) :: attachAmp b ps := by
  cases ps with
  | nil => exact absurd rfl h
  | cons q r => rfl

theorem splilToParts_amp_of_not_mem (P : List Char) (hP : '&' ∉ P) :
    splilToParts P '&' = if P = [] then [] else [P] := by
  rw [splilToParts_amp]
  by_cases hne : P = []
  · subst hne; simp [strtokAll_nil, attachAmp]
  · have hl : charAt P (P.length - 1) ≠ '&' := fun e => hP (e ▸ charAt_last_mem P hne)
    simp [strtokAll_of_not_mem '&' P hP hne, attachAmp, hl, hne]

theorem splilToParts_amp_step (P rest : List Char) (hP : '&' ∉ P) :
    splilToParts (P ++ '&' :: rest) '&'
      = (if P = [] then [] else [P ++ ['&']]) ++ splilToParts rest '&' := by
  rw [splilToParts_amp, splilToParts_amp, strtokAll_append_delim, charAt_last_append_cons]
  by_cases hr : strtokAll '&' rest = []
  · have hall := strtokAll_eq_nil '&' rest hr
    have hb : (if rest = [] then '&' else charAt rest (rest.length - 1)) = '&' := by
      by_cases hre : rest = []
      · simp [hre]
      · simpa [hre] using hall _ (charAt_last_mem rest hre)
    rw [hr, hb]
    by_cases hne : P = []
    · subst hne; simp [strtokAll_nil, attachAmp]
    · simp [strtokAll_of_not_mem '&' P hP hne, attachAmp, hne]
  · have hre : rest ≠ [] := by
      intro e; subst e; exact hr (strtokAll_nil '&')
    simp only [hre, if_false]
    by_cases hne : P = []
    · subst hne; simp [strtokAll_nil]
    · rw [strtokAll_of_not_mem '&' P hP hne]
      simp only [List.singleton_append, hne, if_false]
      exact attachAmp_cons_of_ne _ P _ hr

theorem pieces_of_not_mem (P : List Char) (hP : '&' ∉ P) :
    pieces P = strtokAll ';' P := by
  unfold pieces
  rw [splilToParts_amp_of_not_mem P hP]
  by_cases hne : P = []
  · subst hne; simp [strtokAll_nil]
  · simp [hne, splilToParts_semicolon]

theorem pieces_step (P rest : List Char) (hP : '&' ∉ P) :
    pieces (P ++ '&' :: rest)
      = (if P = [] then [] else strtokAll ';' (P ++ ['&'])) ++ pieces rest := by
  unfold pieces
  rw [splilToParts_amp_step P rest hP]
  by_cases hne : P = []
  · subst hne; simp
  · simp [hne, splilToParts_semicolon]

theorem pieces_length_le (word : List Char) :
    (pieces word).length ≤ (strtokAll ';' word).length + (strtokAll '&' word).length := by
  refine delim_induction '&' (fun w => (pieces w).length
      ≤ (strtokAll ';' w).length + (strtokAll '&' w).length) ?_ ?_ word
  · intro P hP
    rw [pieces_of_not_mem P hP]; omega
  · intro P rest hP ih
    rw [pieces_step P rest hP, strtokAll_append_delim '&']
    have hM := strtokAll_length_cons ';' '&' rest
    by_cases hne : P = []
    · subst hne
      simp only [if_true, List.nil_append, strtokAll_nil, List.length_nil] at *
      omega
    · have hK := strtokAll_length_junction ';' '&' (by decide) P rest
      rw [strtokAll_of_not_mem '&' P hP hne]
      simp only [hne, if_false, List.length_append, List.length_singleton]
      omega

theorem sbsStore_of_le (totalParts : Nat) :
    ∀ (ps stored : List (List Char)), stored.length + ps.length ≤ totalParts →
      sbsStore totalParts stored ps = (stored ++ ps, false) := by
  intro ps
  induction ps with
  | nil => intro stored _; simp [sbsStore]
  | cons p ps ih =>
    intro stored h
    have h1 : ¬ (stored.length + 1 > totalParts) := by simp at h; omega
    rw [sbsStore, if_neg h1, ih (stored ++ [p]) (by simp at h ⊢; omega)]
    simp

theorem sbsLoop_of_le (totalParts : Nat) :
    ∀ (amps stored : List (List Char)),
      stored.length + (amps.flatMap (fun a => splilToParts a ';')).length ≤ totalParts →
      sbsLoop totalParts stored amps
        = stored ++ amps.flatMap (fun a => splilToParts a ';') := by
  intro amps
  induction amps with
  | nil => intro stored _; simp [sbsLoop]
  | cons a amps ih =>
    intro stored h
    simp only [List.flatMap_cons, List.length_append] at h
    rw [sbsLoop, sbsStore_of_le totalParts _ stored (by omega)]
    simp only
    rw [ih (stored ++ splilToParts a ';') (by simp only [List.length_append]; omega)]
    simp

/-- The bound `totalParts` of `splitBackgroundAndSerial` is never reached: the
function reports every `;`-part of every `&`-part. -/
theorem splitBackgroundAndSerial_eq_pieces (word : List Char) :
    splitBackgroundAndSerial word = pieces word := by
  have hb := pieces_length_le word
  unfold splitBackgroundAndSerial
  simp only
  by_cases hA : (splilToParts word '&').length > 0
  · rw [if_pos hA, sbsLoop_of_le]
    · simp [pieces]
    · have e1 : (splilToParts word ';').length = (strtokAll ';' word).length := by
        rw [splilToParts_semicolon]
      have e2 : (splilToParts word '&').length = (strtokAll '&' word).length := by
        rw [splilToParts_amp, attachAmp_length]
      simp only [List.length_nil, Nat.zero_add]
      unfold pieces at hb
      omega
  · rw [if_neg hA]
    have : splilToParts word '&' = [] := by
      cases h : splilToParts word '&' with
      | nil => rfl
      | cons a as => simp [h] at hA
    simp [pieces, this]

theorem filter_strtokAll_flatten (p : Char → Bool) (d : Char) (hd : p d = false)
    (s : List Char) : (strtokAll d s).flatten.filter p = s.filter p := by
  rw [strtokAll_join, List.filter_filter]
  apply List.filter_congr
  intro c _
  by_cases hc : c = d
  · subst hc; simp [hd]
  · simp [hc]

theorem filter_dropWhile (p q : Char → Bool) (h : ∀ c, q c = true → p c = false)
    (s : List Char) : (s.dropWhile q).filter p = s.filter p := by
  induction s with
  | nil => rfl
  | cons c s ih =>
    by_cases hq : q c = true
    · simp [List.dropWhile_cons, hq, ih, h c hq]
    · simp [List.dropWhile_cons, hq]

theorem filter_flatten_map (p : Char → Bool) (f : List Char → List Char)
    (h : ∀ x, (f x).filter p = x.filter p) (L : List (List Char)) :
    (L.map f).flatten.filter p = L.flatten.filter p := by
  induction L with
  | nil => rfl
  | cons x L ih => simp [List.filter_append, h, ih]

theorem filter_specTrim (s : List Char) :
    (specTrimLeadingSpaces s).filter isCommandText = s.filter isCommandText := by
  unfold specTrimLeadingSpaces
  apply filter_dropWhile
  intro c hc
  have : c = ' ' := by simpa using hc
  subst this; rfl

theorem pieces_text (word : List Char) :
    (pieces word).flatten.filter isCommandText = word.filter isCommandText := by
  refine delim_induction '&' (fun w => (pieces w).flatten.filter isCommandText
      = w.filter isCommandText) ?_ ?_ word
  · intro P hP
    rw [pieces_of_not_mem P hP]
    exact filter_strtokAll_flatten _ ';' rfl P
  · intro P rest hP ih
    rw [pieces_step P rest hP, List.flatten_append, List.filter_append, ih,
      List.filter_append]
    congr 1
    · by_cases hne : P = []
      · subst hne; simp
      · simp only [hne, if_false]
        rw [filter_strtokAll_flatten _ ';' rfl, List.filter_append]
        simp [isCommandText]

theorem trimmedParts_text (c : List Char) :
    (trimmedParts c).flatten.filter isCommandText = c.filter isCommandText := by
  unfold trimmedParts
  rw [filter_flatten_map _ _ filter_specTrim, splitBackgroundAndSerial_eq_pieces,
    pieces_text]

theorem trimmedJobsLoop_cons (acc w : List Char) (words : List (List Char))
    (concat : List Char)
    (hc : concat = if acc.length = 0 then w else acc ++ [' '] ++ w) :
    trimmedJobsLoop acc (w :: words)
      = if charAt concat (concat.length - 1) = '&' ∨ charAt concat (concat.length - 1) = ';'
        then trimmedParts concat ++ trimmedJobsLoop [] words
        else trimmedJobsLoop concat words := by
  subst hc; rfl

theorem trimmedJobsLoop_text :
    ∀ (words : List (List Char)) (acc : List Char),
      (trimmedJobsLoop acc words).flatten.filter isCommandText
        = acc.filter isCommandText ++ words.flatten.filter isCommandText := by
  intro words
  induction words with
  | nil =>
    intro acc
    by_cases h : acc.length > 0
    · rw [trimmedJobsLoop, if_pos h, trimmedParts_text]; simp
    · have : acc = [] := by
        cases acc with
        | nil => rfl
        | cons a as => simp at h
      subst this; simp [trimmedJobsLoop]
  | cons w words ih =>
    intro acc
    obtain ⟨concat, hcdef⟩ :
        ∃ c, c = if acc.length = 0 then w else acc ++ [' '] ++ w := ⟨_, rfl⟩
    have hc : concat.filter isCommandText
        = acc.filter isCommandText ++ w.filter isCommandText := by
      rw [hcdef]
      by_cases h0 : acc.length = 0
      · have : acc = [] := List.length_eq_zero.1 h0
        subst this; simp
      · simp [h0, List.filter_append, isCommandText]
    rw [trimmedJobsLoop_cons acc w words concat hcdef]
    split
    · rw [List.flatten_append, List.filter_append, trimmedParts_text, ih, hc]
      simp [List.filter_append]
    · rw [ih, hc]
      simp [List.filter_append]

theorem trimmedJobs_text (S : List Char) :
    (trimmedJobs (splitJobsWords S)).flatten.filter isCommandText
      = S.filter isCommandText := by
  unfold trimmedJobs splitJobsWords
  rw [trimmedJobsLoop_text]
  simpa using filter_strtokAll_flatten isCommandText ' ' rfl S

/-! ## `removeSpacesFromBeginning` in `splitJobs`

The pointer and the index advance together in `removeSpacesFromBeginning`, so
the function is the identity only on strings that do not start with a space.
The parts `splitJobs` hands to it are of that kind. -/

theorem removeSpacesFromBeginning_of_head (s : List Char) (h : charAt s 0 ≠ ' ') :
    removeSpacesFromBeginning s = some s := by
  unfold removeSpacesFromBeginning
  have : removeSpacesAdvance s = some 0 := by
    match s, h with
    | [], _ => rfl
    | [c], h =>
      have hc : c ≠ ' ' := h
      simp [removeSpacesAdvance, hc]
    | c :: _ :: _, h =>
      have hc : c ≠ ' ' := h
      simp [removeSpacesAdvance, hc]
  rw [this]; rfl

theorem specTrimLeadingSpaces_of_head (s : List Char) (h : charAt s 0 ≠ ' ') :
    specTrimLeadingSpaces s = s := by
  unfold specTrimLeadingSpaces
  cases s with
  | nil => rfl
  | cons c cs =>
    have hc : c ≠ ' ' := h
    simp [List.dropWhile_cons, hc]

theorem removeSpacesEach_of_heads (l : List (List Char)) (h : ∀ s ∈ l, charAt s 0 ≠ ' ') :
    removeSpacesEach l = some l ∧ l.map specTrimLeadingSpaces = l := by
  induction l with
  | nil => exact ⟨rfl, rfl⟩
  | cons s rest ih =>
    obtain ⟨h1, h2⟩ := ih (fun t ht => h t (List.mem_cons_of_mem _ ht))
    have hs := h s (List.mem_cons_self _ _)
    constructor
    · rw [removeSpacesEach, removeSpacesFromBeginning_of_head s hs, h1]; rfl
    · rw [List.map_cons, specTrimLeadingSpaces_of_head s hs, h2]

theorem noSpaceAfterSeparator_append_right (x y : List Char)
    (h : noSpaceAfterSeparator (x ++ y) = true) : noSpaceAfterSeparator y = true := by
  induction x with
  | nil => exact h
  | cons a x ih =>
    cases hx : x ++ y with
    | nil =>
      have : y = [] := (List.append_eq_nil.1 hx).2
      subst this; rfl
    | cons b r =>
      rw [List.cons_append, hx, noSpaceAfterSeparator, Bool.and_eq_true] at h
      exact ih (hx ▸ h.2)

theorem noSpaceAfterSeparator_append_left (x y : List Char)
    (h : noSpaceAfterSeparator (x ++ y) = true) : noSpaceAfterSeparator x = true := by
  induction x with
  | nil => rfl
  | cons a x ih =>
    cases x with
    | nil => rfl
    | cons b r =>
      rw [List.cons_append, List.cons_append, noSpaceAfterSeparator, Bool.and_eq_true] at h
      rw [noSpaceAfterSeparator, Bool.and_eq_true]
      exact ⟨h.1, ih h.2⟩

theorem noSpaceAfterSeparator_of_not_mem (w : List Char) (h : ' ' ∉ w) :
    noSpaceAfterSeparator w = true := by
  induction w with
  | nil => rfl
  | cons a w ih =>
    cases w with
    | nil => rfl
    | cons b r =>
      have hb : b ≠ ' ' := fun e => h (by simp [e])
      rw [noSpaceAfterSeparator, Bool.and_eq_true]
      exact ⟨by simp [hb], ih (fun hm => h (List.mem_cons_of_mem _ hm))⟩

/-- Appending a character other than the space. -/
theorem noSpaceAfterSeparator_append_char (x : List Char) (c : Char) (y : List Char)
    (hx : noSpaceAfterSeparator x = true) (hc : c ≠ ' ')
    (hy : noSpaceAfterSeparator (c :: y) = true) :
    noSpaceAfterSeparator (x ++ c :: y) = true := by
  induction x with
  | nil => exact hy
  | cons a x ih =>
    cases x with
    | nil =>
      rw [List.singleton_append, noSpaceAfterSeparator, Bool.and_eq_true]
      exact ⟨by simp [hc], hy⟩
    | cons b r =>
      rw [noSpaceAfterSeparator, Bool.and_eq_true] at hx
      rw [List.cons_append, List.cons_append, noSpaceAfterSeparator, Bool.and_eq_true]
      exact ⟨hx.1, ih hx.2⟩

/-- Appending a space and a word to a text that does not end with a
separator. -/
theorem noSpaceAfterSeparator_append_space (x w : List Char)
    (hx : noSpaceAfterSeparator x = true)
    (hlast : charAt x (x.length - 1) ≠ '&' ∧ charAt x (x.length - 1) ≠ ';')
    (hw : ' ' ∉ w) :
    noSpaceAfterSeparator (x ++ ' ' :: w) = true := by
  have hy : noSpaceAfterSeparator (' ' :: w) = true := by
    cases w with
    | nil => rfl
    | cons b r =>
      rw [noSpaceAfterSeparator, Bool.and_eq_true]
      exact ⟨by simp, noSpaceAfterSeparator_of_not_mem _ hw⟩
  induction x with
  | nil => exact hy
  | cons a x ih =>
    cases x with
    | nil =>
      have h1 : a ≠ '&' := hlast.1
      have h2 : a ≠ ';' := hlast.2
      rw [List.singleton_append, noSpaceAfterSeparator, Bool.and_eq_true]
      exact ⟨by simp [h1, h2], hy⟩
    | cons b r =>
      rw [noSpaceAfterSeparator, Bool.and_eq_true] at hx
      rw [List.cons_append, List.cons_append, noSpaceAfterSeparator, Bool.and_eq_true]
      refine ⟨hx.1, ih hx.2 ?_⟩
      simpa [charAt] using hlast

theorem wellJoined_head (P : List Char) (d : Char) (rest : List Char)
    (h : wellJoined (P ++ d :: rest)) : wellJoined P := by
  refine ⟨?_, noSpaceAfterSeparator_append_left _ _ h.2⟩
  cases P with
  | nil => exact (by decide : charAt [] 0 ≠ ' ')
  | cons c cs => exact h.1

theorem wellJoined_tail (P : List Char) (d : Char) (hd : d = ';' ∨ d = '&')
    (rest : List Char) (h : wellJoined (P ++ d :: rest)) : wellJoined rest := by
  have h2 := noSpaceAfterSeparator_append_right P (d :: rest) h.2
  cases rest with
  | nil => exact ⟨by decide, rfl⟩
  | cons b r =>
    rw [noSpaceAfterSeparator, Bool.and_eq_true] at h2
    refine ⟨?_, h2.2⟩
    intro hb
    have hb' : b = ' ' := hb
    subst hb'
    rcases hd with e | e <;> subst e <;> simp at h2

theorem wellJoined_append_amp (P : List Char) (hne : P ≠ []) (h : wellJoined P) :
    wellJoined (P ++ ['&']) := by
  refine ⟨?_, noSpaceAfterSeparator_append_char P '&' [] h.2 (by decide) rfl⟩
  cases P with
  | nil => exact absurd rfl hne
  | cons c cs => exact h.1

/-- No token of a well-joined text starts with a space. -/
theorem strtokAll_head_of_wellJoined (d : Char) (hd : d = ';' ∨ d = '&') (s : List Char) :
    wellJoined s → ∀ t ∈ strtokAll d s, charAt t 0 ≠ ' ' := by
  refine delim_induction d
    (fun s => wellJoined s → ∀ t ∈ strtokAll d s, charAt t 0 ≠ ' ') ?_ ?_ s
  · intro P hP hj t ht
    by_cases hne : P = []
    · subst hne; simp [strtokAll_nil] at ht
    · rw [strtokAll_of_not_mem d P hP hne] at ht
      simp at ht; subst ht; exact hj.1
  · intro P rest hP ih hj t ht
    rw [strtokAll_append_delim] at ht
    rcases List.mem_append.1 ht with h | h
    · by_cases hne : P = []
      · subst hne; simp [strtokAll_nil] at h
      · rw [strtokAll_of_not_mem d P hP hne] at h
        simp at h; subst h; exact (wellJoined_head t d rest hj).1
    · exact ih (wellJoined_tail P d hd rest hj) t h

/-- No part that `splitBackgroundAndSerial` cuts from a well-joined text
starts with a space. -/
theorem pieces_head_of_wellJoined (s : List Char) :
    wellJoined s → ∀ p ∈ pieces s, charAt p 0 ≠ ' ' := by
  refine delim_induction '&'
    (fun s => wellJoined s → ∀ p ∈ pieces s, charAt p 0 ≠ ' ') ?_ ?_ s
  · intro P hP hj p hp
    rw [pieces_of_not_mem P hP] at hp
    exact strtokAll_head_of_wellJoined ';' (Or.inl rfl) P hj p hp
  · intro P rest hP ih hj p hp
    rw [pieces_step P rest hP] at hp
    rcases List.mem_append.1 hp with h | h
    · by_cases hne : P = []
      · simp [hne] at h
      · simp only [hne, if_false] at h
        exact strtokAll_head_of_wellJoined ';' (Or.inl rfl) _
          (wellJoined_append_amp P hne (wellJoined_head P '&' rest hj)) p h
    · exact ih (wellJoined_tail P '&' (Or.inr rfl) rest hj) p h

/-- On a well-joined text `removeSpacesFromBeginning` has nothing to remove:
the jobs of a flush are the parts themselves. -/
theorem jobsOfConcat_of_wellJoined (c : List Char) (h : wellJoined c) :
    jobsOfConcat c = some (trimmedParts c) := by
  have hh : ∀ p ∈ splitBackgroundAndSerial c, charAt p 0 ≠ ' ' := by
    rw [splitBackgroundAndSerial_eq_pieces]
    exact pieces_head_of_wellJoined c h
  obtain ⟨h1, h2⟩ := removeSpacesEach_of_heads _ hh
  unfold jobsOfConcat trimmedParts
  rw [h1, h2]

theorem splitJobsLoop_cons (acc w : List Char) (words : List (List Char))
    (concat : List Char)
    (hc : concat = if acc.length = 0 then w else acc ++ [' '] ++ w) :
    splitJobsLoop acc (w :: words)
      = if charAt concat (concat.length - 1) = '&' ∨ charAt concat (concat.length - 1) = ';'
        then
          (match jobsOfConcat concat with
            | none => none
            | some jobs => (splitJobsLoop [] words).map (fun later => jobs ++ later))
        else splitJobsLoop concat words := by
  subst hc; rfl

/-- The loop of `splitJobs` on the words of a script: every flushed text is
well joined, so the loop returns the jobs of `trimmedJobsLoop`. -/
theorem splitJobsLoop_eq_trimmed :
    ∀ (words : List (List Char)), (∀ w ∈ words, w ≠ [] ∧ ' ' ∉ w) →
      ∀ acc : List Char, wellJoined acc →
        (charAt acc (acc.length - 1) ≠ '&' ∧ charAt acc (acc.length - 1) ≠ ';') →
        splitJobsLoop acc words = some (trimmedJobsLoop acc words) := by
  intro words
  induction words with
  | nil =>
    intro _ acc hj _
    by_cases h : acc.length > 0
    · rw [splitJobsLoop, trimmedJobsLoop, if_pos h, if_pos h]
      exact jobsOfConcat_of_wellJoined acc hj
    · rw [splitJobsLoop, trimmedJobsLoop, if_neg h, if_neg h]
  | cons w words ih =>
    intro hw acc hj hlast
    have hw0 := hw w (List.mem_cons_self _ _)
    have hrest : ∀ w' ∈ words, w' ≠ [] ∧ ' ' ∉ w' :=
      fun w' h' => hw w' (List.mem_cons_of_mem _ h')
    obtain ⟨concat, hcdef⟩ :
        ∃ c, c = if acc.length = 0 then w else acc ++ [' '] ++ w := ⟨_, rfl⟩
    have hwj : wellJoined w := by
      refine ⟨?_, noSpaceAfterSeparator_of_not_mem w hw0.2⟩
      cases hwc : w with
      | nil => exact absurd hwc hw0.1
      | cons c cs =>
        intro e
        have e' : c = ' ' := e
        exact hw0.2 (by rw [hwc, e']; exact List.mem_cons_self _ _)
    have hcj : wellJoined concat := by
      rw [hcdef]
      by_cases h0 : acc.length = 0
      · rw [if_pos h0]; exact hwj
      · rw [if_neg h0]
        have hne : acc ≠ [] := fun e => h0 (by rw [e]; rfl)
        refine ⟨?_, ?_⟩
        · cases hacc : acc with
          | nil => exact absurd hacc hne
          | cons c cs =>
            have := hj.1
            rw [hacc] at this
            exact this
        · rw [List.append_assoc, List.singleton_append]
          exact noSpaceAfterSeparator_append_space acc w hj.2 hlast hw0.2
    have hnil : wellJoined ([] : List Char) := ⟨by decide, rfl⟩
    have hnil2 : charAt ([] : List Char) (([] : List Char).length - 1) ≠ '&'
        ∧ charAt ([] : List Char) (([] : List Char).length - 1) ≠ ';' := by decide
    rw [splitJobsLoop_cons acc w words concat hcdef,
      trimmedJobsLoop_cons acc w words concat hcdef]
    by_cases hend : charAt concat (concat.length - 1) = '&'
        ∨ charAt concat (concat.length - 1) = ';'
    · rw [if_pos hend, if_pos hend, jobsOfConcat_of_wellJoined concat hcj,
        ih hrest [] hnil hnil2]
      rfl
    · rw [if_neg hend, if_neg hend]
      exact ih hrest concat hcj ⟨fun e => hend (Or.inl e), fun e => hend (Or.inr e)⟩

/-- Function `splitJobs` on the words of a script returns the jobs of
`trimmedJobs`. -/
theorem splitJobs_eq_trimmed (S : List Char) :
    splitJobs (splitJobsWords S) = some (trimmedJobs (splitJobsWords S)) := by
  unfold splitJobs trimmedJobs splitJobsWords
  exact splitJobsLoop_eq_trimmed _ (fun w hw => strtokAll_mem ' ' S w hw) []
    ⟨by decide, rfl⟩ (by decide)

/-- Claim C4. For every script of at most 128 words, `executeScript` obtains
its job list from the two passes of `splitJobs`, and deleting every space, `;`
and `&` from the in-order concatenation of the jobs gives the same character
sequence as deleting them from the script: no command text is lost, duplicated
or reordered. -/
theorem executeScriptJobs_preserves_text (S : List Char)
    (h : (splitJobsWords S).length ≤ MAX_ARGS_SIZE) :
    ∃ jobs, executeScriptJobs S = some jobs
      ∧ jobs.flatten.filter isCommandText = S.filter isCommandText := by
  refine ⟨trimmedJobs (splitJobsWords S), ?_, trimmedJobs_text S⟩
  unfold executeScriptJobs
  simp only
  rw [if_neg (by omega)]
  exact splitJobs_eq_trimmed S

theorem executeScriptJobs_preserves_text_witness :
    (splitJobsWords "ls -l; sleep 5 & echo hi".toList).length ≤ MAX_ARGS_SIZE
    ∧ ∃ jobs, executeScriptJobs "ls -l; sleep 5 & echo hi".toList = some jobs
      ∧ jobs.flatten.filter isCommandText
          = "ls -l; sleep 5 & echo hi".toList.filter isCommandText :=
  ⟨by decide, executeScriptJobs_preserves_text _ (by decide)⟩

theorem strtokAll_eq_specTokens (d : Char) (s : List Char) :
    strtokAll d s = specTokens d s := by
  unfold specTokens List.splitOn
  refine delim_induction d (fun s => strtokAll d s
      = (s.splitOnP (fun x => x == d)).filter (fun t => t ≠ [])) ?_ ?_ s
  · intro P hP
    have h : ∀ x ∈ P, ¬ ((x == d) = true) := by
      intro x hx e
      have : x = d := by simpa using e
      exact hP (this ▸ hx)
    rw [List.splitOnP_eq_single _ _ h]
    by_cases hne : P = []
    · subst hne; simp [strtokAll_nil]
    · simp [strtokAll_of_not_mem d P hP hne, hne]
  · intro P rest hP ih
    have h : ∀ x ∈ P, ¬ ((x == d) = true) := by
      intro x hx e
      have : x = d := by simpa using e
      exact hP (this ▸ hx)
    rw [List.splitOnP_first _ _ h d (by simp), strtokAll_append_delim, ih]
    by_cases hne : P = []
    · subst hne; simp [strtokAll_nil]
    · simp [strtokAll_of_not_mem d P hP hne, hne]

theorem strtokAll_specTrim (s : List Char) :
    strtokAll ' ' (specTrimLeadingSpaces s) = strtokAll ' ' s := by
  unfold specTrimLeadingSpaces
  induction s with
  | nil => rfl
  | cons c s ih =>
    by_cases hc : c = ' '
    · subst hc
      rw [strtokAll_delim_cons]
      simpa [List.dropWhile_cons] using ih
    · simp [List.dropWhile_cons, hc]

theorem specTrim_leading (s : List Char) :
    ∃ k, s = List.replicate k ' ' ++ specTrimLeadingSpaces s := by
  unfold specTrimLeadingSpaces
  induction s with
  | nil => exact ⟨0, rfl⟩
  | cons c s ih =>
    by_cases hc : c = ' '
    · subst hc
      obtain ⟨k, hk⟩ := ih
      refine ⟨k + 1, ?_⟩
      simp only [List.dropWhile_cons, decide_True, if_true, List.replicate_succ,
        List.cons_append]
      rw [← hk]
    · exact ⟨0, by simp [List.dropWhile_cons, hc]⟩

/-- Claim C6, evaluated where the code departs from it. The job `ls | w -h`
has the two `|`-separated segments `ls ` and ` w -h`. In
`removeSpacesFromBeginning` the pointer and the index advance together, so for
` w -h` the characters tested are those at the offsets 0, 2 and 4: the pointer
moves two places and the second stage is ` -h`. The command name `w`, a
non-space character, is removed, the tokens of the stage are no longer those
of the segment, and the stage runs `-h`. -/
theorem getPipedProcesses_drops_command_name :
    specTokens '|' "ls | w -h".toList = ["ls ".toList, " w -h".toList]
    ∧ getPipedProcesses "ls | w -h".toList = some ["ls ".toList, " -h".toList]
    ∧ strtokAll ' ' " w -h".toList = ["w".toList, "-h".toList]
    ∧ strtokAll ' ' " -h".toList = ["-h".toList]
    ∧ stageExecArgv 2 " -h".toList = some ["-h".toList] := by
  decide

theorem rdropWhile_append (p : Char → Bool) (x y : List Char) :
    (x ++ y).rdropWhile p
      = if ∀ c ∈ y, p c = true then x.rdropWhile p else x ++ y.rdropWhile p := by
  induction y using List.reverseRecOn with
  | nil => simp
  | append_singleton y a ih =>
    by_cases ha : p a = true
    · rw [← List.append_assoc, List.rdropWhile_concat_pos _ _ _ ha,
        List.rdropWhile_concat_pos _ _ _ ha, ih]
      have : (∀ c ∈ y ++ [a], p c = true) ↔ (∀ c ∈ y, p c = true) := by
        constructor
        · intro h c hc; exact h c (by simp [hc])
        · intro h c hc
          rcases List.mem_append.1 hc with h1 | h1
          · exact h c h1
          · have : c = a := by simpa using h1
            subst this; exact ha
      simp only [this]
    · rw [← List.append_assoc, List.rdropWhile_concat_neg _ _ _ ha,
        List.rdropWhile_concat_neg _ _ _ ha]
      have : ¬ (∀ c ∈ y ++ [a], p c = true) := fun h => ha (h a (by simp))
      rw [if_neg this, List.append_assoc]

theorem rdropWhile_of_none (p : Char → Bool) (x : List Char)
    (h : ∀ c ∈ x, p c = false) : x.rdropWhile p = x := by
  rw [List.rdropWhile_eq_self_iff]
  intro hl
  simp [h _ (List.getLast_mem hl)]

theorem dropWhile_of_none (p : Char → Bool) (x : List Char)
    (h : ∀ c ∈ x, p c = false) : x.dropWhile p = x := by
  cases x with
  | nil => rfl
  | cons c cs => simp [List.dropWhile_cons, h c (by simp)]

theorem specCollapseSpaces_nil : specCollapseSpaces [] = [] := by
  simp [specCollapseSpaces]

theorem specCollapseSpaces_of_no_space (P : List Char) (hP : ' ' ∉ P) :
    specCollapseSpaces P = P := by
  induction P with
  | nil => exact specCollapseSpaces_nil
  | cons c P ih =>
    have hc : c ≠ ' ' := fun e => hP (by simp [e])
    have hP' : ' ' ∉ P := fun e => hP (by simp [e])
    cases P with
    | nil => simp [specCollapseSpaces]
    | cons c' r =>
      rw [specCollapseSpaces]
      simp only [hc, false_and, if_false]
      rw [ih hP']

theorem specCollapseSpaces_append (P : List Char) (hP : ' ' ∉ P) (Z : List Char) :
    specCollapseSpaces (P ++ Z) = P ++ specCollapseSpaces Z := by
  induction P with
  | nil => rfl
  | cons c P ih =>
    have hc : c ≠ ' ' := fun e => hP (by simp [e])
    have hP' : ' ' ∉ P := fun e => hP (by simp [e])
    cases hPZ : P ++ Z with
    | nil =>
      have h1 : P = [] := (List.append_eq_nil.1 hPZ).1
      have h2 : Z = [] := (List.append_eq_nil.1 hPZ).2
      subst h1; subst h2
      simp [specCollapseSpaces]
    | cons c' r =>
      rw [List.cons_append, hPZ, specCollapseSpaces]
      simp only [hc, false_and, if_false]
      rw [← hPZ, ih hP']
      rfl

theorem specCollapseSpaces_space (Y : List Char) :
    specCollapseSpaces (' ' :: Y)
      = ' ' :: specCollapseSpaces (Y.dropWhile (fun c => c = ' ')) := by
  induction Y with
  | nil => simp [specCollapseSpaces]
  | cons c Y ih =>
    by_cases hc : c = ' '
    · subst hc
      rw [specCollapseSpaces]
      simp only [and_self, if_true, ih, List.dropWhile_cons, decide_True]
    · rw [specCollapseSpaces]
      simp [hc, List.dropWhile_cons]

theorem strtokAll_of_all_delim (d : Char) (s : List Char) (h : ∀ c ∈ s, c = d) :
    strtokAll d s = [] := by
  induction s with
  | nil => rfl
  | cons c s ih =>
    have hc : c = d := h c (by simp)
    subst hc
    rw [strtokAll_delim_cons]
    exact ih (fun c hc => h c (by simp [hc]))

theorem intercalate_cons_space (P : List Char) (T : List (List Char)) :
    List.intercalate [' '] (P :: T)
      = if T = [] then P else P ++ ' ' :: List.intercalate [' '] T := by
  cases T with
  | nil => simp [List.intercalate]
  | cons t ts => simp [List.intercalate, List.intersperse]

/-- Joining the tokens of a text with single spaces is the whitespace
normalisation of the text. -/
theorem intercalate_strtokAll (s : List Char) :
    List.intercalate [' '] (strtokAll ' ' s) = specNormaliseSpaces s := by
  unfold specNormaliseSpaces
  refine delim_induction ' ' (fun s => List.intercalate [' '] (strtokAll ' ' s)
      = specCollapseSpaces ((s.rdropWhile (fun c => c = ' ')).dropWhile (fun c => c = ' ')))
    ?_ ?_ s
  · intro P hP
    have hn : ∀ c ∈ P, (fun c => decide (c = ' ')) c = false := by
      intro c hc
      have : c ≠ ' ' := fun e => hP (e ▸ hc)
      simp [this]
    rw [rdropWhile_of_none _ P hn, dropWhile_of_none _ P hn]
    rw [specCollapseSpaces_of_no_space P hP]
    by_cases hne : P = []
    · subst hne; simp [strtokAll_nil, List.intercalate]
    · simp [strtokAll_of_not_mem ' ' P hP hne, List.intercalate]
  · intro P rest hP ih
    have hn : ∀ c ∈ P, (fun c => decide (c = ' ')) c = false := by
      intro c hc
      have : c ≠ ' ' := fun e => hP (e ▸ hc)
      simp [this]
    rw [strtokAll_append_delim]
    by_cases hall : ∀ c ∈ rest, c = ' '
    · -- only spaces follow
      have hT : strtokAll ' ' rest = [] := strtokAll_of_all_delim ' ' rest hall
      have hall' : ∀ c ∈ ' ' :: rest, (fun c => decide (c = ' ')) c = true := by
        intro c hc
        rcases List.mem_cons.1 hc with h | h
        · simp [h]
        · simp [hall c h]
      rw [hT, List.append_nil, rdropWhile_append, if_pos hall',
        rdropWhile_of_none _ P hn, dropWhile_of_none _ P hn]
      rw [specCollapseSpaces_of_no_space P hP]
      by_cases hne : P = []
      · subst hne; simp [strtokAll_nil, List.intercalate]
      · simp [strtokAll_of_not_mem ' ' P hP hne, List.intercalate]
    · have hT : strtokAll ' ' rest ≠ [] := fun e => hall (strtokAll_eq_nil ' ' rest e)
      have hall1 : ¬ ∀ c ∈ rest, (fun c => decide (c = ' ')) c = true := by
        intro h; apply hall; intro c hc; simpa using h c hc
      have hall2 : ¬ ∀ c ∈ ' ' :: rest, (fun c => decide (c = ' ')) c = true := by
        intro h; apply hall1; intro c hc; exact h c (by simp [hc])
      have hr : ([' '] ++ rest).rdropWhile (fun c => decide (c = ' '))
          = [' '] ++ rest.rdropWhile (fun c => decide (c = ' ')) := by
        rw [rdropWhile_append, if_neg hall1]
      rw [rdropWhile_append, if_neg hall2]
      have hr' : (' ' :: rest).rdropWhile (fun c => decide (c = ' '))
          = ' ' :: rest.rdropWhile (fun c => decide (c = ' ')) := by
        simpa using hr
      rw [hr']
      by_cases hne : P = []
      · subst hne
        simp only [strtokAll_nil, List.nil_append, List.dropWhile_cons, decide_True, if_true]
        exact ih
      · rw [strtokAll_of_not_mem ' ' P hP hne, List.singleton_append,
          intercalate_cons_space, if_neg hT, ih]
        have hd : (P ++ ' ' :: rest.rdropWhile (fun c => decide (c = ' '))).dropWhile
            (fun c => decide (c = ' '))
              = P ++ ' ' :: rest.rdropWhile (fun c => decide (c = ' ')) := by
          cases P with
          | nil => exact absurd rfl hne
          | cons c cs =>
            have : c ≠ ' ' := fun e => hP (by simp [e])
            simp [List.dropWhile_cons, this]
        rw [hd, specCollapseSpaces_append P hP, specCollapseSpaces_space]

/-- Claim C7. For every stage text containing a non-space character,
`parseCommand` returns the first space-delimited token as the command name and
the remaining tokens, in order, as the arguments together with their count;
joining the name and the arguments with single spaces gives the stage text
with leading and trailing spaces removed and every run of spaces collapsed to
one. -/
theorem parseCommand_tokens (stage : List Char) (h : ∃ c ∈ stage, c ≠ ' ') :
    ∃ name args, parseCommand stage = some (name, args, args.length)
      ∧ name :: args = specTokens ' ' stage
      ∧ List.intercalate [' '] (name :: args) = specNormaliseSpaces stage := by
  obtain ⟨c, hc, hcs⟩ := h
  have hne : strtokAll ' ' stage ≠ [] := fun e => hcs (strtokAll_eq_nil ' ' stage e c hc)
  cases htok : strtokAll ' ' stage with
  | nil => exact absurd htok hne
  | cons name rest =>
    have hmap : removeSpacesEach rest = some rest := by
      refine (removeSpacesEach_of_heads rest ?_).1
      intro t ht
      have hmem : t ∈ strtokAll ' ' stage := by rw [htok]; simp [ht]
      obtain ⟨hne, hsp⟩ := strtokAll_mem ' ' stage t hmem
      cases htc : t with
      | nil => exact absurd htc hne
      | cons c cs =>
        intro e
        have e' : c = ' ' := e
        exact hsp (by rw [htc, e']; exact List.mem_cons_self _ _)
    refine ⟨name, rest, ?_, ?_, ?_⟩
    · simp [parseCommand, htok, hmap]
    · rw [← strtokAll_eq_specTokens, htok]
    · rw [← htok, intercalate_strtokAll]

theorem parseCommand_tokens_witness :
    (∃ c ∈ "  ls   -l  /tmp ".toList, c ≠ ' ')
    ∧ ∃ name args, parseCommand "  ls   -l  /tmp ".toList = some (name, args, args.length)
      ∧ name :: args = specTokens ' ' "  ls   -l  /tmp ".toList
      ∧ List.intercalate [' '] (name :: args)
          = specNormaliseSpaces "  ls   -l  /tmp ".toList :=
  ⟨⟨'l', by decide, by decide⟩,
   parseCommand_tokens "  ls   -l  /tmp ".toList ⟨'l', by decide, by decide⟩⟩

/-! ## Choosing the redirection targets (`executeRedirections`) -/

/-- Claim C11, evaluated where the code departs from it. The targets `&1` and
`&2` are recognised by `checkIfFd` and `executeRedirections` duplicates the
descriptor, but for `&0` `checkIfFd` returns 0, its value for "not a file
descriptor", and `executeRedirections` opens a file named `&0`. -/
theorem checkIfFd_zero_alias_opens_file :
    checkIfFd "&1".toList = 1 ∧ checkIfFd "&2".toList = 2 ∧ checkIfFd "&0".toList = 0
    ∧ (executeRedirections "ls 2>&1".toList).map (fun r => r.2.1)
        = some [RedirCall.redirectStdErrFd 1]
    ∧ (executeRedirections "ls >&2".toList).map (fun r => r.2.1)
        = some [RedirCall.redirectStdOutFd 2]
    ∧ (executeRedirections "ls >&0".toList).map (fun r => r.2.1)
        = some [RedirCall.redirectStdOut "&0".toList 0]
    ∧ (executeRedirections "cat <&0".toList).map (fun r => r.2.1)
        = some [RedirCall.redirectStdIn "&0".toList] := by
  decide

theorem redScanLoop_append (a b : List (List Char)) :
    ∀ st, redScanLoop st (a ++ b) = (redScanLoop st a).bind (fun st' => redScanLoop st' b) := by
  induction a with
  | nil => intro st; rfl
  | cons w a ih =>
    intro st
    cases h : redScanStep st w with
    | none => simp [redScanLoop, h]
    | some st' => simp [redScanLoop, h, ih]

theorem strtokAll_append_word (text w : List Char) (hw : w ≠ []) (hsp : ' ' ∉ w) :
    strtokAll ' ' (text ++ ' ' :: w) = strtokAll ' ' text ++ [w] := by
  rw [strtokAll_append_delim, strtokAll_of_not_mem ' ' w hsp hw]

theorem isRedirection_ne_nil (w : List Char) (h : isRedirection w = 2) : w ≠ [] := by
  intro e; subst e; simp [isRedirection] at h

theorem redScanStep_skip (st : RedScan) (w : List Char)
    (hg : ((!isFileDescriptor (charAt w 0) && !isRedirectionSymbol (charAt w 0))
      && (!st.redSymbolPassed && st.redStrings.length == 0)) = true) :
    redScanStep st w = some { st with nextStringArgs := 0 } := by
  unfold redScanStep
  rw [if_pos hg]

theorem redScanStep_symbol (st : RedScan) (w : List Char)
    (hg : ((!isFileDescriptor (charAt w 0) && !isRedirectionSymbol (charAt w 0))
      && (!st.redSymbolPassed && st.redStrings.length == 0)) = false)
    (hsym : isRedirection w = 2) (hpend : st.redSymbolPassed = false) :
    redScanStep st w
      = some { st with nextString := st.nextString ++ w ++ [' '],
                       nextStringArgs := st.nextStringArgs + 1,
                       redSymbolPassed := true } := by
  unfold redScanStep
  rw [if_neg (by simp [hg])]
  simp [hsym, hpend]

theorem redScanStep_symbol_pending (st : RedScan) (w : List Char)
    (hg : ((!isFileDescriptor (charAt w 0) && !isRedirectionSymbol (charAt w 0))
      && (!st.redSymbolPassed && st.redStrings.length == 0)) = false)
    (hsym : isRedirection w = 2) (hpend : st.redSymbolPassed = true) :
    redScanStep st w = none := by
  unfold redScanStep
  rw [if_neg (by simp [hg])]
  simp [hsym, hpend]

/-- A word that ends with a redirection symbol, read while no symbol is
pending, stores no clause and adds nothing to `redArgs`. -/
theorem redScanStep_symbol_word (st : RedScan) (w : List Char)
    (hpend : st.redSymbolPassed = false) (hsym : isRedirection w = 2) :
    ∃ st', redScanStep st w = some st'
      ∧ st'.redStrings = st.redStrings ∧ st'.redArgs = st.redArgs := by
  cases hg : ((!isFileDescriptor (charAt w 0) && !isRedirectionSymbol (charAt w 0))
      && (!st.redSymbolPassed && st.redStrings.length == 0)) with
  | true => exact ⟨_, redScanStep_skip st w hg, rfl, rfl⟩
  | false => exact ⟨_, redScanStep_symbol st w hg hsym hpend, rfl, rfl⟩

/-- A last token that ends with a redirection symbol and has no target after
it goes unnoticed: when no symbol is pending before it,
`splitRedirectionStrings` returns the clauses and the count it returns for the
text without that token. -/
theorem splitRedirectionStrings_dangling_symbol (text w : List Char) (st : RedScan)
    (hscan : redScanLoop RedScan.init (strtokAll ' ' text) = some st)
    (hpend : st.redSymbolPassed = false)
    (hsp : ' ' ∉ w) (hsym : isRedirection w = 2) :
    splitRedirectionStrings (text ++ ' ' :: w) = some (st.redStrings, st.redArgs)
    ∧ splitRedirectionStrings text = some (st.redStrings, st.redArgs) := by
  obtain ⟨st', hstep, h1, h2⟩ := redScanStep_symbol_word st w hpend hsym
  constructor
  · unfold splitRedirectionStrings
    rw [strtokAll_append_word text w (isRedirection_ne_nil w hsym) hsp, redScanLoop_append,
      hscan]
    simp [redScanLoop, hstep, h1, h2]
  · unfold splitRedirectionStrings
    rw [hscan]

/-- Claim C12, evaluated where the code departs from it. In `ls >` and in
`ls > out 2>` the last token is a redirection symbol with no target after it;
`splitRedirectionStrings` does not return `-1` but a clause list and a count
(no clause and 0, respectively the clause `> out` and 2), while a symbol that
is followed by a second symbol, as in `ls > >`, is reported. For `ls >` the
stage then runs `ls` with the argument `>`. -/
theorem splitRedirectionStrings_dangling_symbol_not_reported :
    splitRedirectionStrings "ls >".toList = some ([], 0)
    ∧ splitRedirectionStrings "ls > out 2>".toList = some (["> out ".toList], 2)
    ∧ splitRedirectionStrings "ls > >".toList = none
    ∧ stageExecArgv 1 "ls >".toList = some ["ls".toList, ">".toList] := by
  decide

/-- Claim C13. For every stage text in which two consecutive tokens each end
with a redirection symbol, the first of them lying in the redirection region
(it starts with an FD character or a redirection symbol, or a symbol is
pending, or a clause has been stored), `splitRedirectionStrings` returns
`-1`. -/
theorem splitRedirectionStrings_adjacent_symbols (text : List Char)
    (ws rest : List (List Char)) (t1 t2 : List Char)
    (htok : strtokAll ' ' text = ws ++ t1 :: t2 :: rest)
    (h1 : isRedirection t1 = 2) (h2 : isRedirection t2 = 2)
    (hregion : ∀ st, redScanLoop RedScan.init ws = some st →
      inRedirectionRegion st t1 = true) :
    splitRedirectionStrings text = none := by
  unfold splitRedirectionStrings
  rw [htok, redScanLoop_append]
  cases hws : redScanLoop RedScan.init ws with
  | none => rfl
  | some st =>
    have hr := hregion st hws
    have hguard : ((!isFileDescriptor (charAt t1 0) && !isRedirectionSymbol (charAt t1 0))
        && (!st.redSymbolPassed && st.redStrings.length == 0)) = false := by
      unfold inRedirectionRegion at hr
      revert hr
      cases isFileDescriptor (charAt t1 0) <;> cases isRedirectionSymbol (charAt t1 0)
        <;> cases st.redSymbolPassed <;> cases hl : (st.redStrings.length == 0)
        <;> simp_all [bne]
    simp only [Option.bind]
    cases hp : st.redSymbolPassed with
    | true =>
      simp [redScanLoop, redScanStep_symbol_pending st t1 hguard h1 hp]
    | false =>
      have hg2 : ((!isFileDescriptor (charAt t2 0) && !isRedirectionSymbol (charAt t2 0))
          && (!true && st.redStrings.length == 0)) = false := by simp
      simp only [redScanLoop, redScanStep_symbol st t1 hguard h1 hp]
      rw [redScanStep_symbol_pending _ t2 hg2 h2 rfl]

theorem splitRedirectionStrings_adjacent_symbols_witness :
    (strtokAll ' ' "ls > > f".toList = ["ls".toList] ++ ">".toList :: ">".toList :: ["f".toList]
      ∧ isRedirection ">".toList = 2
      ∧ ∀ st, redScanLoop RedScan.init ["ls".toList] = some st →
          inRedirectionRegion st ">".toList = true)
    ∧ splitRedirectionStrings "ls > > f".toList = none :=
  ⟨⟨by decide, by decide, fun _ _ => rfl⟩,
   splitRedirectionStrings_adjacent_symbols "ls > > f".toList ["ls".toList] ["f".toList]
     ">".toList ">".toList (by decide) (by decide) (by decide) (fun _ _ => rfl)⟩

theorem findRedirections_isSome (c : List Char) (h : 2 ≤ c.length) :
    ∃ r, findRedirections c = some r := by
  unfold findRedirections
  simp only
  split
  · split
    · rw [if_neg (by omega)]; exact ⟨_, rfl⟩
    · rw [if_neg (by omega)]; exact ⟨_, rfl⟩
  · split
    · rename_i h3
      have hlen : 3 ≤ c.length := by
        by_contra hc
        have h2 : charAt c 2 = '\x00' := by
          unfold charAt
          rw [List.getD_eq_default]
          omega
        rw [h2] at h3
        exact absurd h3.2 (by decide)
      rw [if_neg (by omega)]; exact ⟨_, rfl⟩
    · rw [if_neg (by omega)]; exact ⟨_, rfl⟩

theorem redScanStep_clause_length (st st' : RedScan) (w : List Char) (hw : w ≠ [])
    (hst : ∀ c ∈ st.redStrings, 2 ≤ c.length) (h : redScanStep st w = some st') :
    ∀ c ∈ st'.redStrings, 2 ≤ c.length := by
  have hlen : 2 ≤ (st.nextString ++ w ++ [' ']).length := by
    have : 0 < w.length := List.length_pos.2 hw
    simp only [List.length_append, List.length_singleton]
    omega
  have hnew : ∀ c ∈ st.redStrings ++ [st.nextString ++ w ++ [' ']], 2 ≤ c.length := by
    intro c hc
    rcases List.mem_append.1 hc with h1 | h1
    · exact hst c h1
    · have : c = st.nextString ++ w ++ [' '] := by simpa using h1
      rw [this]; exact hlen
  unfold redScanStep at h
  simp only at h
  split at h
  · cases h; exact hst
  · split at h
    · cases h; exact hnew
    · split at h
      · split at h
        · cases h; exact hst
        · cases h
      · split at h
        · cases h; exact hnew
        · cases h; exact hst

theorem redScanLoop_clause_length (ws : List (List Char)) (hws : ∀ w ∈ ws, w ≠ []) :
    ∀ st st', (∀ c ∈ st.redStrings, 2 ≤ c.length) → redScanLoop st ws = some st' →
      ∀ c ∈ st'.redStrings, 2 ≤ c.length := by
  induction ws with
  | nil => intro st st' hst h; simp [redScanLoop] at h; subst h; exact hst
  | cons w ws ih =>
    intro st st' hst h
    cases hstep : redScanStep st w with
    | none => simp [redScanLoop, hstep] at h
    | some st1 =>
      simp only [redScanLoop, hstep] at h
      exact ih (fun x hx => hws x (by simp [hx])) st1 st'
        (redScanStep_clause_length st st1 w (hws w (by simp)) hst hstep) h

/-- Every clause assembled by `splitRedirectionStrings` has at least two
characters, so `findRedirections` never fails on it. -/
theorem splitRedirectionStrings_clause_length (command : List Char)
    (cls : List (List Char)) (n : Nat)
    (h : splitRedirectionStrings command = some (cls, n)) :
    ∀ c ∈ cls, 2 ≤ c.length := by
  unfold splitRedirectionStrings at h
  cases hscan : redScanLoop RedScan.init (strtokAll ' ' command) with
  | none => simp [hscan] at h
  | some st =>
    simp only [hscan, Option.some.injEq, Prod.mk.injEq] at h
    rw [← h.1]
    exact redScanLoop_clause_length _ (fun w hw => (strtokAll_mem ' ' command w hw).1)
      RedScan.init st (by simp [RedScan.init]) hscan

/-- The loop of `executeRedirections` leaves in each pointer the target of the
last clause that assigns it, or the previous value when no clause does. -/
theorem selectTargets_last (cls : List (List Char)) :
    ∀ t, (∀ c ∈ cls, 2 ≤ c.length) →
      ∃ t', selectTargets t cls = some t'
        ∧ t'.redirectFromInput
            = (lastTargetOf (fun ty => ty = 1) cls).or t.redirectFromInput
        ∧ t'.redirectToStdOutAppend
            = (lastTargetOf (fun ty => ty = 5) cls).or t.redirectToStdOutAppend
        ∧ t'.redirectToStdOut
            = (lastTargetOf (fun ty => ty = 2 || ty = 4) cls).or t.redirectToStdOut
        ∧ t'.redirectToStdErr
            = (lastTargetOf (fun ty => ty = 3 || ty = 4) cls).or t.redirectToStdErr := by
  induction cls with
  | nil => intro t _; exact ⟨t, rfl, by simp [lastTargetOf]⟩
  | cons c cls ih =>
    intro t hlen
    obtain ⟨⟨ty, tg⟩, hf⟩ := findRedirections_isSome c (hlen c (by simp))
    obtain ⟨t', hsel, h1, h5, h2, h3⟩ :=
      ih (selectTarget t ty tg) (fun x hx => hlen x (by simp [hx]))
    refine ⟨t', by simp [selectTargets, hf, hsel], ?_, ?_, ?_, ?_⟩
    · rw [h1]; simp only [lastTargetOf, hf]
      cases lastTargetOf (fun ty => decide (ty = 1)) cls with
      | some x => rfl
      | none => unfold selectTarget; split_ifs <;> simp_all
    · rw [h5]; simp only [lastTargetOf, hf]
      cases lastTargetOf (fun ty => decide (ty = 5)) cls with
      | some x => rfl
      | none => unfold selectTarget; split_ifs <;> simp_all
    · rw [h2]; simp only [lastTargetOf, hf]
      cases lastTargetOf (fun ty => decide (ty = 2) || decide (ty = 4)) cls with
      | some x => rfl
      | none => unfold selectTarget; split_ifs <;> simp_all
    · rw [h3]; simp only [lastTargetOf, hf]
      cases lastTargetOf (fun ty => decide (ty = 3) || decide (ty = 4)) cls with
      | some x => rfl
      | none => unfold selectTarget; split_ifs <;> simp_all

/-- The count handed to `executeProcess` is the `redArgs` of
`splitRedirectionStrings`: on the clauses it assembles the clause loop of
`executeRedirections` never fails. -/
theorem executeRedirections_redArgs (command : List Char) :
    (executeRedirections command).map (fun r => r.2.2) = executeRedirectionsArgs command := by
  unfold executeRedirectionsArgs
  cases h : splitRedirectionStrings command with
  | none => simp [executeRedirections, h]
  | some r =>
    obtain ⟨cls, n⟩ := r
    obtain ⟨t, hsel, _⟩ := selectTargets_last cls RedTargets.init
      (splitRedirectionStrings_clause_length command cls n h)
    simp [executeRedirections, h, hsel]

/-! ## The process table and the job table -/

theorem firstIndexOf_eq_some (v : Int) (l : List Int) :
    ∀ k i, firstIndexOf v l k = some i →
      ∃ j, i = k + j ∧ j < l.length ∧ l[j]? = some v ∧ ∀ m, m < j → l[m]? ≠ some v := by
  induction l with
  | nil => intro k i h; simp [firstIndexOf] at h
  | cons x xs ih =>
    intro k i h
    by_cases hx : x = v
    · simp only [firstIndexOf, hx, if_true, Option.some.injEq] at h
      exact ⟨0, by omega, by simp, by simp [hx], by intro m hm; omega⟩
    · simp only [firstIndexOf, hx, if_false] at h
      obtain ⟨j, hi, hj, hv, hmin⟩ := ih (k + 1) i h
      refine ⟨j + 1, by omega, by simp; omega, by simpa using hv, ?_⟩
      intro m hm
      cases m with
      | zero => simp [hx]
      | succ m => simpa using hmin m (by omega)

theorem firstIndexOf_eq_none (v : Int) (l : List Int) :
    ∀ k, firstIndexOf v l k = none → v ∉ l := by
  induction l with
  | nil => intro k _; simp
  | cons x xs ih =>
    intro k h
    by_cases hx : x = v
    · simp [firstIndexOf, hx] at h
    · simp only [firstIndexOf, hx, if_false] at h
      have := ih (k + 1) h
      simp [this, Ne.symm hx]

theorem firstIndexOf_of_mem (v : Int) (l : List Int) (h : v ∈ l) (k : Nat) :
    ∃ i, firstIndexOf v l k = some i := by
  cases hf : firstIndexOf v l k with
  | some i => exact ⟨i, rfl⟩
  | none => exact absurd h (firstIndexOf_eq_none v l k hf)

theorem getD_of_getElem? (l : List Int) (j : Nat) (v d : Int) (h : l[j]? = some v) :
    l.getD j d = v := by
  rw [List.getD_eq_getElem?_getD, h]; rfl

theorem countP_set (p : Int → Bool) (v : Int) :
    ∀ (l : List Int) (i : Nat), i < l.length →
      (l.set i v).countP p + (if p (l.getD i 0) then 1 else 0)
        = l.countP p + (if p v then 1 else 0) := by
  intro l
  induction l with
  | nil => intro i h; simp at h
  | cons x xs ih =>
    intro i h
    cases i with
    | zero =>
      simp only [List.set_cons_zero, List.countP_cons, List.getD_cons_zero]
      omega
    | succ i =>
      have := ih i (by simpa using h)
      simp only [List.set_cons_succ, List.countP_cons, List.getD_cons_succ]
      omega

theorem nonZeroCount_set_free (l : List Int) (i : Nat) (v : Int) (hi : i < l.length)
    (h0 : l.getD i 0 = 0) (hv : v ≠ 0) :
    nonZeroCount (l.set i v) = nonZeroCount l + 1 := by
  have := countP_set (fun x => x ≠ 0) v l i hi
  simp only [h0, hv, ne_eq, not_true_eq_false, decide_False, not_false_eq_true, decide_True,
    if_true, if_false] at this
  unfold nonZeroCount
  simpa using this

theorem nonZeroCount_set_zero (l : List Int) (i : Nat) (hi : i < l.length)
    (h0 : l.getD i 0 ≠ 0) :
    nonZeroCount (l.set i 0) + 1 = nonZeroCount l := by
  have := countP_set (fun x => x ≠ 0) 0 l i hi
  simp only [h0, ne_eq, not_true_eq_false, decide_False, not_false_eq_true, decide_True,
    if_true, if_false] at this
  unfold nonZeroCount
  simpa using this

theorem nonZeroCount_le (l : List Int) : nonZeroCount l ≤ l.length :=
  List.countP_le_length _

theorem nonZeroCount_eq_length (l : List Int) :
    nonZeroCount l = l.length ↔ ∀ x ∈ l, x ≠ 0 := by
  unfold nonZeroCount
  rw [List.countP_eq_length]
  simp

theorem procInv_deallocateProcess (s : Tables) (h : procInv s) (i : Nat) :
    procInv (deallocateProcess s i).2 := by
  unfold deallocateProcess
  split
  · exact h
  · split
    · exact h
    · rename_i h1 h2
      have hi : i < s.processes.length := by
        by_contra hc
        exact h2 (by rw [List.getD_eq_default]; omega)
      have := nonZeroCount_set_zero s.processes i hi h2
      refine ⟨by simpa using h.1, ?_⟩
      simp only
      rw [h.2]
      omega

theorem procInv_processFinished (s : Tables) (h : procInv s) (pid : Int) :
    procInv (processFinished s pid).2 := by
  unfold processFinished
  split
  · exact h
  · split
    · exact procInv_deallocateProcess s h _
    · exact h

/-- Claim C15. The predicate "`actPrCount` equals the number of non-zero
entries of `processes[0..9]`" holds after `processesInitialization` and is
preserved by `allocateProcess`, by `deallocateProcess` for every index in
`0..9` and by `processFinished` for every pid; under it `allocateProcess`
returns `-1` and leaves the table as it is when all ten slots are used, and
otherwise returns the lowest free index, which is below ten. -/
theorem process_table_invariant (s0 s : Tables) (h : procInv s) :
    procInv (processesInitialization s0)
    ∧ (∃ r s', allocateProcess s = some (r, s') ∧ procInv s'
        ∧ ((∀ x ∈ s.processes, x ≠ 0) →
            r = -1 ∧ s'.processes = s.processes ∧ s'.actPrCount = s.actPrCount)
        ∧ ((∃ x ∈ s.processes, x = 0) →
            ∃ i : Nat, r = (i : Int) ∧ i < MAX_ACTIVE_PROCESSES
              ∧ s.processes.getD i 1 = 0 ∧ (∀ j, j < i → s.processes.getD j 0 ≠ 0)
              ∧ s'.processes = s.processes.set i 1
              ∧ s'.actPrCount = s.actPrCount + 1))
    ∧ (∀ i, i < MAX_ACTIVE_PROCESSES → procInv (deallocateProcess s i).2)
    ∧ (∀ pid, procInv (processFinished s pid).2) := by
  refine ⟨?_, ?_, fun i _ => procInv_deallocateProcess s h i,
    fun pid => procInv_processFinished s h pid⟩
  · refine ⟨by simp [processesInitialization], ?_⟩
    simp [processesInitialization, nonZeroCount, List.countP_replicate]
  · obtain ⟨hlen, hcnt⟩ := h
    by_cases hfull : s.actPrCount = (MAX_ACTIVE_PROCESSES : Int)
    · have hall : ∀ x ∈ s.processes, x ≠ 0 := by
        rw [← nonZeroCount_eq_length, hlen]
        rw [hcnt] at hfull
        exact_mod_cast hfull
      refine ⟨-1, { s with printed := s.printed ++ [OutLine.insufficientResources] },
        by simp [allocateProcess, hfull], ⟨hlen, hcnt⟩, fun _ => ⟨rfl, rfl, rfl⟩, ?_⟩
      rintro ⟨x, hx, hx0⟩
      exact absurd hx0 (hall x hx)
    · have hex : (0 : Int) ∈ s.processes := by
        by_contra hc
        have hall : ∀ x ∈ s.processes, x ≠ 0 := fun x hx e => hc (e ▸ hx)
        have := (nonZeroCount_eq_length s.processes).2 hall
        rw [hcnt, this, hlen] at hfull
        exact hfull rfl
      obtain ⟨i, hi⟩ := firstIndexOf_of_mem 0 s.processes hex 0
      obtain ⟨j, hij, hj, hv, hmin⟩ := firstIndexOf_eq_some 0 s.processes 0 i hi
      have hij' : i = j := by omega
      subst hij'
      have hget : s.processes.getD i 0 = 0 := getD_of_getElem? _ _ _ _ hv
      have hcount := nonZeroCount_set_free s.processes i 1 hj hget (by decide)
      refine ⟨(i : Int),
        { s with processes := s.processes.set i 1, actPrCount := s.actPrCount + 1 },
        by simp [allocateProcess, hfull, hi], ⟨by simpa using hlen, ?_⟩, ?_, ?_⟩
      · show s.actPrCount + 1 = ((nonZeroCount (s.processes.set i 1) : Nat) : Int)
        rw [hcount, hcnt]
        push_cast
        rfl
      · intro hall
        exact absurd rfl (hall 0 hex)
      · intro _
        refine ⟨i, rfl, by rw [← hlen]; exact hj, getD_of_getElem? _ _ _ _ hv, ?_, rfl, rfl⟩
        intro m hm hm0
        have hm' : m < s.processes.length := by omega
        apply hmin m hm
        rw [List.getElem?_eq_getElem hm']
        have : s.processes.getD m 0 = s.processes[m] := by
          rw [List.getD_eq_getElem?_getD, List.getElem?_eq_getElem hm']; rfl
        rw [this] at hm0
        rw [hm0]

theorem process_table_invariant_witness :
    procInv Tables.twoJobs
    ∧ (procInv (processesInitialization Tables.secondJobLeft)
      ∧ (∃ r s', allocateProcess Tables.twoJobs = some (r, s') ∧ procInv s'
          ∧ ((∀ x ∈ Tables.twoJobs.processes, x ≠ 0) →
              r = -1 ∧ s'.processes = Tables.twoJobs.processes
                ∧ s'.actPrCount = Tables.twoJobs.actPrCount)
          ∧ ((∃ x ∈ Tables.twoJobs.processes, x = 0) →
              ∃ i : Nat, r = (i : Int) ∧ i < MAX_ACTIVE_PROCESSES
                ∧ Tables.twoJobs.processes.getD i 1 = 0
                ∧ (∀ j, j < i → Tables.twoJobs.processes.getD j 0 ≠ 0)
                ∧ s'.processes = Tables.twoJobs.processes.set i 1
                ∧ s'.actPrCount = Tables.twoJobs.actPrCount + 1))
      ∧ (∀ i, i < MAX_ACTIVE_PROCESSES → procInv (deallocateProcess Tables.twoJobs i).2)
      ∧ (∀ pid, procInv (processFinished Tables.twoJobs pid).2)) :=
  ⟨by decide, process_table_invariant Tables.secondJobLeft Tables.twoJobs (by decide)⟩

theorem firstIndexOf_of_lowest (v : Int) (l : List Int) :
    ∀ k i, l[i]? = some v → (∀ m, m < i → l[m]? ≠ some v) →
      firstIndexOf v l k = some (k + i) := by
  induction l with
  | nil => intro k i h; simp at h
  | cons x xs ih =>
    intro k i h hmin
    cases i with
    | zero =>
      have : x = v := by simpa using h
      simp [firstIndexOf, this]
    | succ i =>
      have hx : x ≠ v := by
        have := hmin 0 (by omega)
        simpa using this
      have h' : xs[i]? = some v := by simpa using h
      have := ih (k + 1) i h' (fun m hm => by simpa using hmin (m + 1) (by omega))
      simp only [firstIndexOf, hx, if_false, this]
      congr 1
      omega

theorem getElem?_of_getD_ne (l : List Int) (i : Nat) (d v : Int) (hv : v ≠ d)
    (h : l.getD i d = v) : l[i]? = some v := by
  rw [List.getD_eq_getElem?_getD] at h
  cases hl : l[i]? with
  | none => rw [hl] at h; exact absurd h.symm hv
  | some x => rw [hl] at h; simpa using h

theorem getElem?_ne_of_getD_ne (l : List Int) (m : Nat) (d v : Int)
    (h : l.getD m d ≠ v) : l[m]? ≠ some v := by
  intro e
  exact h (getD_of_getElem? l m v d e)

/-- Claim C16. In a job table where `activeJobs` is the number of slots with
`jobsRunning = 1`: when all ten slots are active `jobStarted` returns `-1` and
leaves `activeJobs`, `jobsRunning`, `jobProcessesActive` and `jobPIDs` as they
are; otherwise (a free slot exists, which is the case whenever the flags are 0
or 1 and not all 1) it returns the lowest free slot index `i`, sets
`jobsRunning[i] = 1` and `jobProcessesActive[i] = 0`, increments `activeJobs`
by one and changes nothing else. -/
theorem jobStarted_spec (s : Tables)
    (hlen : s.jobsRunning.length = MAX_JOBS_RUNNING)
    (hcnt : s.activeJobs = ((s.jobsRunning.countP (fun x => x = 1) : Nat) : Int)) :
    ((∀ x ∈ s.jobsRunning, x = 1) →
        jobStarted s
          = (-1, { s with printed := s.printed ++ [OutLine.insufficientResources] }))
    ∧ (∀ i, s.jobsRunning.getD i 1 = 0 → (∀ j, j < i → s.jobsRunning.getD j 0 ≠ 0) →
        i < MAX_JOBS_RUNNING
        ∧ jobStarted s
          = ((i : Int), { s with activeJobs := s.activeJobs + 1,
                                 jobsRunning := s.jobsRunning.set i 1,
                                 jobProcessesActive := s.jobProcessesActive.set i 0 }))
    ∧ ((∀ x ∈ s.jobsRunning, x = 0 ∨ x = 1) → (¬ ∀ x ∈ s.jobsRunning, x = 1) →
        ∃ i, s.jobsRunning.getD i 1 = 0 ∧ ∀ j, j < i → s.jobsRunning.getD j 0 ≠ 0) := by
  refine ⟨?_, ?_, ?_⟩
  · intro hall
    have hc : s.jobsRunning.countP (fun x => x = 1) = s.jobsRunning.length := by
      rw [List.countP_eq_length]; simpa using hall
    have hfull : s.activeJobs = (MAX_JOBS_RUNNING : Int) := by rw [hcnt, hc, hlen]
    simp [jobStarted, hfull]
  · intro i hi hmin
    have hget : s.jobsRunning[i]? = some 0 := getElem?_of_getD_ne _ _ 1 0 (by decide) hi
    have hilt : i < s.jobsRunning.length := by
      by_contra hc
      rw [List.getElem?_eq_none (by omega)] at hget
      exact absurd hget (by simp)
    have hnot : ¬ s.activeJobs = (MAX_JOBS_RUNNING : Int) := by
      intro hfull
      have hc : s.jobsRunning.countP (fun x => x = 1) = s.jobsRunning.length := by
        rw [hcnt, ← hlen] at hfull
        exact_mod_cast hfull
      rw [List.countP_eq_length] at hc
      have hmem : (0 : Int) ∈ s.jobsRunning := List.getElem?_mem hget
      have := hc 0 hmem
      simp at this
    have hfirst := firstIndexOf_of_lowest 0 s.jobsRunning 0 i hget
      (fun m hm => getElem?_ne_of_getD_ne _ _ _ _ (hmin m hm))
    refine ⟨by rw [← hlen]; exact hilt, ?_⟩
    simp [jobStarted, hnot, hfirst]
  · intro hflags hnotall
    have hex : (0 : Int) ∈ s.jobsRunning := by
      by_contra hc
      apply hnotall
      intro x hx
      rcases hflags x hx with h0 | h1
      · exact absurd (h0 ▸ hx) hc
      · exact h1
    obtain ⟨i, hi⟩ := firstIndexOf_of_mem 0 s.jobsRunning hex 0
    obtain ⟨j, hij, _, hv, hmin⟩ := firstIndexOf_eq_some 0 s.jobsRunning 0 i hi
    refine ⟨j, getD_of_getElem? _ _ _ _ hv, ?_⟩
    intro m hm hm0
    have hmlt : m < s.jobsRunning.length := by
      have := (firstIndexOf_eq_some 0 s.jobsRunning 0 i hi)
      obtain ⟨j', hj1, hj2, _, _⟩ := this
      omega
    apply hmin m hm
    rw [List.getElem?_eq_getElem hmlt]
    have : s.jobsRunning.getD m 0 = s.jobsRunning[m] := by
      rw [List.getD_eq_getElem?_getD, List.getElem?_eq_getElem hmlt]; rfl
    rw [this] at hm0
    rw [hm0]

theorem jobStarted_spec_witness :
    (Tables.twoJobs.jobsRunning.length = MAX_JOBS_RUNNING
      ∧ Tables.twoJobs.activeJobs
          = ((Tables.twoJobs.jobsRunning.countP (fun x => x = 1) : Nat) : Int))
    ∧ (((∀ x ∈ Tables.twoJobs.jobsRunning, x = 1) →
          jobStarted Tables.twoJobs
            = (-1, { Tables.twoJobs with
                printed := Tables.twoJobs.printed ++ [OutLine.insufficientResources] }))
      ∧ (∀ i, Tables.twoJobs.jobsRunning.getD i 1 = 0 →
          (∀ j, j < i → Tables.twoJobs.jobsRunning.getD j 0 ≠ 0) →
          i < MAX_JOBS_RUNNING
          ∧ jobStarted Tables.twoJobs
            = ((i : Int), { Tables.twoJobs with
                activeJobs := Tables.twoJobs.activeJobs + 1,
                jobsRunning := Tables.twoJobs.jobsRunning.set i 1,
                jobProcessesActive := Tables.twoJobs.jobProcessesActive.set i 0 }))
      ∧ ((∀ x ∈ Tables.twoJobs.jobsRunning, x = 0 ∨ x = 1) →
          (¬ ∀ x ∈ Tables.twoJobs.jobsRunning, x = 1) →
          ∃ i, Tables.twoJobs.jobsRunning.getD i 1 = 0
            ∧ ∀ j, j < i → Tables.twoJobs.jobsRunning.getD j 0 ≠ 0)) :=
  ⟨by decide, jobStarted_spec Tables.twoJobs (by decide) (by decide)⟩

theorem jobProcessCompleted_found (s : Tables) (j : Nat) (pid : Int) (i : Nat)
    (hne : ¬ s.jobProcessesActive.getD j 0 = 0)
    (hi : firstIndexOf pid (s.jobPIDs.getD j []) 0 = some i) :
    jobProcessCompleted s j pid
      = if s.jobProcessesActive.getD j 0 - 1 = 0 then
          (0, { s with
            jobPIDs := s.jobPIDs.set j ((s.jobPIDs.getD j []).set i 0),
            jobProcessesActive :=
              s.jobProcessesActive.set j (s.jobProcessesActive.getD j 0 - 1),
            jobsRunning := s.jobsRunning.set j 0,
            activeJobs := s.activeJobs - 1,
            printed := s.printed ++ [OutLine.jobFinished ((j : Int) + 1)] })
        else
          (0, { s with
            jobPIDs := s.jobPIDs.set j ((s.jobPIDs.getD j []).set i 0),
            jobProcessesActive :=
              s.jobProcessesActive.set j (s.jobProcessesActive.getD j 0 - 1) }) := by
  unfold jobProcessCompleted
  rw [if_neg hne, hi]

/-- Claim C17. For a job slot `j` with `jobProcessesActive[j] > 0`: for a
non-zero pid stored in row `j`, `jobProcessCompleted` clears the (first) entry
holding it, decrements `jobProcessesActive[j]` and returns 0; exactly when the
decremented count is zero it frees the slot (`jobsRunning[j] = 0`, `activeJobs`
decremented, the completion line for `j + 1` printed), and otherwise it leaves
`jobsRunning`, `activeJobs` and the output as they are. For a pid that is not
in row `j` it returns `-1` and changes nothing. -/
theorem jobProcessCompleted_spec (s : Tables) (j : Nat) (pid : Int)
    (hc : 0 < s.jobProcessesActive.getD j 0) :
    (pid ≠ 0 → pid ∈ s.jobPIDs.getD j [] →
      ∃ i, (s.jobPIDs.getD j []).getD i 0 = pid
        ∧ (∀ m, m < i → (s.jobPIDs.getD j []).getD m 0 ≠ pid)
        ∧ (jobProcessCompleted s j pid).1 = 0
        ∧ (jobProcessCompleted s j pid).2.jobPIDs
            = s.jobPIDs.set j ((s.jobPIDs.getD j []).set i 0)
        ∧ (jobProcessCompleted s j pid).2.jobProcessesActive
            = s.jobProcessesActive.set j (s.jobProcessesActive.getD j 0 - 1)
        ∧ (jobProcessCompleted s j pid).2.processes = s.processes
        ∧ (jobProcessCompleted s j pid).2.actPrCount = s.actPrCount
        ∧ (s.jobProcessesActive.getD j 0 - 1 = 0 →
            (jobProcessCompleted s j pid).2.jobsRunning = s.jobsRunning.set j 0
            ∧ (jobProcessCompleted s j pid).2.activeJobs = s.activeJobs - 1
            ∧ (jobProcessCompleted s j pid).2.printed
                = s.printed ++ [OutLine.jobFinished ((j : Int) + 1)])
        ∧ (s.jobProcessesActive.getD j 0 - 1 ≠ 0 →
            (jobProcessCompleted s j pid).2.jobsRunning = s.jobsRunning
            ∧ (jobProcessCompleted s j pid).2.activeJobs = s.activeJobs
            ∧ (jobProcessCompleted s j pid).2.printed = s.printed))
    ∧ (pid ∉ s.jobPIDs.getD j [] → jobProcessCompleted s j pid = (-1, s)) := by
  have hne : ¬ s.jobProcessesActive.getD j 0 = 0 := by omega
  constructor
  · intro hpid hmem
    obtain ⟨i, hi⟩ := firstIndexOf_of_mem pid _ hmem 0
    obtain ⟨i', hii, _, hv, hmin⟩ := firstIndexOf_eq_some pid _ 0 i hi
    have hii' : i = i' := by omega
    subst hii'
    refine ⟨i, getD_of_getElem? _ _ _ _ hv, ?_, ?_⟩
    · intro m hm hm0
      exact hmin m hm (getElem?_of_getD_ne _ _ 0 pid hpid hm0)
    · by_cases hz : s.jobProcessesActive.getD j 0 - 1 = 0
      · rw [jobProcessCompleted_found s j pid i hne hi, if_pos hz]
        exact ⟨rfl, rfl, rfl, rfl, rfl, fun _ => ⟨rfl, rfl, rfl⟩, fun h => absurd hz h⟩
      · rw [jobProcessCompleted_found s j pid i hne hi, if_neg hz]
        exact ⟨rfl, rfl, rfl, rfl, rfl, fun h => absurd h hz, fun _ => ⟨rfl, rfl, rfl⟩⟩
  · intro hnot
    have hnone : firstIndexOf pid (s.jobPIDs.getD j []) 0 = none := by
      cases hf : firstIndexOf pid (s.jobPIDs.getD j []) 0 with
      | none => rfl
      | some i =>
        obtain ⟨i', _, _, hv, _⟩ := firstIndexOf_eq_some pid _ 0 i hf
        exact absurd (List.getElem?_mem hv) hnot
    unfold jobProcessCompleted
    rw [if_neg hne, hnone]

theorem jobProcessCompleted_spec_witness :
    0 < Tables.twoJobs.jobProcessesActive.getD 1 0
    ∧ (((42 : Int) ≠ 0 → (42 : Int) ∈ Tables.twoJobs.jobPIDs.getD 1 [] →
        ∃ i, (Tables.twoJobs.jobPIDs.getD 1 []).getD i 0 = 42
          ∧ (∀ m, m < i → (Tables.twoJobs.jobPIDs.getD 1 []).getD m 0 ≠ 42)
          ∧ (jobProcessCompleted Tables.twoJobs 1 42).1 = 0
          ∧ (jobProcessCompleted Tables.twoJobs 1 42).2.jobPIDs
              = Tables.twoJobs.jobPIDs.set 1 ((Tables.twoJobs.jobPIDs.getD 1 []).set i 0)
          ∧ (jobProcessCompleted Tables.twoJobs 1 42).2.jobProcessesActive
              = Tables.twoJobs.jobProcessesActive.set 1
                  (Tables.twoJobs.jobProcessesActive.getD 1 0 - 1)
          ∧ (jobProcessCompleted Tables.twoJobs 1 42).2.processes = Tables.twoJobs.processes
          ∧ (jobProcessCompleted Tables.twoJobs 1 42).2.actPrCount
              = Tables.twoJobs.actPrCount
          ∧ (Tables.twoJobs.jobProcessesActive.getD 1 0 - 1 = 0 →
              (jobProcessCompleted Tables.twoJobs 1 42).2.jobsRunning
                = Tables.twoJobs.jobsRunning.set 1 0
              ∧ (jobProcessCompleted Tables.twoJobs 1 42).2.activeJobs
                = Tables.twoJobs.activeJobs - 1
              ∧ (jobProcessCompleted Tables.twoJobs 1 42).2.printed
                  = Tables.twoJobs.printed ++ [OutLine.jobFinished (((1 : Nat) : Int) + 1)])
          ∧ (Tables.twoJobs.jobProcessesActive.getD 1 0 - 1 ≠ 0 →
              (jobProcessCompleted Tables.twoJobs 1 42).2.jobsRunning
                = Tables.twoJobs.jobsRunning
              ∧ (jobProcessCompleted Tables.twoJobs 1 42).2.activeJobs
                = Tables.twoJobs.activeJobs
              ∧ (jobProcessCompleted Tables.twoJobs 1 42).2.printed
                = Tables.twoJobs.printed))
      ∧ ((42 : Int) ∉ Tables.twoJobs.jobPIDs.getD 1 [] →
          jobProcessCompleted Tables.twoJobs 1 42 = (-1, Tables.twoJobs))) :=
  ⟨by decide, jobProcessCompleted_spec Tables.twoJobs 1 42 (by decide)⟩

theorem list_set_self (l : List Int) (i : Nat) (v : Int) (h : l.getD i v = v) :
    l.set i v = l := by
  induction l generalizing i with
  | nil => rfl
  | cons x xs ih =>
    cases i with
    | zero => simp only [List.getD_cons_zero] at h; simp [h]
    | succ i => simp only [List.getD_cons_succ] at h; simp [ih i h]

theorem mem_set_of_mem (l : List Int) (i : Nat) (v x : Int) (hx : x ∈ l) (hx0 : x ≠ 0)
    (hi : l.getD i 0 = 0) : x ∈ l.set i v := by
  induction l generalizing i with
  | nil => simp at hx
  | cons y ys ih =>
    cases i with
    | zero =>
      simp only [List.getD_cons_zero] at hi
      rcases List.mem_cons.1 hx with h | h
      · exact absurd (h.trans hi) hx0
      · simp [h]
    | succ i =>
      simp only [List.getD_cons_succ] at hi
      rcases List.mem_cons.1 hx with h | h
      · simp [h]
      · simp [ih i h hi]

theorem mem_set_self (l : List Int) (i : Nat) (v : Int) (hi : i < l.length) :
    v ∈ l.set i v := by
  rw [List.mem_iff_getElem?]
  exact ⟨i, by simp [List.getElem?_set_self, hi]⟩

theorem mem_of_getD_row (rows : List (List Int)) (j : Nat) (x : Int)
    (hx : x ∈ rows.getD j []) : ∃ row ∈ rows, x ∈ row := by
  rw [List.getD_eq_getElem?_getD] at hx
  cases h : rows[j]? with
  | none => rw [h] at hx; simp at hx
  | some row => rw [h] at hx; exact ⟨row, List.getElem?_mem h, by simpa using hx⟩

theorem jobRowsInv_of_eq (s s' : Tables) (h : jobRowsInv s)
    (hp : s'.processes = s.processes) (hj : s'.jobPIDs = s.jobPIDs) : jobRowsInv s' := by
  unfold jobRowsInv at *
  rw [hp, hj]; exact h

theorem deallocateProcess_jobPIDs (s : Tables) (i : Nat) :
    (deallocateProcess s i).2.jobPIDs = s.jobPIDs := by
  unfold deallocateProcess
  split
  · rfl
  · split <;> rfl

theorem deallocateProcess_free (s : Tables) (i : Nat) (h : s.processes.getD i 0 = 0) :
    (deallocateProcess s i).2 = s := by
  unfold deallocateProcess
  rw [if_pos h]
  split <;> rfl

theorem deallocateProcess_used (s : Tables) (i : Nat) (hc : s.actPrCount ≠ 0)
    (h : s.processes.getD i 0 ≠ 0) :
    (deallocateProcess s i).2
      = { s with processes := s.processes.set i 0, actPrCount := s.actPrCount - 1 } := by
  unfold deallocateProcess
  rw [if_neg hc, if_neg h]

theorem allocateProcess_of_free (s : Tables) (hproc : procInv s)
    (hfree : (0 : Int) ∈ s.processes) :
    ∃ i, i < s.processes.length ∧ s.processes.getD i 0 = 0
      ∧ allocateProcess s
          = some ((i : Int), { s with processes := s.processes.set i 1,
                                      actPrCount := s.actPrCount + 1 }) := by
  obtain ⟨hlen, hcnt⟩ := hproc
  have hfull : ¬ s.actPrCount = (MAX_ACTIVE_PROCESSES : Int) := by
    intro hfull
    have hall : ∀ x ∈ s.processes, x ≠ 0 := by
      rw [← nonZeroCount_eq_length, hlen]
      rw [hcnt] at hfull
      exact_mod_cast hfull
    exact hall 0 hfree rfl
  obtain ⟨i, hi⟩ := firstIndexOf_of_mem 0 s.processes hfree 0
  obtain ⟨j, hij, hj, hv, _⟩ := firstIndexOf_eq_some 0 s.processes 0 i hi
  have hij' : i = j := by omega
  subst hij'
  refine ⟨i, hj, getD_of_getElem? _ _ _ _ hv, ?_⟩
  unfold allocateProcess
  rw [if_neg hfull, hi]

theorem getD_set_self (l : List Int) (i : Nat) (v d : Int) (hi : i < l.length) :
    (l.set i v).getD i d = v := by
  rw [List.getD_eq_getElem?_getD, List.getElem?_set_self hi]; rfl

/-- The parent side of `executeProcess` once a slot is free: the slot `i`
found by `allocateProcess` receives the PID, then the two flags decide. -/
theorem executeProcessParent_eq (s : Tables) (j : Nat) (pid : Int) (bg lbg : Bool)
    (hproc : procInv s) (hfree : (0 : Int) ∈ s.processes) :
    ∃ i, i < s.processes.length ∧ s.processes.getD i 0 = 0
      ∧ executeProcessParent s j pid bg lbg
          = some
              (if !lbg then
                (deallocateProcess
                  (if bg then (processStarted (slotTaken s i pid) j pid).2
                   else (deallocateProcess (slotTaken s i pid) i).2) i).2
               else
                (if bg then (processStarted (slotTaken s i pid) j pid).2
                 else (deallocateProcess (slotTaken s i pid) i).2)) := by
  obtain ⟨i, hi, h0, halloc⟩ := allocateProcess_of_free s hproc hfree
  refine ⟨i, hi, h0, ?_⟩
  have hcount : s.actPrCount + 1 ≠ 0 := by
    have := hproc.2
    omega
  have hne : ((i : Int) = -1) = False := by
    apply propext; constructor
    · intro h; omega
    · intro h; exact h.elim
  unfold executeProcessParent slotTaken
  rw [halloc]
  simp only [hne, if_false, hcount, Int.toNat_ofNat, getD_set_self _ _ _ _ hi,
    List.set_set]
  simp

theorem processStarted_processes (s : Tables) (j : Nat) (pid : Int) :
    (processStarted s j pid).2.processes = s.processes
      ∧ (processStarted s j pid).2.actPrCount = s.actPrCount := by
  unfold processStarted
  simp only
  split <;> exact ⟨rfl, rfl⟩

theorem processStarted_jobPIDs (s : Tables) (j : Nat) (pid : Int) :
    (processStarted s j pid).2.jobPIDs = s.jobPIDs
    ∨ (processStarted s j pid).2.jobPIDs
        = s.jobPIDs.set j
            ((s.jobPIDs.getD j []).set (s.jobProcessesActive.getD j 0).toNat pid) := by
  unfold processStarted
  simp only
  split
  · left; rfl
  · right; rfl

theorem slotTaken_processes (s : Tables) (i : Nat) (pid : Int) :
    (slotTaken s i pid).processes = s.processes.set i pid := rfl

theorem slotTaken_actPrCount (s : Tables) (i : Nat) (pid : Int) :
    (slotTaken s i pid).actPrCount = s.actPrCount + 1 := rfl

theorem slotTaken_jobPIDs (s : Tables) (i : Nat) (pid : Int) :
    (slotTaken s i pid).jobPIDs = s.jobPIDs := rfl

theorem slotTaken_jobProcessesActive (s : Tables) (i : Nat) (pid : Int) :
    (slotTaken s i pid).jobProcessesActive = s.jobProcessesActive := rfl

theorem slotTaken_getD (s : Tables) (i : Nat) (pid : Int) (hi : i < s.processes.length) :
    (slotTaken s i pid).processes.getD i 0 = pid := by
  rw [slotTaken_processes]; exact getD_set_self _ _ _ _ hi

/-- Releasing the slot that was just taken gives back the process table from
before the allocation. -/
theorem release_slotTaken (s : Tables) (i : Nat) (pid : Int) (hi : i < s.processes.length)
    (h0 : s.processes.getD i 0 = 0) (hcount : s.actPrCount + 1 ≠ 0) :
    (deallocateProcess (slotTaken s i pid) i).2.processes = s.processes
      ∧ (deallocateProcess (slotTaken s i pid) i).2.jobPIDs = s.jobPIDs := by
  refine ⟨?_, by rw [deallocateProcess_jobPIDs]; rfl⟩
  by_cases hp : pid = 0
  · subst hp
    rw [deallocateProcess_free _ _ (slotTaken_getD s i 0 hi), slotTaken_processes]
    exact list_set_self _ _ _ h0
  · have hused : (slotTaken s i pid).processes.getD i 0 ≠ 0 := by
      rw [slotTaken_getD s i pid hi]; exact hp
    rw [deallocateProcess_used _ _ (by rw [slotTaken_actPrCount]; exact hcount) hused]
    show (slotTaken s i pid).processes.set i 0 = s.processes
    rw [slotTaken_processes, List.set_set]
    exact list_set_self _ _ _ h0

/-- Claim C18, as amended. When a process slot is free, the parent side of
`executeProcess` preserves "every non-zero PID of a job row occupies a slot of
the process table" for a foreground stage (`isBackground = 0`, nothing is
recorded in the job table) and for a stage of a background job
(`isBackground = 1`, `lastInBackground = 1`). For a stage of a foreground
pipeline (`isBackground = 1`, `lastInBackground = 0`) the PID is recorded in
row `jobIndex` and its process slot is released at once, so the process table
is again the one before the call. -/
theorem executeProcessParent_job_pids (s : Tables) (j : Nat) (pid : Int)
    (hproc : procInv s) (hinv : jobRowsInv s) (hfree : (0 : Int) ∈ s.processes) :
    (∀ lbg, ∃ s', executeProcessParent s j pid false lbg = some s' ∧ jobRowsInv s')
    ∧ (∃ s', executeProcessParent s j pid true true = some s' ∧ jobRowsInv s')
    ∧ (pid ≠ 0 → j < s.jobPIDs.length →
        (s.jobProcessesActive.getD j 0).toNat < (s.jobPIDs.getD j []).length →
        s.jobProcessesActive.getD j 0 ≠ (MAX_ACTIVE_PROCESSES : Int) →
        ∃ s', executeProcessParent s j pid true false = some s'
          ∧ pid ∈ s'.jobPIDs.getD j [] ∧ s'.processes = s.processes) := by
  have hcount : s.actPrCount + 1 ≠ 0 := by
    have := hproc.2
    omega
  refine ⟨?_, ?_, ?_⟩
  · intro lbg
    obtain ⟨i, hi, h0, heq⟩ := executeProcessParent_eq s j pid false lbg hproc hfree
    refine ⟨_, heq, ?_⟩
    have hs2 := release_slotTaken s i pid hi h0 hcount
    simp only [Bool.false_eq_true, if_false]
    cases lbg with
    | true => exact jobRowsInv_of_eq s _ hinv hs2.1 hs2.2
    | false =>
      simp only [Bool.not_false, if_true]
      refine jobRowsInv_of_eq s _ hinv ?_ ?_
      · rw [deallocateProcess_free _ _ (by rw [hs2.1]; exact h0)]; exact hs2.1
      · rw [deallocateProcess_jobPIDs]; exact hs2.2
  · obtain ⟨i, hi, h0, heq⟩ := executeProcessParent_eq s j pid true true hproc hfree
    refine ⟨_, heq, ?_⟩
    simp only [Bool.not_true, Bool.false_eq_true, if_false, if_true]
    have hp := (processStarted_processes (slotTaken s i pid) j pid).1
    intro row hrow x hx hx0
    rw [hp, slotTaken_processes]
    have hold : ∀ r ∈ s.jobPIDs, ∀ y ∈ r, y ≠ 0 → y ∈ s.processes.set i pid :=
      fun r hr y hy hy0 => mem_set_of_mem _ _ _ _ (hinv r hr y hy hy0) hy0 h0
    rcases processStarted_jobPIDs (slotTaken s i pid) j pid with hj | hj
    · rw [hj, slotTaken_jobPIDs] at hrow
      exact hold row hrow x hx hx0
    · rw [hj, slotTaken_jobPIDs] at hrow
      rcases List.mem_or_eq_of_mem_set hrow with h1 | h1
      · exact hold row h1 x hx hx0
      · rw [h1] at hx
        rcases List.mem_or_eq_of_mem_set hx with h2 | h2
        · obtain ⟨r, hr, hxr⟩ := mem_of_getD_row _ _ _ h2
          exact hold r hr x hxr hx0
        · rw [h2]; exact mem_set_self _ _ _ hi
  · intro hpid hj hroom hnotfull
    obtain ⟨i, hi, h0, heq⟩ := executeProcessParent_eq s j pid true false hproc hfree
    refine ⟨_, heq, ?_⟩
    simp only [Bool.not_false, if_true]
    have hp := processStarted_processes (slotTaken s i pid) j pid
    have hused : (processStarted (slotTaken s i pid) j pid).2.processes.getD i 0 ≠ 0 := by
      rw [hp.1, slotTaken_getD s i pid hi]; exact hpid
    rw [deallocateProcess_used _ _ (by rw [hp.2, slotTaken_actPrCount]; exact hcount) hused]
    constructor
    · show pid ∈ (processStarted (slotTaken s i pid) j pid).2.jobPIDs.getD j []
      have hstart : (processStarted (slotTaken s i pid) j pid).2.jobPIDs
          = s.jobPIDs.set j
              ((s.jobPIDs.getD j []).set (s.jobProcessesActive.getD j 0).toNat pid) := by
        unfold processStarted
        simp only [slotTaken_jobProcessesActive, slotTaken_jobPIDs]
        rw [if_neg hnotfull]
      rw [hstart, List.getD_eq_getElem?_getD, List.getElem?_set_self hj]
      exact mem_set_self _ _ _ hroom
    · show (processStarted (slotTaken s i pid) j pid).2.processes.set i 0 = s.processes
      rw [hp.1, slotTaken_processes, List.set_set]
      exact list_set_self _ _ _ h0

theorem executeProcessParent_job_pids_witness :
    (procInv Tables.twoJobs ∧ jobRowsInv Tables.twoJobs
      ∧ (0 : Int) ∈ Tables.twoJobs.processes)
    ∧ ((∀ lbg, ∃ s', executeProcessParent Tables.twoJobs 1 43 false lbg = some s'
          ∧ jobRowsInv s')
      ∧ (∃ s', executeProcessParent Tables.twoJobs 1 43 true true = some s' ∧ jobRowsInv s')
      ∧ ((43 : Int) ≠ 0 → 1 < Tables.twoJobs.jobPIDs.length →
          (Tables.twoJobs.jobProcessesActive.getD 1 0).toNat
            < (Tables.twoJobs.jobPIDs.getD 1 []).length →
          Tables.twoJobs.jobProcessesActive.getD 1 0 ≠ (MAX_ACTIVE_PROCESSES : Int) →
          ∃ s', executeProcessParent Tables.twoJobs 1 43 true false = some s'
            ∧ (43 : Int) ∈ s'.jobPIDs.getD 1 []
            ∧ s'.processes = Tables.twoJobs.processes)) :=
  ⟨by decide,
   executeProcessParent_job_pids Tables.twoJobs 1 43 (by decide) (by decide) (by decide)⟩

/-- Claim C18 as stated fails: from the tables after start-up with job slot 0
started, the parent side of `executeProcess` for a stage of a foreground
pipeline (`isBackground = 1`, `lastInBackground = 0`) and the child PID 42
leaves 42 in row 0 of `jobPIDs` while no slot of the process table holds it. -/
theorem executeProcessParent_pipeline_stage_counterexample :
    procInv (jobStarted Tables.empty).2 ∧ jobRowsInv (jobStarted Tables.empty).2
    ∧ ∃ s', executeProcessParent (jobStarted Tables.empty).2 0 42 true false = some s'
        ∧ (s'.jobPIDs.getD 0 []).getD 0 0 = 42 ∧ 42 ∉ s'.processes ∧ ¬ jobRowsInv s' := by
  refine ⟨⟨by decide, by decide⟩, by decide, ?_⟩
  refine ⟨_, rfl, ?_⟩
  decide

/-! ## Reaping finished background processes
(`releaseCompleteBackgroundProcesses`) -/

theorem getD_set_ne (l : List Int) (i k : Nat) (v d : Int) (h : i ≠ k) :
    (l.set i v).getD k d = l.getD k d := by
  rw [List.getD_eq_getElem?_getD, List.getD_eq_getElem?_getD, List.getElem?_set_ne h]

theorem getD_set_zero (l : List Int) (i : Nat) : (l.set i 0).getD i 0 = 0 := by
  by_cases hi : i < l.length
  · exact getD_set_self l i 0 0 hi
  · rw [List.getD_eq_default _ _ (by rw [List.length_set]; omega)]

theorem jobProcessCompleted_processes (s : Tables) (j : Nat) (pid : Int) :
    (jobProcessCompleted s j pid).2.processes = s.processes
      ∧ (jobProcessCompleted s j pid).2.actPrCount = s.actPrCount := by
  unfold jobProcessCompleted
  split
  · exact ⟨rfl, rfl⟩
  · split
    · exact ⟨rfl, rfl⟩
    · dsimp only
      split <;> exact ⟨rfl, rfl⟩

/-- A slot whose PID is not reported as terminated is left alone. -/
theorem releaseStep_running (terminated : Int → Bool) (s : Tables) (i : Nat)
    (h : terminated (s.processes.getD i 0) = false) : releaseStep terminated s i = s := by
  unfold releaseStep
  simp only [h, Bool.false_eq_true, if_false]

/-- One iteration either leaves the process table alone or clears slot `i` and
decrements `actPrCount`; the latter whenever the PID of the slot is reported as
terminated and `actPrCount` is not zero. -/
theorem releaseStep_terminated (terminated : Int → Bool) (h0 : terminated 0 = false)
    (s : Tables) (i : Nat) (h : terminated (s.processes.getD i 0) = true)
    (hc : s.actPrCount ≠ 0) :
    (releaseStep terminated s i).processes = s.processes.set i 0
      ∧ (releaseStep terminated s i).actPrCount = s.actPrCount - 1 := by
  have hne : s.processes.getD i 0 ≠ 0 := by
    intro e
    rw [e, h0] at h
    exact Bool.false_ne_true h
  unfold releaseStep
  simp only [h, if_true]
  split
  · have hp := jobProcessCompleted_processes s (getJobIndex s (s.processes.getD i 0)).toNat
      (s.processes.getD i 0)
    rw [deallocateProcess_used
      (jobProcessCompleted s (getJobIndex s (s.processes.getD i 0)).toNat
        (s.processes.getD i 0)).2 i (by rw [hp.2]; exact hc) (by rw [hp.1]; exact hne)]
    exact ⟨congrArg (fun l => l.set i 0) hp.1, congrArg (fun c => c - 1) hp.2⟩
  · rw [deallocateProcess_used _ _ hc hne]
    exact ⟨rfl, rfl⟩

theorem releaseStep_cases (terminated : Int → Bool) (h0 : terminated 0 = false)
    (s : Tables) (i : Nat) :
    ((releaseStep terminated s i).processes = s.processes
        ∧ (releaseStep terminated s i).actPrCount = s.actPrCount)
      ∨ ((releaseStep terminated s i).processes = s.processes.set i 0
        ∧ (releaseStep terminated s i).actPrCount = s.actPrCount - 1
        ∧ s.actPrCount ≠ 0) := by
  cases h : terminated (s.processes.getD i 0) with
  | false =>
    rw [releaseStep_running terminated s i h]
    exact Or.inl ⟨rfl, rfl⟩
  | true =>
    by_cases hc : s.actPrCount = 0
    · left
      have hdealloc : ∀ s1 : Tables, s1.actPrCount = 0 → (deallocateProcess s1 i).2 = s1 := by
        intro s1 h1
        unfold deallocateProcess
        rw [if_pos h1]
      unfold releaseStep
      simp only [h, if_true]
      split
      · have hp := jobProcessCompleted_processes s
          (getJobIndex s (s.processes.getD i 0)).toNat (s.processes.getD i 0)
        rw [hdealloc _ (by rw [hp.2]; exact hc)]
        exact hp
      · rw [hdealloc s hc]
        exact ⟨rfl, rfl⟩
    · obtain ⟨h1, h2⟩ := releaseStep_terminated terminated h0 s i h hc
      exact Or.inr ⟨h1, h2, hc⟩

/-- Slots other than the one examined keep their content. -/
theorem releaseStep_other (terminated : Int → Bool) (h0 : terminated 0 = false)
    (s : Tables) (i k : Nat) (hk : i ≠ k) :
    (releaseStep terminated s i).processes.getD k 0 = s.processes.getD k 0 := by
  rcases releaseStep_cases terminated h0 s i with h | h
  · rw [h.1]
  · rw [h.1, getD_set_ne _ _ _ _ _ hk]

/-- The slot examined holds no terminated PID afterwards, provided
`actPrCount` was not zero. -/
theorem releaseStep_clean (terminated : Int → Bool) (h0 : terminated 0 = false)
    (s : Tables) (i : Nat) (hc : s.actPrCount ≠ 0) :
    terminated ((releaseStep terminated s i).processes.getD i 0) = false := by
  cases h : terminated (s.processes.getD i 0) with
  | false => rw [releaseStep_running terminated s i h]; exact h
  | true =>
    rw [(releaseStep_terminated terminated h0 s i h hc).1, getD_set_zero]
    exact h0

theorem releaseStep_count (terminated : Int → Bool) (h0 : terminated 0 = false)
    (s : Tables) (i : Nat) :
    s.actPrCount.toNat - 1 ≤ (releaseStep terminated s i).actPrCount.toNat
      ∧ (releaseStep terminated s i).actPrCount.toNat ≤ s.actPrCount.toNat := by
  rcases releaseStep_cases terminated h0 s i with h | h
  · rw [h.2]; omega
  · rw [h.2.1]; omega

/-- The loop over slots that hold no terminated PID changes nothing. -/
theorem releaseLoop_clean (terminated : Int → Bool) (s : Tables) (l : List Nat)
    (h : ∀ i ∈ l, terminated (s.processes.getD i 0) = false) :
    releaseLoop terminated s l = s := by
  induction l with
  | nil => rfl
  | cons i rest ih =>
    rw [releaseLoop, releaseStep_running terminated s i (h i (List.mem_cons_self _ _))]
    exact ih (fun k hk => h k (List.mem_cons_of_mem _ hk))

/-- After the loop over the slots `k, .., k + m - 1`, with `m` at most
`actPrCount`, none of the slots below `k + m` holds a terminated PID if none
below `k` did, and `actPrCount` has not grown. -/
theorem releaseLoop_range (terminated : Int → Bool) (h0 : terminated 0 = false) (m : Nat) :
    ∀ (s : Tables) (k : Nat), m ≤ s.actPrCount.toNat →
      (∀ i, i < k → terminated (s.processes.getD i 0) = false) →
      (∀ i, i < k + m →
          terminated ((releaseLoop terminated s (List.range' k m)).processes.getD i 0) = false)
        ∧ (releaseLoop terminated s (List.range' k m)).actPrCount.toNat
            ≤ s.actPrCount.toNat := by
  induction m with
  | zero =>
    intro s k _ hclean
    exact ⟨fun i hi => hclean i (by omega), le_refl _⟩
  | succ m ih =>
    intro s k hm hclean
    have hc : s.actPrCount ≠ 0 := by
      intro e
      rw [e] at hm
      simp at hm
    have hcount := releaseStep_count terminated h0 s k
    have hstep : ∀ i, i < k + 1 →
        terminated ((releaseStep terminated s k).processes.getD i 0) = false := by
      intro i hi
      by_cases hik : k = i
      · subst hik
        exact releaseStep_clean terminated h0 s k hc
      · rw [releaseStep_other terminated h0 s k i hik]
        exact hclean i (by omega)
    obtain ⟨h1, h2⟩ := ih (releaseStep terminated s k) (k + 1) (by omega) hstep
    rw [List.range', releaseLoop]
    exact ⟨fun i hi => h1 i (by omega), by omega⟩

/-- Claim C19, evaluated where the code departs from it. Two background jobs
are started from the empty tables (PID 41 in slot 0, PID 42 in slot 1); 41
finishes and `releaseCompleteBackgroundProcesses` releases it, which leaves
`actPrCount = 1` with the only running process in slot 1, a state in which
`actPrCount` equals the number of non-zero slots. When 42 has finished too,
the next run examines slot 0 only (the loop bound is `actPrCount`): the tables
stay as they are and slot 1 still holds the terminated PID 42. -/
theorem releaseCompleteBackgroundProcesses_misses_slot :
    (executeProcessParent (jobStarted Tables.empty).2 0 41 true true).bind
        (fun s => executeProcessParent (jobStarted s).2 1 42 true true)
      = some Tables.twoJobs
    ∧ releaseCompleteBackgroundProcesses (fun pid => decide (pid = 41)) Tables.twoJobs
        = Tables.secondJobLeft
    ∧ procInv Tables.secondJobLeft
    ∧ releaseCompleteBackgroundProcesses (fun pid => decide (pid = 41 ∨ pid = 42))
          Tables.secondJobLeft
        = Tables.secondJobLeft
    ∧ Tables.secondJobLeft.processes.getD 1 0 = 42 := by
  decide

/-- When the wait the loop makes for a free slot reports nothing
(`terminated 0 = false`), a second run of
`releaseCompleteBackgroundProcesses` right after the first changes nothing,
for every table state: the process table, `actPrCount`, `jobsRunning`,
`activeJobs`, `jobProcessesActive`, `jobPIDs` and the output are those the
first run produced.  The loop itself does not make sure of that condition: it
calls `waitpid` for every slot below `actPrCount`, free or not. -/
theorem releaseCompleteBackgroundProcesses_idempotent (terminated : Int → Bool)
    (s : Tables) (h0 : terminated 0 = false) :
    releaseCompleteBackgroundProcesses terminated
        (releaseCompleteBackgroundProcesses terminated s)
      = releaseCompleteBackgroundProcesses terminated s := by
  have hrun := releaseLoop_range terminated h0 s.actPrCount.toNat s 0 (le_refl _)
    (fun i hi => absurd hi (Nat.not_lt_zero i))
  rw [← List.range_eq_range'] at hrun
  obtain ⟨hclean, hcount⟩ := hrun
  show releaseLoop terminated (releaseCompleteBackgroundProcesses terminated s)
      (List.range (releaseCompleteBackgroundProcesses terminated s).actPrCount.toNat) = _
  apply releaseLoop_clean
  intro i hi
  rw [List.mem_range] at hi
  exact hclean i (by
    have : (releaseCompleteBackgroundProcesses terminated s).actPrCount.toNat
        ≤ s.actPrCount.toNat := hcount
    omega)

theorem releaseCompleteBackgroundProcesses_idempotent_witness :
    decide ((0 : Int) = 41) = false
    ∧ releaseCompleteBackgroundProcesses (fun pid => decide (pid = 41))
          (releaseCompleteBackgroundProcesses (fun pid => decide (pid = 41)) Tables.twoJobs)
        = releaseCompleteBackgroundProcesses (fun pid => decide (pid = 41)) Tables.twoJobs :=
  ⟨by decide,
   releaseCompleteBackgroundProcesses_idempotent (fun pid => decide (pid = 41))
     Tables.twoJobs (by decide)⟩

/-- C20, evaluated where the code departs from it. The background job
`a | b | c &` leaves the PIDs 41, 42 and 43 in the slots 0, 1 and 2
(`Tables.threeStageJob`). With a fixed report in which 41 has terminated and
the wait for "any child" reports a terminated child, the first run of
`releaseCompleteBackgroundProcesses` releases 41 (`Tables.firstStageReaped`).
The second run examines the free slot 0 again, because the loop runs over the
slots below `actPrCount`: `waitpid(0, ...)` reports a child,
`getJobIndex(0)` finds the row of job 1, which holds a 0, and
`jobProcessCompleted(0, 0)` lowers the count of the job from 2 to 1. A third
run lowers it to 0, frees the job and prints that it finished, while 42 and
43 still run. -/
theorem releaseCompleteBackgroundProcesses_second_run_differs :
    ((executeProcessParent (jobStarted Tables.empty).2 0 41 true true).bind
        (fun s => executeProcessParent s 0 42 true true)).bind
        (fun s => executeProcessParent s 0 43 true true)
      = some Tables.threeStageJob
    ∧ procInv Tables.threeStageJob ∧ jobRowsInv Tables.threeStageJob
    ∧ releaseCompleteBackgroundProcesses reportFirstStage Tables.threeStageJob
        = Tables.firstStageReaped
    ∧ procInv Tables.firstStageReaped ∧ jobRowsInv Tables.firstStageReaped
    ∧ releaseCompleteBackgroundProcesses reportFirstStage Tables.firstStageReaped
        = { Tables.firstStageReaped with
            jobProcessesActive := [1, 0, 0, 0, 0, 0, 0, 0, 0, 0] }
    ∧ releaseCompleteBackgroundProcesses reportFirstStage
          (releaseCompleteBackgroundProcesses reportFirstStage Tables.threeStageJob)
        ≠ releaseCompleteBackgroundProcesses reportFirstStage Tables.threeStageJob
    ∧ releaseCompleteBackgroundProcesses reportFirstStage
          (releaseCompleteBackgroundProcesses reportFirstStage Tables.firstStageReaped)
        = { Tables.firstStageReaped with
            jobProcessesActive := [0, 0, 0, 0, 0, 0, 0, 0, 0, 0]
            jobsRunning := [0, 0, 0, 0, 0, 0, 0, 0, 0, 0]
            activeJobs := 0
            printed := [OutLine.jobFinished 1] } := by
  decide

/-! ## Signal routing (`signal_handler`) -/

/-- Claim C21. For every signal number and every non-zero `foregroundProcess`
`p`, `signal_handler` makes exactly one call, `kill(p, s)`: the installed
dispositions, the saved native handlers and `foregroundProcess` stay as they
are, and nothing is sent to the shell itself. -/
theorem signal_handler_forwards (st : SignalState) (signalCode : Nat)
    (h : st.foregroundProcess ≠ 0) :
    signal_handler st signalCode
      = { st with sent := st.sent ++ [SignalSent.toProcess st.foregroundProcess signalCode] }
    ∧ (signal_handler st signalCode).installed = st.installed
    ∧ (signal_handler st signalCode).nativeSignalHandlerFPs = st.nativeSignalHandlerFPs
    ∧ (signal_handler st signalCode).foregroundProcess = st.foregroundProcess
    ∧ SignalSent.toShell signalCode ∉ (signal_handler st signalCode).sent.drop st.sent.length := by
  have e : signal_handler st signalCode
      = { st with
          sent := st.sent ++ [SignalSent.toProcess st.foregroundProcess signalCode] } := by
    unfold signal_handler
    rw [if_neg h]
  rw [e]
  refine ⟨rfl, rfl, rfl, rfl, ?_⟩
  simp

set_option maxRecDepth 100000 in
theorem signal_handler_forwards_witness :
    ({ (mainSignalSetup (List.replicate 32 Disposition.default)) with
        foregroundProcess := 4711 } : SignalState).foregroundProcess ≠ 0
    ∧ (signal_handler
          { (mainSignalSetup (List.replicate 32 Disposition.default)) with
            foregroundProcess := 4711 } 2
        = { (mainSignalSetup (List.replicate 32 Disposition.default)) with
            foregroundProcess := 4711, sent := [SignalSent.toProcess 4711 2] }) :=
  ⟨by decide,
   (signal_handler_forwards
      { (mainSignalSetup (List.replicate 32 Disposition.default)) with
        foregroundProcess := 4711 } 2 (by decide)).1⟩

set_option maxRecDepth 100000 in
/-- Claim C22, evaluated where the code departs from it. After the set-up of
`main` the shell handler is installed for signal 17 (`SIGCHLD`, whose default
action does not terminate the shell) and `nativeSignalHandlerFPs[17]` holds the
previous disposition. With `foregroundProcess = 0`, `signal_handler(17)`
installs the previous disposition twice: the local variable `signal_handler`
hides the function in both calls of `signal`. When it returns, the installed
disposition for 17 is the previous (default) one, not the shell handler;
`nativeSignalHandlerFPs[17]` holds the previous disposition. -/
theorem signal_handler_leaves_native_installed :
    (mainSignalSetup (List.replicate 32 Disposition.default)).installed.getD 17
        Disposition.error = Disposition.shellHandler
    ∧ (mainSignalSetup (List.replicate 32 Disposition.default)).nativeSignalHandlerFPs.getD 17
        Disposition.error = Disposition.default
    ∧ (mainSignalSetup (List.replicate 32 Disposition.default)).foregroundProcess = 0
    ∧ (signal_handler (mainSignalSetup (List.replicate 32 Disposition.default)) 17).installed.getD
        17 Disposition.error = Disposition.default
    ∧ (signal_handler (mainSignalSetup (List.replicate 32 Disposition.default))
        17).nativeSignalHandlerFPs.getD 17 Disposition.error = Disposition.default
    ∧ (signal_handler (mainSignalSetup (List.replicate 32 Disposition.default)) 17).sent
        = [SignalSent.toShell 17] := by
  decide

/-! ## The built-in dispatcher (`executeBashBuiltinFunction`) -/

theorem isEnvSet_of_split (K V : List Char) (hnot : '=' ∉ K) :
    isEnvSet (K ++ '=' :: V) = K.length := by
  unfold isEnvSet
  rw [List.indexOf_append_of_not_mem hnot, List.indexOf_cons_self]
  simp

/-- Function `isEnvSet` is positive exactly for a command name `K=V` with a
non-empty `K`. -/
theorem isEnvSet_pos_iff (commandName : List Char) :
    isEnvSet commandName > 0 ↔ isAssignment commandName := by
  constructor
  · intro h
    have hmem : '=' ∈ commandName := by
      by_contra hc
      have hlen : ¬ commandName.indexOf '=' < commandName.length := by
        rw [List.indexOf_lt_length]; exact hc
      unfold isEnvSet at h
      rw [if_neg hlen] at h
      exact absurd h (by decide)
    obtain ⟨K, V, hsplit, hK⟩ := List.eq_append_cons_of_mem hmem
    subst hsplit
    rw [isEnvSet_of_split K V hK] at h
    exact ⟨K, V, List.length_pos.1 h, hK, rfl⟩
  · rintro ⟨K, V, hK, hnot, rfl⟩
    rw [isEnvSet_of_split K V hnot]
    exact List.length_pos.2 hK

/-! ### What the built-in functions leave alone -/

theorem systemConcatenated_frame (st s : BuiltinState) (bashCommand : List Char)
    (commandArguments : List (List Char)) (args : Nat)
    (h : systemConcatenated st bashCommand commandArguments args = some s) :
    ∃ command, s = { st with calls := st.calls ++ [BuiltinCall.system command] } := by
  unfold systemConcatenated at h
  split at h
  · cases h
  · cases h; exact ⟨_, rfl⟩

theorem executeCd_frame (st s : BuiltinState) (commandArguments : List (List Char))
    (h : executeCd st commandArguments = some s) :
    ∃ calls, s = { st with calls := calls } := by
  unfold executeCd at h
  split at h
  · cases h
  · cases h; exact ⟨_, rfl⟩

theorem executeDeclare_frame (st s : BuiltinState) (hostCommand : List Char)
    (commandArguments : List (List Char)) (args : Nat)
    (h : executeDeclare st hostCommand commandArguments args = some s) :
    ∃ calls environment, s = { st with calls := calls, environment := environment } := by
  unfold executeDeclare at h
  split at h
  · cases h; exact ⟨_, _, rfl⟩
  · split at h
    · cases h
    · cases h; exact ⟨_, _, rfl⟩

theorem executeExec_frame (st s : BuiltinState) (commandArguments : List (List Char))
    (h : executeExec st commandArguments = some s) :
    ∃ calls, s = { st with calls := calls } := by
  unfold executeExec at h
  split at h
  · cases h
  · cases h; exact ⟨_, rfl⟩

theorem executeExport_frame (st s : BuiltinState) (commandArguments : List (List Char))
    (h : executeExport st commandArguments = some s) :
    ∃ environment, s = { st with environment := environment } := by
  unfold executeExport at h
  split at h
  · cases h
  · cases h; exact ⟨_, rfl⟩

theorem executeHistory_frame (st s : BuiltinState) (commandArguments : List (List Char))
    (args : Nat) (h : executeHistory st commandArguments args = some s) :
    ∃ calls, s = { st with calls := calls } := by
  unfold executeHistory at h
  split at h
  · cases h; exact ⟨_, rfl⟩
  · split at h
    · split at h
      · cases h
      · cases h; exact ⟨_, rfl⟩
    · cases h; exact ⟨_, rfl⟩

theorem executeKill_frame (st s : BuiltinState) (commandArguments : List (List Char))
    (args : Nat) (h : executeKill st commandArguments args = some s) :
    ∃ calls, s = { st with calls := calls } := by
  unfold executeKill at h
  split at h
  · cases h; exact ⟨_, rfl⟩
  · split at h
    · cases h
    · split at h
      · cases h; exact ⟨_, rfl⟩
      · split at h
        · cases h; exact ⟨_, rfl⟩
        · split at h
          · cases h
          · cases h; exact ⟨_, rfl⟩

theorem executeLet_frame (st s : BuiltinState) (commandArguments : List (List Char))
    (args : Nat) (h : executeLet st commandArguments args = some s) :
    ∃ calls environment, s = { st with calls := calls, environment := environment } := by
  unfold executeLet at h
  split at h
  · cases h; exact ⟨_, _, rfl⟩
  · split at h
    · cases h
    · split at h
      · cases h
      · cases h; exact ⟨_, _, rfl⟩
      · split at h
        · cases h
        · cases h; exact ⟨_, _, rfl⟩

theorem executeLocal_frame (st s : BuiltinState) (commandArguments : List (List Char))
    (args : Nat) (h : executeLocal st commandArguments args = some s) :
    s.exitEnabled = st.exitEnabled := by
  unfold executeLocal at h
  split at h
  · cases h; rfl
  · obtain ⟨_, hs⟩ := systemConcatenated_frame _ _ _ _ _ h
    rw [hs]

theorem executeRead_frame (st s : BuiltinState) (commandArguments : List (List Char))
    (args : Nat) (h : executeRead st commandArguments args = some s) :
    s.exitEnabled = st.exitEnabled := by
  unfold executeRead at h
  split at h
  · split at h
    · cases h
    · cases h; rfl
  · split at h
    · cases h; rfl
    · split at h
      · cases h
      · split at h
        · cases h; rfl
        · split at h
          · cases h; rfl
          · split at h
            · cases h
            · split at h
              · cases h; rfl
              · dsimp only at h
                split at h
                · cases h
                · rename_i st1 hst1
                  cases h
                  split at hst1
                  · split at hst1
                    · cases hst1
                    · cases hst1; rfl
                  · cases hst1; rfl

/-- The value `executeBashBuiltinFunction` returns: 1 or -1 on one of its
built-in branches, and 0, with the state as it was, only for a command name
that does not start with `.`, is none of the recognised names and has no `=`
after its first character. -/
theorem dispatch_value (logoutFails : Bool) (st : BuiltinState)
    (commandName : List Char) (commandArguments : List (List Char)) (args : Nat)
    (r : Int × BuiltinState)
    (hr : executeBashBuiltinFunction logoutFails st commandName commandArguments args
      = some r) :
    r.1 = 1 ∨ r.1 = -1
      ∨ (r.1 = 0 ∧ r.2 = st ∧ charAt commandName 0 ≠ '.'
          ∧ (∀ n ∈ recognisedNames, commandName ≠ n) ∧ isEnvSet commandName = 0) := by
  unfold executeBashBuiltinFunction at hr
  by_cases hdot : charAt commandName 0 = '.'
  · rw [if_pos hdot] at hr
    rw [Option.map_eq_some'] at hr
    obtain ⟨s, _, hs⟩ := hr
    rw [← hs]; exact Or.inl rfl
  rw [if_neg hdot] at hr
  by_cases hsource : commandName = "source".toList
  · rw [if_pos hsource] at hr
    rw [Option.map_eq_some'] at hr
    obtain ⟨s, _, hs⟩ := hr
    rw [← hs]; exact Or.inl rfl
  rw [if_neg hsource] at hr
  by_cases hcd : commandName = "cd".toList
  · rw [if_pos hcd] at hr
    rw [Option.map_eq_some'] at hr
    obtain ⟨s, _, hs⟩ := hr
    rw [← hs]; exact Or.inl rfl
  rw [if_neg hcd] at hr
  by_cases hdeclare : commandName = "declare".toList
  · rw [if_pos hdeclare] at hr
    rw [Option.map_eq_some'] at hr
    obtain ⟨s, _, hs⟩ := hr
    rw [← hs]; exact Or.inl rfl
  rw [if_neg hdeclare] at hr
  by_cases htypeset : commandName = "typeset".toList
  · rw [if_pos htypeset] at hr
    rw [Option.map_eq_some'] at hr
    obtain ⟨s, _, hs⟩ := hr
    rw [← hs]; exact Or.inl rfl
  rw [if_neg htypeset] at hr
  by_cases hecho : commandName = "echo".toList
  · rw [if_pos hecho] at hr
    rw [Option.map_eq_some'] at hr
    obtain ⟨s, _, hs⟩ := hr
    rw [← hs]; exact Or.inl rfl
  rw [if_neg hecho] at hr
  by_cases hexec : commandName = "exec".toList
  · rw [if_pos hexec] at hr
    split at hr
    · cases hr; exact Or.inr (Or.inl rfl)
    · rw [Option.map_eq_some'] at hr
      obtain ⟨s, _, hs⟩ := hr
      rw [← hs]; exact Or.inl rfl
  rw [if_neg hexec] at hr
  by_cases hexit : commandName = "exit".toList
  · rw [if_pos hexit] at hr
    cases hr; exact Or.inl rfl
  rw [if_neg hexit] at hr
  by_cases hexport : commandName = "export".toList
  · rw [if_pos hexport] at hr
    split at hr
    · cases hr; exact Or.inr (Or.inl rfl)
    · rw [Option.map_eq_some'] at hr
      obtain ⟨s, _, hs⟩ := hr
      rw [← hs]; exact Or.inl rfl
  rw [if_neg hexport] at hr
  by_cases hhistory : commandName = "history".toList
  · rw [if_pos hhistory] at hr
    rw [Option.map_eq_some'] at hr
    obtain ⟨s, _, hs⟩ := hr
    rw [← hs]; exact Or.inl rfl
  rw [if_neg hhistory] at hr
  by_cases hkill : commandName = "kill".toList
  · rw [if_pos hkill] at hr
    rw [Option.map_eq_some'] at hr
    obtain ⟨s, _, hs⟩ := hr
    rw [← hs]; exact Or.inl rfl
  rw [if_neg hkill] at hr
  by_cases hlet : commandName = "let".toList
  · rw [if_pos hlet] at hr
    rw [Option.map_eq_some'] at hr
    obtain ⟨s, _, hs⟩ := hr
    rw [← hs]; exact Or.inl rfl
  rw [if_neg hlet] at hr
  by_cases hlocal : commandName = "local".toList
  · rw [if_pos hlocal] at hr
    rw [Option.map_eq_some'] at hr
    obtain ⟨s, _, hs⟩ := hr
    rw [← hs]; exact Or.inl rfl
  rw [if_neg hlocal] at hr
  by_cases hlogout : commandName = "logout".toList
  · rw [if_pos hlogout] at hr
    cases hr; exact Or.inl rfl
  rw [if_neg hlogout] at hr
  by_cases hpwd : commandName = "pwd".toList
  · rw [if_pos hpwd] at hr
    cases hr; exact Or.inl rfl
  rw [if_neg hpwd] at hr
  by_cases hread : commandName = "read".toList
  · rw [if_pos hread] at hr
    rw [Option.map_eq_some'] at hr
    obtain ⟨s, _, hs⟩ := hr
    rw [← hs]; exact Or.inl rfl
  rw [if_neg hread] at hr
  by_cases hclear : commandName = "clear".toList
  · rw [if_pos hclear] at hr
    cases hr; exact Or.inl rfl
  rw [if_neg hclear] at hr
  by_cases henv : isEnvSet commandName > 0
  · rw [if_pos henv] at hr
    cases hr; exact Or.inl rfl
  rw [if_neg henv] at hr
  cases hr
  refine Or.inr (Or.inr ⟨rfl, rfl, hdot, ?_, by omega⟩)
  intro n hn e
  subst e
  simp only [recognisedNames, List.mem_cons, List.mem_singleton, List.not_mem_nil,
    or_false] at hn
  rcases hn with hn | hn | hn | hn | hn | hn | hn | hn | hn | hn | hn | hn | hn | hn | hn
    | hn | hn
  all_goals first
    | exact hcd hn | exact hexit hn | exact hexport hn | exact hdeclare hn
    | exact htypeset hn | exact hpwd hn | exact hclear hn | exact hecho hn
    | exact hsource hn | exact hlocal hn | exact hkill hn | exact hlet hn
    | exact hhistory hn | exact hexec hn | exact hlogout hn | exact hread hn
    | (rw [hn] at hdot; exact hdot (by decide))

/-- A command name that does not start with `.`, is none of the recognised
names and has no `=` after its first character is not a built-in: the
dispatcher returns 0 and leaves the state as it is. -/
theorem dispatch_not_builtin (logoutFails : Bool) (st : BuiltinState)
    (commandName : List Char) (commandArguments : List (List Char)) (args : Nat)
    (hdot : charAt commandName 0 ≠ '.')
    (hn : ∀ n ∈ recognisedNames, commandName ≠ n) (henv : isEnvSet commandName = 0) :
    executeBashBuiltinFunction logoutFails st commandName commandArguments args
      = some (0, st) := by
  unfold executeBashBuiltinFunction
  rw [if_neg hdot, if_neg (hn _ (by decide)), if_neg (hn _ (by decide)),
    if_neg (hn _ (by decide)), if_neg (hn _ (by decide)), if_neg (hn _ (by decide)),
    if_neg (hn _ (by decide)), if_neg (hn _ (by decide)), if_neg (hn _ (by decide)),
    if_neg (hn _ (by decide)), if_neg (hn _ (by decide)), if_neg (hn _ (by decide)),
    if_neg (hn _ (by decide)), if_neg (hn _ (by decide)), if_neg (hn _ (by decide)),
    if_neg (hn _ (by decide)), if_neg (hn _ (by decide)), if_neg (by omega)]

/-! ### When the dispatcher returns -/

theorem concatenateArguments_defined (bashCommand : List Char)
    (commandArguments : List (List Char)) (args : Nat) (h : args ≤ commandArguments.length) :
    ∃ command, concatenateArguments bashCommand commandArguments 0 ((args : Int) - 1)
      = some command := by
  unfold concatenateArguments
  by_cases h0 : (0 : Int) > (args : Int) - 1
  · rw [if_pos h0]; exact ⟨_, rfl⟩
  · rw [if_neg h0]
    have hpos : 0 < commandArguments.length := by omega
    obtain ⟨first, rest, hl⟩ : ∃ first rest, commandArguments = first :: rest := by
      cases hc : commandArguments with
      | nil => rw [hc] at hpos; exact absurd hpos (by decide)
      | cons a b => exact ⟨a, b, rfl⟩
    subst hl
    simp only [Int.toNat_zero, List.getElem?_cons_zero]
    split
    · exact ⟨_, rfl⟩
    · have hlen : ¬ ((List.drop (0 + 1) (first :: rest)).take ((args : Int) - 1 - 0).toNat).length
          < ((args : Int) - 1 - 0).toNat := by
        simp only [List.length_take, List.length_drop, List.length_cons] at h ⊢
        omega
      rw [if_neg hlen]
      exact ⟨_, rfl⟩

theorem systemConcatenated_defined (st : BuiltinState) (bashCommand : List Char)
    (commandArguments : List (List Char)) (args : Nat) (h : args ≤ commandArguments.length) :
    ∃ s, systemConcatenated st bashCommand commandArguments args = some s := by
  obtain ⟨command, hc⟩ := concatenateArguments_defined bashCommand commandArguments args h
  unfold systemConcatenated
  rw [hc]
  exact ⟨_, rfl⟩

theorem getElem?_zero_of_pos (commandArguments : List (List Char)) (args : Nat)
    (h : args ≤ commandArguments.length) (hpos : args ≠ 0) :
    ∃ first, commandArguments[0]? = some first := by
  cases hc : commandArguments with
  | nil => rw [hc] at h; simp at h; exact absurd h hpos
  | cons a b => exact ⟨a, List.getElem?_cons_zero⟩

theorem executeDeclare_defined (st : BuiltinState) (hostCommand : List Char)
    (commandArguments : List (List Char)) (args : Nat) (h : args ≤ commandArguments.length) :
    ∃ s, executeDeclare st hostCommand commandArguments args = some s := by
  unfold executeDeclare
  by_cases h0 : args = 0
  · rw [if_pos h0]; exact ⟨_, rfl⟩
  · rw [if_neg h0]
    obtain ⟨first, hf⟩ := getElem?_zero_of_pos commandArguments args h h0
    rw [hf]; exact ⟨_, rfl⟩

theorem executeHistory_defined (st : BuiltinState)
    (commandArguments : List (List Char)) (args : Nat) (h : args ≤ commandArguments.length) :
    ∃ s, executeHistory st commandArguments args = some s := by
  unfold executeHistory
  by_cases h1 : args > 1
  · rw [if_pos h1]; exact ⟨_, rfl⟩
  · rw [if_neg h1]
    by_cases h0 : args = 1
    · rw [if_pos h0]
      obtain ⟨first, hf⟩ := getElem?_zero_of_pos commandArguments args h (by omega)
      rw [hf]; exact ⟨_, rfl⟩
    · rw [if_neg h0]; exact ⟨_, rfl⟩

theorem executeKill_defined (st : BuiltinState)
    (commandArguments : List (List Char)) (args : Nat) (h : args ≤ commandArguments.length) :
    ∃ s, executeKill st commandArguments args = some s := by
  unfold executeKill
  by_cases h0 : args = 0
  · rw [if_pos h0]; exact ⟨_, rfl⟩
  · rw [if_neg h0]
    obtain ⟨first, hf⟩ := getElem?_zero_of_pos commandArguments args h h0
    rw [hf]
    dsimp only
    by_cases h1 : args = 1
    · rw [if_pos h1]; exact ⟨_, rfl⟩
    · rw [if_neg h1]
      split
      · exact ⟨_, rfl⟩
      · have h2 : 1 < commandArguments.length := by omega
        rw [List.getElem?_eq_getElem h2]
        exact ⟨_, rfl⟩

theorem executeLocal_defined (st : BuiltinState)
    (commandArguments : List (List Char)) (args : Nat) (h : args ≤ commandArguments.length) :
    ∃ s, executeLocal st commandArguments args = some s := by
  unfold executeLocal
  split
  · exact ⟨_, rfl⟩
  · exact systemConcatenated_defined st _ commandArguments args h

/-- The dispatcher returns for every command name other than `cd`, `let` and
`read` when the argument array holds the `args` arguments it is told of. -/
theorem dispatch_defined (logoutFails : Bool) (st : BuiltinState)
    (commandName : List Char) (commandArguments : List (List Char)) (args : Nat)
    (hargs : args ≤ commandArguments.length)
    (hcd0 : commandName ≠ "cd".toList) (hlet0 : commandName ≠ "let".toList)
    (hread0 : commandName ≠ "read".toList) :
    ∃ r, executeBashBuiltinFunction logoutFails st commandName commandArguments args
      = some r := by
  unfold executeBashBuiltinFunction
  by_cases hdot : charAt commandName 0 = '.'
  · rw [if_pos hdot]
    unfold executeDot
    obtain ⟨s, hs⟩ := systemConcatenated_defined st commandName commandArguments args hargs
    rw [hs]; exact ⟨_, rfl⟩
  rw [if_neg hdot]
  by_cases hsource : commandName = "source".toList
  · rw [if_pos hsource]
    unfold executeSource
    obtain ⟨s, hs⟩ := systemConcatenated_defined st _ commandArguments args hargs
    rw [hs]; exact ⟨_, rfl⟩
  rw [if_neg hsource]
  by_cases hcd : commandName = "cd".toList
  · rw [if_pos hcd]
    exact absurd hcd hcd0
  rw [if_neg hcd]
  by_cases hdeclare : commandName = "declare".toList
  · rw [if_pos hdeclare]
    obtain ⟨s, hs⟩ := executeDeclare_defined st _ commandArguments args hargs
    rw [hs]; exact ⟨_, rfl⟩
  rw [if_neg hdeclare]
  by_cases htypeset : commandName = "typeset".toList
  · rw [if_pos htypeset]
    obtain ⟨s, hs⟩ := executeDeclare_defined st _ commandArguments args hargs
    rw [hs]; exact ⟨_, rfl⟩
  rw [if_neg htypeset]
  by_cases hecho : commandName = "echo".toList
  · rw [if_pos hecho]
    unfold executeEcho
    obtain ⟨s, hs⟩ := systemConcatenated_defined st _ commandArguments args hargs
    rw [hs]; exact ⟨_, rfl⟩
  rw [if_neg hecho]
  by_cases hexec : commandName = "exec".toList
  · rw [if_pos hexec]
    split
    · exact ⟨_, rfl⟩
    · rename_i hpos
      obtain ⟨first, hf⟩ := getElem?_zero_of_pos commandArguments args hargs hpos
      unfold executeExec
      rw [hf]; exact ⟨_, rfl⟩
  rw [if_neg hexec]
  by_cases hexit : commandName = "exit".toList
  · rw [if_pos hexit]
    exact ⟨_, rfl⟩
  rw [if_neg hexit]
  by_cases hexport : commandName = "export".toList
  · rw [if_pos hexport]
    split
    · exact ⟨_, rfl⟩
    · rename_i hpos
      obtain ⟨first, hf⟩ := getElem?_zero_of_pos commandArguments args hargs hpos
      unfold executeExport
      rw [hf]; exact ⟨_, rfl⟩
  rw [if_neg hexport]
  by_cases hhistory : commandName = "history".toList
  · rw [if_pos hhistory]
    obtain ⟨s, hs⟩ := executeHistory_defined st commandArguments args hargs
    rw [hs]; exact ⟨_, rfl⟩
  rw [if_neg hhistory]
  by_cases hkill : commandName = "kill".toList
  · rw [if_pos hkill]
    obtain ⟨s, hs⟩ := executeKill_defined st commandArguments args hargs
    rw [hs]; exact ⟨_, rfl⟩
  rw [if_neg hkill]
  by_cases hlet : commandName = "let".toList
  · rw [if_pos hlet]
    exact absurd hlet hlet0
  rw [if_neg hlet]
  by_cases hlocal : commandName = "local".toList
  · rw [if_pos hlocal]
    obtain ⟨s, hs⟩ := executeLocal_defined st commandArguments args hargs
    rw [hs]; exact ⟨_, rfl⟩
  rw [if_neg hlocal]
  by_cases hlogout : commandName = "logout".toList
  · rw [if_pos hlogout]
    exact ⟨_, rfl⟩
  rw [if_neg hlogout]
  by_cases hpwd : commandName = "pwd".toList
  · rw [if_pos hpwd]
    exact ⟨_, rfl⟩
  rw [if_neg hpwd]
  by_cases hread : commandName = "read".toList
  · rw [if_pos hread]
    exact absurd hread hread0
  rw [if_neg hread]
  by_cases hclear : commandName = "clear".toList
  · rw [if_pos hclear]
    exact ⟨_, rfl⟩
  rw [if_neg hclear]
  by_cases henv : isEnvSet commandName > 0
  · rw [if_pos henv]
    exact ⟨_, rfl⟩
  rw [if_neg henv]
  exact ⟨_, rfl⟩

/-! ### The exit flag -/

/-- The exit flag after a dispatch: 1 when the command name is `exit`, and
what it was for every other command name. -/
theorem dispatch_exitEnabled (logoutFails : Bool) (st : BuiltinState)
    (commandName : List Char) (commandArguments : List (List Char)) (args : Nat)
    (r : Int × BuiltinState)
    (hr : executeBashBuiltinFunction logoutFails st commandName commandArguments args
      = some r) :
    r.2.exitEnabled = if commandName = "exit".toList then 1 else st.exitEnabled := by
  unfold executeBashBuiltinFunction at hr
  by_cases hdot : charAt commandName 0 = '.'
  · rw [if_pos hdot] at hr
    have hx : commandName ≠ "exit".toList := by
      intro hx; rw [hx] at hdot; exact absurd hdot (by decide)
    rw [if_neg hx]
    rw [Option.map_eq_some'] at hr
    obtain ⟨s, hs, hrs⟩ := hr
    rw [← hrs]
    unfold executeDot at hs
    obtain ⟨_, h2⟩ := systemConcatenated_frame _ _ _ _ _ hs
    rw [h2]
  rw [if_neg hdot] at hr
  by_cases hsource : commandName = "source".toList
  · rw [if_pos hsource] at hr
    have hx : commandName ≠ "exit".toList := by
      intro hx; rw [hx] at hsource; exact absurd hsource (by decide)
    rw [if_neg hx]
    rw [Option.map_eq_some'] at hr
    obtain ⟨s, hs, hrs⟩ := hr
    rw [← hrs]
    unfold executeSource at hs
    obtain ⟨_, h2⟩ := systemConcatenated_frame _ _ _ _ _ hs
    rw [h2]
  rw [if_neg hsource] at hr
  by_cases hcd : commandName = "cd".toList
  · rw [if_pos hcd] at hr
    have hx : commandName ≠ "exit".toList := by
      intro hx; rw [hx] at hcd; exact absurd hcd (by decide)
    rw [if_neg hx]
    rw [Option.map_eq_some'] at hr
    obtain ⟨s, hs, hrs⟩ := hr
    rw [← hrs]
    obtain ⟨_, h2⟩ := executeCd_frame _ _ _ hs
    rw [h2]
  rw [if_neg hcd] at hr
  by_cases hdeclare : commandName = "declare".toList
  · rw [if_pos hdeclare] at hr
    have hx : commandName ≠ "exit".toList := by
      intro hx; rw [hx] at hdeclare; exact absurd hdeclare (by decide)
    rw [if_neg hx]
    rw [Option.map_eq_some'] at hr
    obtain ⟨s, hs, hrs⟩ := hr
    rw [← hrs]
    obtain ⟨_, _, h2⟩ := executeDeclare_frame _ _ _ _ _ hs
    rw [h2]
  rw [if_neg hdeclare] at hr
  by_cases htypeset : commandName = "typeset".toList
  · rw [if_pos htypeset] at hr
    have hx : commandName ≠ "exit".toList := by
      intro hx; rw [hx] at htypeset; exact absurd htypeset (by decide)
    rw [if_neg hx]
    rw [Option.map_eq_some'] at hr
    obtain ⟨s, hs, hrs⟩ := hr
    rw [← hrs]
    obtain ⟨_, _, h2⟩ := executeDeclare_frame _ _ _ _ _ hs
    rw [h2]
  rw [if_neg htypeset] at hr
  by_cases hecho : commandName = "echo".toList
  · rw [if_pos hecho] at hr
    have hx : commandName ≠ "exit".toList := by
      intro hx; rw [hx] at hecho; exact absurd hecho (by decide)
    rw [if_neg hx]
    rw [Option.map_eq_some'] at hr
    obtain ⟨s, hs, hrs⟩ := hr
    rw [← hrs]
    unfold executeEcho at hs
    obtain ⟨_, h2⟩ := systemConcatenated_frame _ _ _ _ _ hs
    rw [h2]
  rw [if_neg hecho] at hr
  by_cases hexec : commandName = "exec".toList
  · rw [if_pos hexec] at hr
    have hx : commandName ≠ "exit".toList := by
      intro hx; rw [hx] at hexec; exact absurd hexec (by decide)
    rw [if_neg hx]
    split at hr
    · cases hr; rfl
    · rw [Option.map_eq_some'] at hr
      obtain ⟨s, hs, hrs⟩ := hr
      rw [← hrs]
      obtain ⟨_, h2⟩ := executeExec_frame _ _ _ hs
      rw [h2]
  rw [if_neg hexec] at hr
  by_cases hexit : commandName = "exit".toList
  · rw [if_pos hexit] at hr
    rw [if_pos hexit]
    cases hr
    rfl
  rw [if_neg hexit] at hr
  by_cases hexport : commandName = "export".toList
  · rw [if_pos hexport] at hr
    rw [if_neg hexit]
    split at hr
    · cases hr; rfl
    · rw [Option.map_eq_some'] at hr
      obtain ⟨s, hs, hrs⟩ := hr
      rw [← hrs]
      obtain ⟨_, h2⟩ := executeExport_frame _ _ _ hs
      rw [h2]
  rw [if_neg hexport] at hr
  by_cases hhistory : commandName = "history".toList
  · rw [if_pos hhistory] at hr
    rw [if_neg hexit]
    rw [Option.map_eq_some'] at hr
    obtain ⟨s, hs, hrs⟩ := hr
    rw [← hrs]
    obtain ⟨_, h2⟩ := executeHistory_frame _ _ _ _ hs
    rw [h2]
  rw [if_neg hhistory] at hr
  by_cases hkill : commandName = "kill".toList
  · rw [if_pos hkill] at hr
    rw [if_neg hexit]
    rw [Option.map_eq_some'] at hr
    obtain ⟨s, hs, hrs⟩ := hr
    rw [← hrs]
    obtain ⟨_, h2⟩ := executeKill_frame _ _ _ _ hs
    rw [h2]
  rw [if_neg hkill] at hr
  by_cases hlet : commandName = "let".toList
  · rw [if_pos hlet] at hr
    rw [if_neg hexit]
    rw [Option.map_eq_some'] at hr
    obtain ⟨s, hs, hrs⟩ := hr
    rw [← hrs]
    obtain ⟨_, _, h2⟩ := executeLet_frame _ _ _ _ hs
    rw [h2]
  rw [if_neg hlet] at hr
  by_cases hlocal : commandName = "local".toList
  · rw [if_pos hlocal] at hr
    rw [if_neg hexit]
    rw [Option.map_eq_some'] at hr
    obtain ⟨s, hs, hrs⟩ := hr
    rw [← hrs]
    exact executeLocal_frame _ _ _ _ hs
  rw [if_neg hlocal] at hr
  by_cases hlogout : commandName = "logout".toList
  · rw [if_pos hlogout] at hr
    rw [if_neg hexit]
    cases hr
    unfold executeLogout
    split <;> rfl
  rw [if_neg hlogout] at hr
  by_cases hpwd : commandName = "pwd".toList
  · rw [if_pos hpwd] at hr
    rw [if_neg hexit]
    cases hr
    rfl
  rw [if_neg hpwd] at hr
  by_cases hread : commandName = "read".toList
  · rw [if_pos hread] at hr
    rw [if_neg hexit]
    rw [Option.map_eq_some'] at hr
    obtain ⟨s, hs, hrs⟩ := hr
    rw [← hrs]
    exact executeRead_frame _ _ _ _ hs
  rw [if_neg hread] at hr
  by_cases hclear : commandName = "clear".toList
  · rw [if_pos hclear] at hr
    rw [if_neg hexit]
    cases hr
    rfl
  rw [if_neg hclear] at hr
  by_cases henv : isEnvSet commandName > 0
  · rw [if_pos henv] at hr
    rw [if_neg hexit]
    cases hr
    rfl
  rw [if_neg henv] at hr
  cases hr
  exact (if_neg hexit).symm

theorem continue_exitEnabled (logoutFails : Bool) (st : BuiltinState)
    (inputScript : List Char) (r : Int × BuiltinState)
    (hr : continueBashExecution logoutFails st inputScript = some r) :
    r.2.exitEnabled
      = if st.commandWaiting = some "exit".toList then 1 else st.exitEnabled := by
  unfold continueBashExecution at hr
  cases hw : st.commandWaiting with
  | none => rw [hw] at hr; cases hr
  | some commandName =>
    rw [hw] at hr
    dsimp only at hr
    cases hd : executeBashBuiltinFunction logoutFails st commandName [inputScript] 1 with
    | none => rw [hd] at hr; cases hr
    | some r1 =>
      rw [hd] at hr
      cases hr
      have h := dispatch_exitEnabled logoutFails st commandName [inputScript] 1 r1 hd
      show r1.2.exitEnabled = _
      rw [h]
      by_cases hx : commandName = "exit".toList
      · rw [if_pos hx, if_pos (by rw [hx])]
      · rw [if_neg hx, if_neg (fun hc => hx (Option.some.inj hc))]

theorem runOp_exitEnabled (logoutFails : Bool) (st st1 : BuiltinState) (op : BuiltinOp)
    (h : runOp logoutFails st op = some st1) :
    st1.exitEnabled
      = if dispatchedName st op = some "exit".toList then 1 else st.exitEnabled := by
  cases op with
  | dispatch commandName commandArguments args =>
    unfold runOp at h
    rw [Option.map_eq_some'] at h
    obtain ⟨r, hr, hrs⟩ := h
    rw [← hrs, dispatch_exitEnabled logoutFails st commandName commandArguments args r hr]
    unfold dispatchedName
    by_cases hx : commandName = "exit".toList
    · rw [if_pos hx, if_pos (by rw [hx])]
    · rw [if_neg hx, if_neg (fun hc => hx (Option.some.inj hc))]
  | continuation inputScript =>
    unfold runOp at h
    rw [Option.map_eq_some'] at h
    obtain ⟨r, hr, hrs⟩ := h
    rw [← hrs, continue_exitEnabled logoutFails st inputScript r hr]
    rfl

theorem runOps_exitEnabled_stays (logoutFails : Bool) (ops : List BuiltinOp) :
    ∀ st st1 : BuiltinState, runOps logoutFails st ops = some st1 →
      st.exitEnabled = 1 → st1.exitEnabled = 1 := by
  induction ops with
  | nil =>
    intro st st1 h h1
    unfold runOps at h
    cases h; exact h1
  | cons op ops ih =>
    intro st st1 h h1
    unfold runOps at h
    cases hop : runOp logoutFails st op with
    | none => rw [hop] at h; cases h
    | some st2 =>
      rw [hop] at h
      refine ih st2 st1 h ?_
      rw [runOp_exitEnabled logoutFails st st2 op hop]
      split
      · rfl
      · exact h1

/-! ### The dispatcher and the built-in names -/

theorem dispatch_builtin_nonzero (logoutFails : Bool) (st : BuiltinState)
    (commandName : List Char) (commandArguments : List (List Char)) (args : Nat)
    (r : Int × BuiltinState) (hb : isBuiltinName commandName)
    (hr : executeBashBuiltinFunction logoutFails st commandName commandArguments args
      = some r) :
    r.1 ≠ 0 := by
  rcases dispatch_value logoutFails st commandName commandArguments args r hr with
    h | h | ⟨_, _, hdot, hn, henv⟩
  · rw [h]; decide
  · rw [h]; decide
  · exfalso
    rcases hb with hb | hb | hb
    · exact hdot hb
    · exact hn commandName hb rfl
    · have := (isEnvSet_pos_iff commandName).2 hb
      omega

theorem not_isAssignment_of_isEnvSet (commandName : List Char)
    (h : isEnvSet commandName = 0) : ¬ isAssignment commandName := by
  intro ha
  have := (isEnvSet_pos_iff commandName).2 ha
  omega

/-- C23 (amended): `executeBashBuiltinFunction` never returns 0 for a command
name that starts with `.`, is one of the recognised names or has the form
`K=V` with a non-empty `K`, and it does return, with a non-zero value, when
the argument array holds the arguments it is told of and the name is not
`cd`, `let` or `read`; for every other command name it returns 0 and leaves
the state as it is. -/
theorem executeBashBuiltinFunction_recognises (logoutFails : Bool) (st : BuiltinState)
    (commandName : List Char) (commandArguments : List (List Char)) (args : Nat) :
    (isBuiltinName commandName →
      (∀ r, executeBashBuiltinFunction logoutFails st commandName commandArguments args
          = some r → r.1 ≠ 0)
      ∧ (args ≤ commandArguments.length → commandName ≠ "cd".toList →
          commandName ≠ "let".toList → commandName ≠ "read".toList →
          ∃ r, executeBashBuiltinFunction logoutFails st commandName commandArguments args
            = some r ∧ r.1 ≠ 0))
    ∧ (¬ isBuiltinName commandName →
        executeBashBuiltinFunction logoutFails st commandName commandArguments args
          = some (0, st)) := by
  refine ⟨fun hb => ⟨fun r hr => dispatch_builtin_nonzero _ _ _ _ _ r hb hr, ?_⟩, ?_⟩
  · intro hargs hcd hlet hread
    obtain ⟨r, hr⟩ := dispatch_defined logoutFails st commandName commandArguments args
      hargs hcd hlet hread
    exact ⟨r, hr, dispatch_builtin_nonzero _ _ _ _ _ r hb hr⟩
  · intro hnb
    apply dispatch_not_builtin
    · exact fun h => hnb (Or.inl h)
    · intro n hn he
      exact hnb (Or.inr (Or.inl (he ▸ hn)))
    · by_contra hne
      have hpos : isEnvSet commandName > 0 := Nat.pos_of_ne_zero hne
      exact hnb (Or.inr (Or.inr ((isEnvSet_pos_iff commandName).1 hpos)))

/-- C23 (counterexample): the command name `./prog` is none of the recognised
names and has no `=`, and the dispatcher returns 1 for it, after handing the
command to `system`. -/
theorem executeBashBuiltinFunction_dot_prefix_counterexample :
    "./prog".toList ∉ recognisedNames ∧ ¬ isAssignment "./prog".toList
      ∧ executeBashBuiltinFunction false (BuiltinState.init []) "./prog".toList [] 0
        = some (1, { BuiltinState.init [] with
            calls := [BuiltinCall.system "./prog".toList] }) :=
  ⟨by decide, not_isAssignment_of_isEnvSet _ (by decide), by decide⟩

theorem executeBashBuiltinFunction_recognises_witness :
    isBuiltinName "pwd".toList
      ∧ (∃ r, executeBashBuiltinFunction false (BuiltinState.init []) "pwd".toList [] 0
          = some r ∧ r.1 ≠ 0)
      ∧ ¬ isBuiltinName "ls".toList
      ∧ executeBashBuiltinFunction false (BuiltinState.init []) "ls".toList [] 0
          = some (0, BuiltinState.init []) :=
  have hpwd : isBuiltinName "pwd".toList := Or.inr (Or.inl (by decide))
  have hls : ¬ isBuiltinName "ls".toList := fun h =>
    h.elim (fun h1 => absurd h1 (by decide))
      (fun h2 => h2.elim (fun h3 => absurd h3 (by decide))
        (fun h4 => not_isAssignment_of_isEnvSet _ (by decide) h4))
  ⟨hpwd,
   ((executeBashBuiltinFunction_recognises false (BuiltinState.init []) "pwd".toList [] 0).1
      hpwd).2 (by decide) (by decide) (by decide) (by decide),
   hls,
   (executeBashBuiltinFunction_recognises false (BuiltinState.init []) "ls".toList [] 0).2 hls⟩

/-- C25: the exit flag is 0 after start-up; after a call of
`executeBashBuiltinFunction` or `continueBashExecution` it is 1 if it was 1
before or the dispatched command name is `exit`, and what it was otherwise;
and once it is 1 it stays 1 through every sequence of such calls. -/
theorem exitEnabled_monotonic (logoutFails : Bool) :
    (∀ environment, exitNow (BuiltinState.init environment) = 0)
    ∧ (∀ (st st1 : BuiltinState) (op : BuiltinOp),
        runOp logoutFails st op = some st1 →
        st1.exitEnabled
          = if st.exitEnabled = 1 ∨ dispatchedName st op = some "exit".toList then 1
            else st.exitEnabled)
    ∧ (∀ (st st1 : BuiltinState) (ops : List BuiltinOp),
        runOps logoutFails st ops = some st1 → st.exitEnabled = 1 → st1.exitEnabled = 1) := by
  refine ⟨fun _ => rfl, ?_, fun st st1 ops h h1 =>
    runOps_exitEnabled_stays logoutFails ops st st1 h h1⟩
  intro st st1 op h
  rw [runOp_exitEnabled logoutFails st st1 op h]
  by_cases hx : dispatchedName st op = some "exit".toList
  · rw [if_pos hx, if_pos (Or.inr hx)]
  · rw [if_neg hx]
    by_cases h1 : st.exitEnabled = 1
    · rw [if_pos (Or.inl h1), h1]
    · rw [if_neg (fun hc => hc.elim h1 hx)]

theorem exitEnabled_monotonic_witness :
    runOp false (BuiltinState.init []) (BuiltinOp.dispatch "exit".toList [] 0)
        = some (executeExit (BuiltinState.init []))
      ∧ (executeExit (BuiltinState.init [])).exitEnabled = 1
      ∧ runOps false (executeExit (BuiltinState.init []))
          [BuiltinOp.dispatch "pwd".toList [] 0, BuiltinOp.dispatch "read".toList [] 0,
           BuiltinOp.continuation "x".toList, BuiltinOp.dispatch "A=1".toList [] 0]
        = some { BuiltinState.init [("A".toList, "1".toList)] with
            exitEnabled := 1
            calls := [BuiltinCall.printWorkingDirectory] }
      ∧ ({ BuiltinState.init [("A".toList, "1".toList)] with
            exitEnabled := 1
            calls := [BuiltinCall.printWorkingDirectory] } : BuiltinState).exitEnabled = 1 :=
  ⟨by decide,
   ((exitEnabled_monotonic false).2.1 (BuiltinState.init [])
      (executeExit (BuiltinState.init [])) (BuiltinOp.dispatch "exit".toList [] 0)
      (by decide)).trans (by decide),
   by decide,
   (exitEnabled_monotonic false).2.2 (executeExit (BuiltinState.init []))
      { BuiltinState.init [("A".toList, "1".toList)] with
        exitEnabled := 1
        calls := [BuiltinCall.printWorkingDirectory] }
      [BuiltinOp.dispatch "pwd".toList [] 0, BuiltinOp.dispatch "read".toList [] 0,
       BuiltinOp.continuation "x".toList, BuiltinOp.dispatch "A=1".toList [] 0]
      (by decide) (by decide)⟩

/-! ### Suspension and continuation -/

theorem dispatch_read (logoutFails : Bool) (st : BuiltinState)
    (commandArguments : List (List Char)) (args : Nat) :
    executeBashBuiltinFunction logoutFails st "read".toList commandArguments args
      = (executeRead st commandArguments args).map (fun s => (1, s)) := by
  unfold executeBashBuiltinFunction
  rw [if_neg (by decide), if_neg (by decide), if_neg (by decide), if_neg (by decide),
    if_neg (by decide), if_neg (by decide), if_neg (by decide), if_neg (by decide),
    if_neg (by decide), if_neg (by decide), if_neg (by decide), if_neg (by decide),
    if_neg (by decide), if_neg (by decide), if_neg (by decide), if_pos rfl]

theorem dispatch_local (logoutFails : Bool) (st : BuiltinState)
    (commandArguments : List (List Char)) (args : Nat) :
    executeBashBuiltinFunction logoutFails st "local".toList commandArguments args
      = (executeLocal st commandArguments args).map (fun s => (1, s)) := by
  unfold executeBashBuiltinFunction
  rw [if_neg (by decide), if_neg (by decide), if_neg (by decide), if_neg (by decide),
    if_neg (by decide), if_neg (by decide), if_neg (by decide), if_neg (by decide),
    if_neg (by decide), if_neg (by decide), if_neg (by decide), if_neg (by decide),
    if_pos rfl]

theorem getenv_envSet (environment : List (List Char × List Char)) (name value : List Char) :
    getenv (envSet environment name value) name = some value := by
  induction environment with
  | nil => simp [envSet, getenv]
  | cons entry rest ih =>
    obtain ⟨n, v⟩ := entry
    unfold envSet
    by_cases h : n = name
    · rw [if_pos h]; simp [getenv]
    · rw [if_neg h]
      unfold getenv at ih ⊢
      rw [List.find?_cons_of_neg _ (by simpa using h)]
      exact ih

/-- C26: from the idle mode, `read` and `local` without an argument set
`waitForInput` to 1 and `commandWaiting` to their name and return 1, and
`read NAME` with a name that starts neither with `-` nor with `"` sets
`waitToRead` to 1 and `variableToRead` to the name, leaves `waitForInput` as
it is and returns 1. -/
theorem dispatch_suspends_from_idle (logoutFails : Bool) (st : BuiltinState)
    (commandArguments : List (List Char))
    (h1 : st.waitForInput = 0) (h2 : st.waitToRead = 0) :
    executeBashBuiltinFunction logoutFails st "read".toList commandArguments 0
        = some (1, { st with waitForInput := 1, commandWaiting := some "read".toList })
    ∧ executeBashBuiltinFunction logoutFails st "local".toList commandArguments 0
        = some (1, { st with waitForInput := 1, commandWaiting := some "local".toList })
    ∧ ∀ (NAME : List Char) (rest : List (List Char)),
        charAt NAME 0 ≠ '-' → charAt NAME 0 ≠ '"' →
        executeBashBuiltinFunction logoutFails st "read".toList (NAME :: rest) 1
          = some (1, { st with variableToRead := some NAME, waitToRead := 1,
                               commandWaiting := some "read".toList })
          ∧ ({ st with variableToRead := some NAME, waitToRead := 1,
                       commandWaiting := some "read".toList } : BuiltinState).waitForInput
              = 0 := by
  refine ⟨?_, ?_, ?_⟩
  · rw [dispatch_read]
    unfold executeRead
    rw [if_neg (by rw [h2]; decide), if_pos rfl]
    rfl
  · rw [dispatch_local]
    unfold executeLocal
    rw [if_pos rfl]
    rfl
  · intro NAME rest hm hq
    refine ⟨?_, h1⟩
    rw [dispatch_read]
    unfold executeRead
    rw [if_neg (by rw [h2]; decide), if_neg (by decide)]
    simp only [show ¬ (1 = 2) by decide, if_false, false_and]
    rw [if_neg (by rw [h1]; decide)]
    have hscan : readVariableScan (NAME :: rest) (List.range 1) (-1) = some 0 := by
      show readVariableScan (NAME :: rest) [0] (-1) = some 0
      unfold readVariableScan
      simp only [List.getElem?_cons_zero]
      rw [if_pos ⟨hm, hq⟩]
      rfl
    rw [hscan]
    simp

theorem dispatch_suspends_from_idle_witness :
    (BuiltinState.init []).waitForInput = 0 ∧ (BuiltinState.init []).waitToRead = 0
      ∧ executeBashBuiltinFunction false (BuiltinState.init []) "local".toList [] 0
          = some (1, { BuiltinState.init [] with
              waitForInput := 1, commandWaiting := some "local".toList })
      ∧ executeBashBuiltinFunction false (BuiltinState.init []) "read".toList
          ["X".toList] 1 = some (1, BuiltinState.awaitingX) :=
  ⟨rfl, rfl,
   (dispatch_suspends_from_idle false (BuiltinState.init []) [] rfl rfl).2.1,
   ((dispatch_suspends_from_idle false (BuiltinState.init []) [] rfl rfl).2.2
      "X".toList [] (by decide) (by decide)).1⟩

/-- C27 (amended): while `read V` is pending (`waitToRead` is 1,
`variableToRead` is `V`, `commandWaiting` is `read`), with `V` a name
`setenv` accepts, `continueBashExecution(L)` returns 1, gives `V` the whole
line `L` as its value and leaves the mode idle. -/
theorem continueBashExecution_read_assigns_line (logoutFails : Bool) (st : BuiltinState)
    (V L : List Char) (hV : V ≠ []) (hEq : '=' ∉ V)
    (h1 : st.waitToRead = 1) (h2 : st.variableToRead = some V)
    (h3 : st.commandWaiting = some "read".toList) :
    ∃ r, continueBashExecution logoutFails st L = some r ∧ r.1 = 1
      ∧ getenv r.2.environment V = some L
      ∧ r.2.waitToRead = 0 ∧ r.2.variableToRead = none
      ∧ r.2.waitForInput = 0 ∧ r.2.commandWaiting = none := by
  unfold continueBashExecution
  rw [h3]
  dsimp only
  rw [dispatch_read]
  unfold executeRead
  rw [if_pos (by rw [h1]; decide)]
  simp only [List.getElem?_cons_zero, Option.map_some']
  refine ⟨_, rfl, rfl, ?_, rfl, rfl, rfl, rfl⟩
  show getenv (setenv st.environment st.variableToRead L) V = some L
  rw [h2]
  unfold setenv
  dsimp only
  rw [if_neg (fun h => h.elim hV hEq)]
  exact getenv_envSet _ _ _

theorem continueBashExecution_read_assigns_line_witness :
    ∃ r, continueBashExecution false BuiltinState.awaitingX "alice".toList = some r
      ∧ r.1 = 1 ∧ getenv r.2.environment "X".toList = some "alice".toList
      ∧ r.2.waitToRead = 0 ∧ r.2.variableToRead = none
      ∧ r.2.waitForInput = 0 ∧ r.2.commandWaiting = none :=
  continueBashExecution_read_assigns_line false BuiltinState.awaitingX "X".toList
    "alice".toList (by decide) (by decide) rfl rfl rfl

/-- C27 (counterexample): after `read X` the line `alice bob`, whose first
token is `alice`, gives `X` the value `alice bob`. -/
theorem continueBashExecution_read_whole_line_counterexample :
    executeBashBuiltinFunction false (BuiltinState.init []) "read".toList ["X".toList] 1
        = some (1, BuiltinState.awaitingX)
      ∧ (strtokAll ' ' "alice bob".toList).head? = some "alice".toList
      ∧ (continueBashExecution false BuiltinState.awaitingX "alice bob".toList).map
          (fun r => getenv r.2.environment "X".toList)
        = some (some "alice bob".toList) := by
  decide

/-- C28: the jobs of the script line `read X; local`, run from the initial
state, leave a suspended state with `local` pending; the continuation with the
line `5` then resets `waitForInput` and `commandWaiting` but leaves
`waitToRead` at 1, so the mode is not idle, and the continuation after it
finds no pending command to dispatch. -/
theorem continueBashExecution_leaves_read_pending :
    executeScriptJobs "read X; local".toList = some ["read X".toList, "local".toList]
      ∧ (executeJobs Host.quiet ShellState.init ["read X".toList, "local".toList]).map
          (fun shell => shell.builtins) = some BuiltinState.bothPending
      ∧ BuiltinState.bothPending.commandWaiting = some "local".toList
      ∧ continueBashExecution false BuiltinState.bothPending "5".toList
          = some (1, BuiltinState.readLeftPending)
      ∧ BuiltinState.readLeftPending.waitForInput = 0
      ∧ BuiltinState.readLeftPending.commandWaiting = none
      ∧ BuiltinState.readLeftPending.waitToRead = 1
      ∧ getenv BuiltinState.readLeftPending.environment "X".toList = none
      ∧ continueBashExecution false BuiltinState.readLeftPending "6".toList = none := by
  decide

/-- C29: the two dispatches of the script line `read X; local` leave
`waitToRead` and `waitForInput` both 1, because `executeLocal` sets
`waitForInput` whatever `waitToRead` is; in the other order, `local; read X`,
the test of `waitForInput` in `executeRead` keeps `waitToRead` at 0. -/
theorem executeLocal_suspends_while_read_pending :
    executeScriptJobs "read X; local".toList = some ["read X".toList, "local".toList]
      ∧ parseCommand "read X".toList = some ("read".toList, ["X".toList], 1)
      ∧ parseCommand "local".toList = some ("local".toList, [], 0)
      ∧ runOps false (BuiltinState.init [])
          [BuiltinOp.dispatch "read".toList ["X".toList] 1,
           BuiltinOp.dispatch "local".toList [] 0] = some BuiltinState.bothPending
      ∧ BuiltinState.bothPending.waitForInput = 1
      ∧ BuiltinState.bothPending.waitToRead = 1
      ∧ (runOps false (BuiltinState.init [])
          [BuiltinOp.dispatch "local".toList [] 0,
           BuiltinOp.dispatch "read".toList ["X".toList] 1]).map
            (fun st => (st.waitForInput, st.waitToRead)) = some (1, 0) := by
  decide

/-- C30: the command `let X=3*-4` sets `X` to `-1`, not to `-12`: the scan of
`parseLetCommand` keeps the last operator character, the sign of the second
operand, so the values are 3 and 4 and the operator is `-`; `let X=3*4` sets
`X` to `12` and `let X=-3*4` to `-12`. -/
theorem executeLet_negative_second_operand :
    parseLetCommand "X=3*-4".toList
        = some (some { variableName := some "X".toList, value1 := 3, value2 := 4,
                       operator := '-' })
      ∧ (executeBashBuiltinFunction false (BuiltinState.init []) "let".toList
          ["X=3*-4".toList] 1).map (fun r => (r.1, getenv r.2.environment "X".toList))
        = some (1, some "-1".toList)
      ∧ (executeBashBuiltinFunction false (BuiltinState.init []) "let".toList
          ["X=3*4".toList] 1).map (fun r => (r.1, getenv r.2.environment "X".toList))
        = some (1, some "12".toList)
      ∧ (executeBashBuiltinFunction false (BuiltinState.init []) "let".toList
          ["X=-3*4".toList] 1).map (fun r => (r.1, getenv r.2.environment "X".toList))
        = some (1, some "-12".toList) := by
  decide

/-! ## Jobs made of built-ins (`handlePipedCommands`) -/

theorem stageBody_builtin (host : Host) (pipedCount : Nat) (pipedJob : List Char)
    (lastInBackground : Bool) (vars : StageLoop) (i : Nat) (stage : List Char)
    (out : StageOutcome) (hb : isBuiltinStage stage)
    (h : stageBody host pipedCount pipedJob lastInBackground vars i stage = some out) :
    ∃ builtins, out
      = StageOutcome.completed { vars with shell := { vars.shell with builtins := builtins } } := by
  obtain ⟨commandName, commandArguments, argsCount, userBackground, name, count,
    hp, hbg, hname⟩ := hb
  unfold stageBody at h
  rw [hp] at h
  dsimp only at h
  rw [hbg] at h
  dsimp only at h
  cases hd : executeBashBuiltinFunction host.logoutFails vars.shell.builtins name
      commandArguments count with
  | none => rw [hd] at h; cases h
  | some rb =>
    rw [hd] at h
    dsimp only at h
    have hv : rb.1 ≠ 0 := dispatch_builtin_nonzero _ _ _ _ _ rb hname hd
    rw [if_pos hv] at h
    cases h
    exact ⟨rb.2, rfl⟩

theorem stageLoop_builtin (host : Host) (pipedCount : Nat) (pipedJob : List Char)
    (lastInBackground : Bool) (stages : List (List Char)) :
    ∀ (vars : StageLoop) (i : Nat) (out : StageOutcome),
      (∀ stage ∈ stages, isBuiltinStage stage) →
      stageLoop host pipedCount pipedJob lastInBackground vars i stages = some out →
      ∃ builtins, out
        = StageOutcome.completed
            { vars with shell := { vars.shell with builtins := builtins } } := by
  induction stages with
  | nil =>
    intro vars i out _ h
    unfold stageLoop at h
    cases h
    exact ⟨vars.shell.builtins, rfl⟩
  | cons stage rest ih =>
    intro vars i out hb h
    unfold stageLoop at h
    cases hs : stageBody host pipedCount pipedJob lastInBackground vars i stage with
    | none => rw [hs] at h; cases h
    | some o =>
      obtain ⟨b1, ho⟩ := stageBody_builtin host pipedCount pipedJob lastInBackground vars i
        stage o (hb stage (List.mem_cons_self _ _)) hs
      rw [hs, ho] at h
      dsimp only at h
      obtain ⟨b2, hout⟩ := ih _ (i + 1) out
        (fun s hsm => hb s (List.mem_cons_of_mem _ hsm)) h
      exact ⟨b2, hout⟩

theorem createPipesLoop_events (host : Host) (numbers : List Nat) :
    ∀ (pipesArray : List (List Char)) (made : List JobEvent),
      made.filter JobEvent.startsProcess = [] →
      (createPipesLoop host numbers pipesArray made).2.1.filter JobEvent.startsProcess
        = [] := by
  induction numbers with
  | nil => intro pipesArray made h; exact h
  | cons i rest ih =>
    intro pipesArray made h
    unfold createPipesLoop
    split
    · split
      · exact h
      · apply ih
        rw [List.filter_append, h]
        rfl
    · exact ih _ _ h

theorem createPipes_events (host : Host) (pipedProcesses : Nat) :
    (createPipes host pipedProcesses).2.2.filter JobEvent.startsProcess = [] := by
  unfold createPipes
  dsimp only
  split
  · rfl
  · have h := createPipesLoop_events host
      (List.range ((pipedProcesses : Int) - 1).toNat) [] [] rfl
    split
    · rename_i heq
      rw [heq] at h; exact h
    · rename_i heq
      rw [heq] at h; exact h

theorem destroyPipes_events (pipedProcesses : Nat) (pipesArray : List (List Char)) :
    (destroyPipes pipedProcesses pipesArray).2.filter JobEvent.startsProcess = [] := by
  unfold destroyPipes
  dsimp only
  split
  · rfl
  · rw [List.filter_map]
    simp [Function.comp_def, JobEvent.startsProcess]

theorem waitpid_events (waited : List Int) :
    (waited.map JobEvent.waitpid).filter JobEvent.startsProcess = [] := by
  rw [List.filter_map]
  simp [Function.comp_def, JobEvent.startsProcess]

theorem createPipes_value (host : Host) (pipedProcesses : Nat)
    (h : (createPipes host pipedProcesses).1 ≠ -1) :
    ((pipedProcesses : Int) - 1) ≤ (MAX_PIPES_PER_JOB : Int) := by
  unfold createPipes at h
  dsimp only at h
  by_contra hc
  rw [if_pos (by omega)] at h
  exact h rfl

theorem destroyPipes_value (pipedProcesses : Nat) (pipesArray : List (List Char))
    (hk : 1 < pipedProcesses)
    (h : ((pipedProcesses : Int) - 1) ≤ (MAX_PIPES_PER_JOB : Int)) :
    (destroyPipes pipedProcesses pipesArray).1 ≠ -1 := by
  unfold destroyPipes
  dsimp only
  rw [if_neg (by omega)]
  show (pipedProcesses : Int) - 1 ≠ -1
  omega

theorem handlePipedCommands_builtin_value (host : Host) (shell : ShellState)
    (pipedJob : List Char) (stages : List (List Char))
    (hs : getPipedProcesses pipedJob = some stages)
    (hb : ∀ stage ∈ stages, isBuiltinStage stage) (r : Int × ShellState)
    (hr : handlePipedCommands host shell stages.length pipedJob = some r) :
    r.2.events.filter JobEvent.startsProcess = shell.events.filter JobEvent.startsProcess
      ∧ r.1 = if 1 < stages.length
            ∧ ((createPipes host stages.length).1 = -1 ∨ (jobStarted shell.tables).1 = -1)
          then -1 else 0 := by
  unfold handlePipedCommands at hr
  by_cases h0 : stages.length = 0
  · rw [if_pos h0] at hr; cases hr
  rw [if_neg h0, hs] at hr
  dsimp only at hr
  rw [List.take_length] at hr
  by_cases hk : stages.length > 1
  · simp only [hk, if_true, true_and] at hr
    by_cases hc : (createPipes host stages.length).1 = -1
    · rw [if_pos hc] at hr
      cases hr
      refine ⟨?_, (if_pos ⟨hk, Or.inl hc⟩).symm⟩
      show List.filter _ (shell.events ++ _) = _
      rw [List.filter_append, createPipes_events, List.append_nil]
    rw [if_neg hc] at hr
    by_cases hj : (jobStarted shell.tables).1 = -1
    · rw [if_pos hj] at hr
      cases hr
      refine ⟨?_, (if_pos ⟨hk, Or.inr hj⟩).symm⟩
      show List.filter _ (shell.events ++ _) = _
      rw [List.filter_append, createPipes_events, List.append_nil]
    rw [if_neg hj] at hr
    rw [if_neg (fun h => h.2.elim hc hj)]
    cases hl : stageLoop host stages.length pipedJob
        (decide (charAt pipedJob (pipedJob.length - 1) = '&'))
        { shell := { builtins := shell.builtins, tables := (jobStarted shell.tables).2,
                     events := shell.events ++ (createPipes host stages.length).2.2 },
          jobIndex := 0, forkedProcesses := 0, processError := false } 0 stages with
    | none => rw [hl] at hr; cases hr
    | some out =>
      obtain ⟨builtins, hout⟩ := stageLoop_builtin host stages.length pipedJob _ stages _ 0 out
        hb hl
      rw [hl, hout] at hr
      dsimp only at hr
      rw [if_neg (by decide)] at hr
      split at hr
      · cases hr
      · rename_i tables waited _
        have hd := destroyPipes_value stages.length (createPipes host stages.length).2.1 hk
          (createPipes_value host stages.length hc)
        rw [if_neg hd] at hr
        cases hr
        refine ⟨?_, rfl⟩
        show List.filter _ (shell.events ++ _ ++ _ ++ _) = _
        rw [List.filter_append, List.filter_append, List.filter_append, createPipes_events,
          waitpid_events, destroyPipes_events, List.append_nil, List.append_nil,
          List.append_nil]
  · have h1 : stages.length = 1 := by omega
    rw [if_neg (fun h => hk h.1)]
    simp only [hk, if_false, false_and, and_false, List.append_nil] at hr
    cases hl : stageLoop host stages.length pipedJob
        (decide (charAt pipedJob (pipedJob.length - 1) = '&'))
        { shell := { builtins := shell.builtins, tables := shell.tables,
                     events := shell.events },
          jobIndex := 0, forkedProcesses := 0, processError := false } 0 stages with
    | none => rw [hl] at hr; cases hr
    | some out =>
      obtain ⟨builtins, hout⟩ := stageLoop_builtin host stages.length pipedJob _ stages _ 0 out
        hb hl
      rw [hl, hout] at hr
      dsimp only at hr
      rw [if_neg (by decide)] at hr
      cases hr
      exact ⟨by simp, rfl⟩

theorem handlePipedCommands_single_builtin (host : Host) (shell : ShellState)
    (pipedJob stage commandName : List Char) (commandArguments : List (List Char))
    (argsCount : Nat) (userBackground : Bool) (name : List Char) (count : Nat)
    (value : Int) (builtins : BuiltinState)
    (hs : getPipedProcesses pipedJob = some [stage])
    (hp : parseCommand stage = some (commandName, commandArguments, argsCount))
    (hbg : isBackground commandName commandArguments argsCount
      = some (userBackground, name, count))
    (hd : executeBashBuiltinFunction host.logoutFails shell.builtins name commandArguments
      count = some (value, builtins))
    (hv : value ≠ 0) :
    ∃ r, handlePipedCommands host shell 1 pipedJob = some r ∧ r.1 = 0
      ∧ r.2.builtins = builtins ∧ r.2.events = shell.events := by
  unfold handlePipedCommands
  rw [if_neg (by decide), hs]
  simp only [show ¬ (1 > 1) by decide, if_false, false_and, and_false, List.append_nil,
    List.take_succ_cons, List.take_zero]
  unfold stageLoop stageBody
  rw [hp]
  dsimp only
  rw [hbg]
  dsimp only
  rw [hd]
  dsimp only
  rw [if_pos hv]
  unfold stageLoop
  dsimp only
  rw [if_neg (by decide)]
  exact ⟨_, rfl, rfl, rfl, by simp⟩

/-- C24 (amended): for a job all of whose stages are built-ins,
`handlePipedCommands` adds no call of `executeProcess` and no `fork` to what
has happened, and the value it returns is 0, except for a pipeline when
`createPipes` fails or `jobStarted` finds no free job slot, where it is -1;
for a job of one stage it does return, with 0, whenever the dispatcher
returns for the stage. -/
theorem handlePipedCommands_builtin_job (host : Host) (shell : ShellState)
    (pipedJob : List Char) (stages : List (List Char))
    (hs : getPipedProcesses pipedJob = some stages)
    (hb : ∀ stage ∈ stages, isBuiltinStage stage) :
    (∀ r, handlePipedCommands host shell stages.length pipedJob = some r →
      r.2.events.filter JobEvent.startsProcess
          = shell.events.filter JobEvent.startsProcess
        ∧ r.1 = if 1 < stages.length
              ∧ ((createPipes host stages.length).1 = -1
                  ∨ (jobStarted shell.tables).1 = -1)
            then -1 else 0)
    ∧ (∀ (stage commandName : List Char) (commandArguments : List (List Char))
        (argsCount : Nat) (userBackground : Bool) (name : List Char) (count : Nat)
        (dispatched : Int × BuiltinState),
        stages = [stage] →
        parseCommand stage = some (commandName, commandArguments, argsCount) →
        isBackground commandName commandArguments argsCount
          = some (userBackground, name, count) →
        executeBashBuiltinFunction host.logoutFails shell.builtins name commandArguments
          count = some dispatched →
        ∃ r, handlePipedCommands host shell stages.length pipedJob = some r ∧ r.1 = 0
          ∧ r.2.builtins = dispatched.2 ∧ r.2.events = shell.events) := by
  refine ⟨fun r hr => handlePipedCommands_builtin_value host shell pipedJob stages hs hb r hr,
    ?_⟩
  intro stage commandName commandArguments argsCount userBackground name count dispatched
    hst hp hbg hd
  subst hst
  obtain ⟨cn, ca, n, ub, nm, ct, hp2, hbg2, hname⟩ := hb stage (List.mem_singleton.2 rfl)
  rw [hp] at hp2
  cases hp2
  rw [hbg] at hbg2
  cases hbg2
  exact handlePipedCommands_single_builtin host shell pipedJob stage commandName
    commandArguments argsCount userBackground name count dispatched.1 dispatched.2 hs hp hbg
    hd (dispatch_builtin_nonzero _ _ _ _ _ dispatched hname hd)

theorem isBuiltinStage_pwd : isBuiltinStage "pwd".toList :=
  ⟨"pwd".toList, [], 0, false, "pwd".toList, 0, by decide, by decide,
    Or.inr (Or.inl (by decide))⟩

theorem handlePipedCommands_builtin_job_witness :
    getPipedProcesses "pwd".toList = some ["pwd".toList]
      ∧ ∃ r, handlePipedCommands Host.quiet ShellState.init 1 "pwd".toList = some r
          ∧ r.1 = 0
          ∧ r.2.builtins = { BuiltinState.init [] with
              calls := [BuiltinCall.printWorkingDirectory] }
          ∧ r.2.events = [] :=
  ⟨by decide,
   (handlePipedCommands_builtin_job Host.quiet ShellState.init "pwd".toList ["pwd".toList]
      (by decide)
      (fun stage h => (List.mem_singleton.1 h) ▸ isBuiltinStage_pwd)).2
      "pwd".toList "pwd".toList [] 0 false "pwd".toList 0
      (1, { BuiltinState.init [] with calls := [BuiltinCall.printWorkingDirectory] })
      rfl (by decide) (by decide) (by decide)⟩

/-- C24 (counterexample): the job `pwd | pwd`, whose two stages are the
built-in `pwd`, makes `handlePipedCommands` return -1 when every job slot is
taken; nothing is forked. -/
theorem handlePipedCommands_builtin_pipeline_counterexample :
    getPipedProcesses "pwd | pwd".toList = some ["pwd ".toList, "pwd".toList]
      ∧ (parseCommand "pwd ".toList).map (fun p => p.1) = some "pwd".toList
      ∧ (parseCommand "pwd".toList).map (fun p => p.1) = some "pwd".toList
      ∧ (handlePipedCommands Host.quiet
          { ShellState.init with tables := Tables.allJobsRunning } 2
          "pwd | pwd".toList).map (fun r => (r.1, r.2.events))
        = some (-1, [JobEvent.mkfifo (fifoName 0)]) := by
  decide

/-! ## Decimal text (`sprintf("%d")`, `atoi`) -/

theorem toDigitsCore_append (f : Nat) :
    ∀ (n : Nat) (ds : List Char),
      Nat.toDigitsCore 10 f n ds = Nat.toDigitsCore 10 f n [] ++ ds := by
  induction f with
  | zero => intro n ds; simp [Nat.toDigitsCore]
  | succ f ih =>
    intro n ds
    unfold Nat.toDigitsCore
    dsimp only
    by_cases h : n / 10 = 0
    · rw [if_pos h, if_pos h]; rfl
    · rw [if_neg h, if_neg h, ih (n / 10) (Nat.digitChar (n % 10) :: ds),
        ih (n / 10) [Nat.digitChar (n % 10)]]
      simp

theorem digitChar_isDigit (d : Nat) (h : d < 10) :
    (Nat.digitChar d).isDigit = true
      ∧ ((Nat.digitChar d).toNat : Int) - ('0'.toNat : Int) = (d : Int) := by
  interval_cases d <;> decide

theorem atoiDigits_cons_digit (c : Char) (cs : List Char) (acc : Int)
    (h : c.isDigit = true) :
    atoiDigits (c :: cs) acc
      = atoiDigits cs (acc * 10 + ((c.toNat : Int) - ('0'.toNat : Int))) := by
  rw [atoiDigits, if_pos h]

theorem atoiDigits_nil (acc : Int) : atoiDigits [] acc = acc := by
  rw [atoiDigits]

theorem atoiDigits_append (l r : List Char) :
    ∀ acc : Int, (∀ c ∈ l, c.isDigit = true) →
      atoiDigits (l ++ r) acc = atoiDigits r (atoiDigits l acc) := by
  induction l with
  | nil => intro acc _; rfl
  | cons c cs ih =>
    intro acc h
    have hc : c.isDigit = true := h c (List.mem_cons_self _ _)
    show atoiDigits (c :: (cs ++ r)) acc = atoiDigits r (atoiDigits (c :: cs) acc)
    rw [atoiDigits_cons_digit _ _ _ hc, atoiDigits_cons_digit _ _ _ hc]
    exact ih _ (fun x hx => h x (List.mem_cons_of_mem _ hx))

/-- The digits `Nat.toDigits` produces are decimal digits, there is at least
one, and `atoiDigits` reads the number back. -/
theorem toDigitsCore_spec (n : Nat) :
    ∀ f : Nat, n < f →
      (∀ c ∈ Nat.toDigitsCore 10 f n [], c.isDigit = true)
      ∧ Nat.toDigitsCore 10 f n [] ≠ []
      ∧ atoiDigits (Nat.toDigitsCore 10 f n []) 0 = (n : Int) := by
  induction n using Nat.strong_induction_on with
  | _ n ih =>
    intro f hf
    cases f with
    | zero => exact absurd hf (Nat.not_lt_zero _)
    | succ f =>
      unfold Nat.toDigitsCore
      dsimp only
      have hd := digitChar_isDigit (n % 10) (Nat.mod_lt _ (by decide))
      by_cases h : n / 10 = 0
      · rw [if_pos h]
        refine ⟨?_, by simp, ?_⟩
        · intro c hc
          rw [List.mem_singleton] at hc
          rw [hc]; exact hd.1
        · rw [atoiDigits_cons_digit _ _ _ hd.1, atoiDigits_nil, hd.2]
          have : n % 10 = n := by omega
          omega
      · rw [if_neg h, toDigitsCore_append]
        have hlt : n / 10 < n := by omega
        obtain ⟨h1, h2, h3⟩ := ih (n / 10) hlt f (by omega)
        refine ⟨?_, by simp, ?_⟩
        · intro c hc
          rw [List.mem_append, List.mem_singleton] at hc
          rcases hc with hc | hc
          · exact h1 c hc
          · rw [hc]; exact hd.1
        · rw [atoiDigits_append _ _ _ h1, h3, atoiDigits_cons_digit _ _ _ hd.1,
            atoiDigits_nil, hd.2]
          omega

theorem toDigits_spec (n : Nat) :
    (∀ c ∈ Nat.toDigits 10 n, c.isDigit = true)
      ∧ Nat.toDigits 10 n ≠ []
      ∧ atoiDigits (Nat.toDigits 10 n) 0 = (n : Int) :=
  toDigitsCore_spec n (n + 1) (Nat.lt_succ_self n)

theorem decimal_ofNat (n : Nat) : decimal (n : Int) = Nat.toDigits 10 n := rfl

theorem decimal_negSucc (n : Nat) :
    decimal (Int.negSucc n) = '-' :: Nat.toDigits 10 (n + 1) := rfl

theorem atoi_of_digit_head (c : Char) (cs : List Char) (hc : c.isDigit = true) :
    atoi (c :: cs) = atoiDigits (c :: cs) 0 := by
  have hws : ¬ (c = ' ' ∨ c = '\t' ∨ c = '\n' ∨ c = '\x0b' ∨ c = '\x0c' ∨ c = '\r') := by
    intro h
    rcases h with h | h | h | h | h | h <;> (rw [h] at hc; exact absurd hc (by decide))
  have hminus : c ≠ '-' := by intro h; rw [h] at hc; exact absurd hc (by decide)
  have hplus : c ≠ '+' := by intro h; rw [h] at hc; exact absurd hc (by decide)
  unfold atoi
  rw [List.dropWhile_cons_of_neg (by simpa using hws)]
  split
  · rename_i heq
    exact absurd (List.cons.inj heq).1 hminus
  · rename_i heq
    exact absurd (List.cons.inj heq).1 hplus
  · rfl

theorem atoi_minus (l : List Char) : atoi ('-' :: l) = - atoiDigits l 0 := by
  unfold atoi
  rw [List.dropWhile_cons_of_neg (by decide)]
  rfl

/-- The function `atoi` reads back what `sprintf("%d")` writes. -/
theorem atoi_decimal (n : Int) : atoi (decimal n) = n := by
  cases n with
  | ofNat m =>
    obtain ⟨h1, h2, h3⟩ := toDigits_spec m
    show atoi (Nat.toDigits 10 m) = _
    cases hl : Nat.toDigits 10 m with
    | nil => exact absurd hl h2
    | cons c cs =>
      rw [atoi_of_digit_head c cs (h1 c (by rw [hl]; exact List.mem_cons_self _ _)), ← hl, h3]
      rfl
  | negSucc m =>
    obtain ⟨_, _, h3⟩ := toDigits_spec (m + 1)
    rw [decimal_negSucc, atoi_minus, h3]
    rfl

/-- The characters of the text of a number: an optional `-` and digits. -/
theorem decimal_chars (n : Int) :
    decimal n ≠ [] ∧ ∀ c ∈ decimal n, c = '-' ∨ c.isDigit = true := by
  cases n with
  | ofNat m =>
    obtain ⟨h1, h2, _⟩ := toDigits_spec m
    exact ⟨h2, fun c hc => Or.inr (h1 c hc)⟩
  | negSucc m =>
    obtain ⟨h1, _, _⟩ := toDigits_spec (m + 1)
    refine ⟨by rw [decimal_negSucc]; simp, fun c hc => ?_⟩
    rw [decimal_negSucc, List.mem_cons] at hc
    exact hc.elim Or.inl (fun h => Or.inr (h1 c h))

theorem decimal_nonneg_chars (n : Int) (h : 0 ≤ n) :
    ∀ c ∈ decimal n, c.isDigit = true := by
  cases n with
  | ofNat m => exact (toDigits_spec m).1
  | negSucc m => exact absurd h (by simp [Int.negSucc_lt_zero])

theorem decimal_length (n : Int) (h1 : INT_MIN ≤ n) (h2 : n ≤ INT_MAX) :
    (decimal n).length ≤ 11 := by
  unfold INT_MIN at h1
  unfold INT_MAX at h2
  cases n with
  | ofNat m =>
    have hm : m < 10 ^ 10 := by
      have : (m : Int) ≤ 2147483647 := h2
      omega
    have := Nat.repr_length m 10 (by decide) hm
    show (Nat.toDigits 10 m).length ≤ 11
    have e : (Nat.repr m).length = (Nat.toDigits 10 m).length := rfl
    omega
  | negSucc m =>
    have hm : m + 1 < 10 ^ 10 := by
      have : -2147483648 ≤ Int.negSucc m := h1
      rw [Int.negSucc_eq] at this
      omega
    have := Nat.repr_length (m + 1) 10 (by decide) hm
    rw [decimal_negSucc]
    have e : (Nat.repr (m + 1)).length = (Nat.toDigits 10 (m + 1)).length := rfl
    rw [List.length_cons]
    omega

/-! ## The built-in `let` (`parseLetCommand`, `executeLet`) -/

theorem parseLetScan_plain (X Y : List Char) :
    ∀ (i e o : Nat), plainLetText X →
      parseLetScan (X ++ Y) i e o = parseLetScan Y (i + X.length) e o := by
  induction X with
  | nil => intro i e o _; rfl
  | cons c cs ih =>
    intro i e o h
    have hc := h c (List.mem_cons_self _ _)
    have hc2 : ¬ (c = '+' ∨ c = '-' ∨ c = '*' ∨ c = '/' ∨ c = '%') := hc.2
    show parseLetScan (c :: (cs ++ Y)) i e o = _
    rw [parseLetScan, if_neg hc.1, if_neg hc2,
      ih (i + 1) e o (fun x hx => h x (List.mem_cons_of_mem _ hx)), List.length_cons]
    congr 1
    omega

theorem parseLetScan_operand (X Y : List Char) (op : Char) (hop : isLetOperator op) :
    ∀ (i e o : Nat), '=' ∉ X →
      parseLetScan (X ++ op :: Y) i e o
        = parseLetScan Y (i + X.length + 1) e (i + X.length) := by
  have hne : op ≠ '=' := by
    intro h; rw [h] at hop; exact absurd hop (by decide)
  have hop2 : op = '+' ∨ op = '-' ∨ op = '*' ∨ op = '/' ∨ op = '%' := hop
  induction X with
  | nil =>
    intro i e o _
    show parseLetScan (op :: Y) i e o = _
    rw [parseLetScan, if_neg hne, if_pos hop2]
    rfl
  | cons c cs ih =>
    intro i e o h
    have hc : c ≠ '=' := fun hc => h (hc ▸ List.mem_cons_self _ _)
    have hcs : '=' ∉ cs := fun hx => h (List.mem_cons_of_mem _ hx)
    show parseLetScan (c :: (cs ++ op :: Y)) i e o = _
    rw [parseLetScan, if_neg hc]
    by_cases hco : c = '+' ∨ c = '-' ∨ c = '*' ∨ c = '/' ∨ c = '%'
    · rw [if_pos hco, ih (i + 1) e i hcs, List.length_cons]
      congr 1 <;> omega
    · rw [if_neg hco, ih (i + 1) e o hcs, List.length_cons]
      congr 1 <;> omega

theorem parseLetScan_letArgument (V a b : List Char) (op : Char)
    (hV : plainLetText V) (ha : '=' ∉ a) (hop : isLetOperator op) (hb : plainLetText b) :
    parseLetScan (letArgument V a op b) 0 0 0 = (V.length, V.length + 1 + a.length) := by
  unfold letArgument
  rw [parseLetScan_plain V _ 0 0 0 hV]
  rw [parseLetScan, if_pos rfl, parseLetScan_operand a b op hop _ _ _ ha]
  have h := parseLetScan_plain b [] (0 + V.length + 1 + a.length + 1) (0 + V.length)
    (0 + V.length + 1 + a.length) hb
  rw [List.append_nil] at h
  rw [h, parseLetScan]
  simp

theorem subString_mid (X Y Z : List Char) (h : X ++ (Y ++ Z) ≠ []) :
    subString (X ++ (Y ++ Z)) X.length Y.length = some Y := by
  unfold subString
  have h0 : ¬ (X ++ (Y ++ Z)).length = 0 := fun hl => h (List.length_eq_zero.1 hl)
  have h1 : ¬ (X ++ (Y ++ Z)).length < X.length := by
    rw [List.length_append]; omega
  have h2 : ¬ (X ++ (Y ++ Z)).length < (X.length + Y.length) % 2 ^ 64 := by
    have := Nat.mod_le (X.length + Y.length) (2 ^ 64)
    rw [List.length_append, List.length_append]
    omega
  rw [if_neg (fun hc => hc.elim h0 (fun hc => hc.elim h1 h2))]
  rw [List.drop_left, List.take_left]

theorem toNat_emod_of_lt (n : Nat) (h : n < 2 ^ 64) :
    (((n : Int)) % (2 : Int) ^ 64).toNat = n := by
  have h2 : (n : Int) < (2 : Int) ^ 64 := by exact_mod_cast h
  rw [Int.emod_eq_of_lt (Int.ofNat_nonneg n) h2]
  rfl

/-- What `parseLetCommand` finds in an argument `V=AopB` whose name and second
operand hold neither `=` nor an operator character and whose first operand
holds no `=`: the name, the two operands read by `atoi`, and the operator. -/
theorem parseLetCommand_letArgument (V a b : List Char) (op : Char)
    (hV : plainLetText V) (hV0 : V ≠ []) (ha : '=' ∉ a) (ha0 : a ≠ [])
    (hal : a.length < 2 ^ 64) (hop : isLetOperator op) (hb : plainLetText b)
    (hbl : b.length < 2 ^ 64) :
    parseLetCommand (letArgument V a op b)
      = some (some { variableName := some V, value1 := atoi a, value2 := atoi b,
                     operator := op }) := by
  have hVl : 0 < V.length := List.length_pos.2 hV0
  have hal0 : 0 < a.length := List.length_pos.2 ha0
  unfold parseLetCommand
  rw [parseLetScan_letArgument V a b op hV ha hop hb]
  dsimp only
  rw [if_neg (by omega), if_neg (by omega)]
  have hlen : (letArgument V a op b).length = V.length + 1 + a.length + 1 + b.length := by
    unfold letArgument
    simp only [List.length_append, List.length_cons]
    omega
  have e1 : ((((V.length + 1 + a.length : Nat) : Int) - (V.length : Int) - 1)
      % (2 : Int) ^ 64).toNat = a.length := by
    have : (((V.length + 1 + a.length : Nat) : Int) - (V.length : Int) - 1)
        = (a.length : Int) := by push_cast; omega
    rw [this, toNat_emod_of_lt _ hal]
  have e2 : ((((letArgument V a op b).length : Int)
      - ((V.length + 1 + a.length : Nat) : Int) - 1) % (2 : Int) ^ 64).toNat = b.length := by
    have : (((letArgument V a op b).length : Int)
        - ((V.length + 1 + a.length : Nat) : Int) - 1) = (b.length : Int) := by
      rw [hlen]; push_cast; omega
    rw [this, toNat_emod_of_lt _ hbl]
  rw [e1, e2]
  have s1 : subString (letArgument V a op b) (V.length + 1) a.length = some a := by
    have h := subString_mid (V ++ ['=']) a (op :: b) (by simp)
    rw [List.length_append] at h
    have e : letArgument V a op b = (V ++ ['=']) ++ (a ++ op :: b) := by
      unfold letArgument; simp
    rw [e]; exact h
  have s2 : subString (letArgument V a op b) (V.length + 1 + a.length + 1) b.length
      = some b := by
    have h := subString_mid (V ++ '=' :: (a ++ [op])) b [] (by simp)
    have e : letArgument V a op b = (V ++ '=' :: (a ++ [op])) ++ (b ++ []) := by
      unfold letArgument; simp
    have el : (V ++ '=' :: (a ++ [op])).length = V.length + 1 + a.length + 1 := by
      simp only [List.length_append, List.length_cons, List.length_nil]
      omega
    rw [el] at h
    rw [e]; exact h
  have s3 : subString (letArgument V a op b) 0 V.length = some V := by
    have h := subString_mid [] V ('=' :: (a ++ op :: b)) (by simp)
    exact h
  have s4 : charAt (letArgument V a op b) (V.length + 1 + a.length) = op := by
    unfold charAt letArgument
    have e : V ++ '=' :: (a ++ op :: b) = (V ++ '=' :: a) ++ op :: b := by simp
    have el : V.length + 1 + a.length = (V ++ '=' :: a).length := by
      simp only [List.length_append, List.length_cons]
      omega
    rw [e, el, List.getD_eq_getElem?_getD, List.getElem?_append_right (le_refl _)]
    simp
  rw [s1, s2, s3, s4]

theorem dispatch_let (logoutFails : Bool) (st : BuiltinState)
    (commandArguments : List (List Char)) (args : Nat) :
    executeBashBuiltinFunction logoutFails st "let".toList commandArguments args
      = (executeLet st commandArguments args).map (fun s => (1, s)) := by
  unfold executeBashBuiltinFunction
  rw [if_neg (by decide), if_neg (by decide), if_neg (by decide), if_neg (by decide),
    if_neg (by decide), if_neg (by decide), if_neg (by decide), if_neg (by decide),
    if_neg (by decide), if_neg (by decide), if_neg (by decide), if_pos rfl]

/-- The command `let` with one argument that `parseLetCommand` accepts: the
result of the operation, when it is defined, is handed to `setenv`. -/
theorem executeLet_of_parsed (st : BuiltinState) (argument : List Char)
    (rest : List (List Char)) (parsed : LetCommand)
    (hp : parseLetCommand argument = some (some parsed)) :
    executeLet st (argument :: rest) 1
      = (letResult parsed.value1 parsed.value2 parsed.operator).map (fun result =>
          { st with
          environment := setenv st.environment parsed.variableName (decimal result) }) := by
  unfold executeLet
  rw [if_neg (by decide)]
  simp only [List.getElem?_cons_zero]
  rw [hp]
  dsimp only
  cases letResult parsed.value1 parsed.value2 parsed.operator <;> rfl

theorem tmod_neg_left (a b : Int) : Int.tmod (-a) b = - Int.tmod a b := by
  have h1 := Int.tdiv_add_tmod (-a) b
  have h2 := Int.tdiv_add_tmod a b
  rw [Int.neg_tdiv, mul_neg] at h1
  linarith

/-- The quotient and the remainder of the C operators `/` and `%` for a
positive divisor: the quotient lies between 0 and the dividend, the remainder
has the sign of the dividend and is smaller than the divisor. -/
theorem tdiv_tmod_spec (A B : Int) (hB : 0 < B) :
    A = Int.tdiv A B * B + Int.tmod A B
      ∧ -B < Int.tmod A B ∧ Int.tmod A B < B
      ∧ (0 ≤ A → 0 ≤ Int.tmod A B ∧ 0 ≤ Int.tdiv A B ∧ Int.tdiv A B ≤ A)
      ∧ (A ≤ 0 → Int.tmod A B ≤ 0 ∧ A ≤ Int.tdiv A B ∧ Int.tdiv A B ≤ 0) := by
  have hpos : ∀ a : Int, 0 ≤ a →
      0 ≤ Int.tmod a B ∧ Int.tmod a B < B ∧ 0 ≤ Int.tdiv a B ∧ Int.tdiv a B ≤ a := by
    intro a ha
    refine ⟨Int.tmod_nonneg B ha, Int.tmod_lt_of_pos a hB,
      Int.tdiv_nonneg ha (le_of_lt hB), ?_⟩
    rw [Int.tdiv_eq_ediv ha (le_of_lt hB)]
    exact Int.ediv_le_self B ha
  have hid : A = Int.tdiv A B * B + Int.tmod A B := by
    have := Int.tdiv_add_tmod A B
    linarith [mul_comm B (Int.tdiv A B)]
  rcases le_total 0 A with hA | hA
  · obtain ⟨h1, h2, h3, h4⟩ := hpos A hA
    refine ⟨hid, by omega, h2, fun _ => ⟨h1, h3, h4⟩, fun hA0 => ?_⟩
    have : A = 0 := le_antisymm hA0 hA
    subst this
    simp
  · obtain ⟨h1, h2, h3, h4⟩ := hpos (-A) (by omega)
    rw [tmod_neg_left] at h1 h2
    rw [Int.neg_tdiv] at h3 h4
    refine ⟨hid, by omega, by omega, fun hA0 => ?_, fun _ => ⟨by omega, by omega, by omega⟩⟩
    have : A = 0 := le_antisymm hA hA0
    subst this
    simp

theorem letResult_div (A B : Int) (hA1 : INT_MIN ≤ A) (hA2 : A ≤ INT_MAX) (hB : 0 < B)
    (hB2 : B ≤ INT_MAX) :
    letResult A B '/' = some (Int.tdiv A B) ∧ letResult A B '%' = some (Int.tmod A B) := by
  obtain ⟨_, h1, h2, h3, h4⟩ := tdiv_tmod_spec A B hB
  have hB0 : B ≠ 0 := ne_of_gt hB
  unfold INT_MIN at hA1
  unfold INT_MAX at hA2 hB2
  have hq : INT_MIN ≤ Int.tdiv A B ∧ Int.tdiv A B ≤ INT_MAX := by
    unfold INT_MIN INT_MAX
    rcases le_total 0 A with hA | hA
    · have := h3 hA; omega
    · have := h4 hA; omega
  constructor
  · unfold letResult
    rw [if_neg (by decide), if_neg (by decide), if_neg (by decide), if_pos rfl, if_neg hB0]
    dsimp only
    rw [if_pos hq]
  · have hr : INT_MIN ≤ Int.tmod A B ∧ Int.tmod A B ≤ INT_MAX := by
      unfold INT_MIN INT_MAX
      omega
    unfold letResult
    rw [if_neg (by decide), if_neg (by decide), if_neg (by decide), if_neg (by decide),
      if_pos rfl, if_neg hB0]
    dsimp only
    rw [if_pos hr]

theorem plainLetText_of_digits (b : List Char) (h : ∀ c ∈ b, c.isDigit = true) :
    plainLetText b := by
  intro c hc
  have hd := h c hc
  refine ⟨?_, ?_⟩
  · intro he; rw [he] at hd; exact absurd hd (by decide)
  · intro ho
    rcases ho with he | he | he | he | he <;> (rw [he] at hd; exact absurd hd (by decide))

theorem decimal_no_equals (n : Int) : '=' ∉ decimal n := by
  intro h
  rcases (decimal_chars n).2 _ h with he | he
  · exact absurd he (by decide)
  · exact absurd he (by decide)

theorem setenv_plain (environment : List (List Char × List Char)) (V value : List Char)
    (hV : plainLetText V) (hV0 : V ≠ []) :
    setenv environment (some V) value = envSet environment V value := by
  unfold setenv
  dsimp only
  rw [if_neg (fun h => h.elim hV0 (fun hm => (hV _ hm).1 rfl))]

/-- C31: for a name `V` without `=` and operator characters, every `A` in the
range of `int` and every positive `B` in that range, both written in decimal,
`let V=A/B` hands the quotient truncated toward zero to `setenv` and
`let V=A%B` the remainder with the sign of `A`; the variable then holds the
decimal text of the result.  Quotient `q` and remainder `r` satisfy
`A = q * B + r` and `-B < r < B`, with `r` and `q` of the sign of `A`. -/
theorem executeLet_division_truncates (logoutFails : Bool) (st : BuiltinState)
    (V : List Char) (A B : Int) (hV : plainLetText V) (hV0 : V ≠ [])
    (hA1 : INT_MIN ≤ A) (hA2 : A ≤ INT_MAX) (hB1 : 0 < B) (hB2 : B ≤ INT_MAX) :
    executeBashBuiltinFunction logoutFails st "let".toList
        [letArgument V (decimal A) '/' (decimal B)] 1
      = some (1, { st with
          environment := envSet st.environment V (decimal (Int.tdiv A B)) })
    ∧ executeBashBuiltinFunction logoutFails st "let".toList
        [letArgument V (decimal A) '%' (decimal B)] 1
      = some (1, { st with
          environment := envSet st.environment V (decimal (Int.tmod A B)) })
    ∧ getenv (envSet st.environment V (decimal (Int.tdiv A B))) V
        = some (decimal (Int.tdiv A B))
    ∧ getenv (envSet st.environment V (decimal (Int.tmod A B))) V
        = some (decimal (Int.tmod A B))
    ∧ A = Int.tdiv A B * B + Int.tmod A B
    ∧ -B < Int.tmod A B ∧ Int.tmod A B < B
    ∧ (0 ≤ A → 0 ≤ Int.tmod A B ∧ 0 ≤ Int.tdiv A B ∧ Int.tdiv A B ≤ A)
    ∧ (A ≤ 0 → Int.tmod A B ≤ 0 ∧ A ≤ Int.tdiv A B ∧ Int.tdiv A B ≤ 0) := by
  have hal : (decimal A).length < 2 ^ 64 := by
    have := decimal_length A hA1 hA2
    omega
  have hbl : (decimal B).length < 2 ^ 64 := by
    have := decimal_length B (by unfold INT_MIN; omega) hB2
    omega
  have hb : plainLetText (decimal B) :=
    plainLetText_of_digits _ (decimal_nonneg_chars B (le_of_lt hB1))
  have hparse : ∀ op : Char, isLetOperator op →
      parseLetCommand (letArgument V (decimal A) op (decimal B))
        = some (some { variableName := some V, value1 := A, value2 := B, operator := op }) := by
    intro op hop
    have h := parseLetCommand_letArgument V (decimal A) (decimal B) op hV hV0
      (decimal_no_equals A) (decimal_chars A).1 hal hop hb hbl
    rw [atoi_decimal, atoi_decimal] at h
    exact h
  obtain ⟨hdiv, hmod⟩ := letResult_div A B hA1 hA2 hB1 hB2
  refine ⟨?_, ?_, getenv_envSet _ _ _, getenv_envSet _ _ _, tdiv_tmod_spec A B hB1⟩
  · rw [dispatch_let, executeLet_of_parsed st _ [] _
      (hparse '/' (Or.inr (Or.inr (Or.inr (Or.inl rfl)))))]
    dsimp only
    rw [hdiv]
    simp only [Option.map_some', setenv_plain _ _ _ hV hV0]
  · rw [dispatch_let, executeLet_of_parsed st _ [] _
      (hparse '%' (Or.inr (Or.inr (Or.inr (Or.inr rfl)))))]
    dsimp only
    rw [hmod]
    simp only [Option.map_some', setenv_plain _ _ _ hV hV0]

theorem executeLet_division_truncates_witness :
    letArgument "X".toList (decimal (-7)) '/' (decimal 2) = "X=-7/2".toList
      ∧ letArgument "X".toList (decimal (-7)) '%' (decimal 2) = "X=-7%2".toList
      ∧ decimal (Int.tdiv (-7) 2) = "-3".toList
      ∧ decimal (Int.tmod (-7) 2) = "-1".toList
      ∧ executeBashBuiltinFunction false (BuiltinState.init []) "let".toList
          [letArgument "X".toList (decimal (-7)) '/' (decimal 2)] 1
        = some (1, { BuiltinState.init [] with
          environment := envSet [] "X".toList (decimal (Int.tdiv (-7) 2)) })
      ∧ executeBashBuiltinFunction false (BuiltinState.init []) "let".toList
          [letArgument "X".toList (decimal (-7)) '%' (decimal 2)] 1
        = some (1, { BuiltinState.init [] with
          environment := envSet [] "X".toList (decimal (Int.tmod (-7) 2)) }) :=
  have h := executeLet_division_truncates false (BuiltinState.init []) "X".toList (-7) 2
    (by decide) (by decide) (by decide) (by decide) (by decide) (by decide)
  ⟨by decide, by decide, by decide, by decide, h.1, h.2.1⟩

/-! ## Escaping (`escape`) -/

theorem escapeChar_spec (c : Char) :
    escapeChar c
        = (match escapeTable.lookup c with
           | some letter => ['\\', letter]
           | none => [c])
      ∧ (∀ x ∈ escapeChar c, x ∉ escapedControls)
      ∧ (escapeChar c).length = 1 + (if isEscaped c then 1 else 0) := by
  unfold escapeChar isEscaped
  by_cases h1 : c = '\x07'
  · subst h1; decide
  by_cases h2 : c = '\x08'
  · subst h2; decide
  by_cases h3 : c = '\x0c'
  · subst h3; decide
  by_cases h4 : c = '\n'
  · subst h4; decide
  by_cases h5 : c = '\r'
  · subst h5; decide
  by_cases h6 : c = '\t'
  · subst h6; decide
  by_cases h7 : c = '\x0b'
  · subst h7; decide
  by_cases h8 : c = '\\'
  · subst h8; decide
  rw [if_neg h1, if_neg h2, if_neg h3, if_neg h4, if_neg h5, if_neg h6, if_neg h7, if_neg h8]
  have hl : escapeTable.lookup c = none := by
    have b1 : (c == '\x07') = false := beq_eq_false_iff_ne.2 h1
    have b2 : (c == '\x08') = false := beq_eq_false_iff_ne.2 h2
    have b3 : (c == '\x0c') = false := beq_eq_false_iff_ne.2 h3
    have b4 : (c == '\n') = false := beq_eq_false_iff_ne.2 h4
    have b5 : (c == '\r') = false := beq_eq_false_iff_ne.2 h5
    have b6 : (c == '\t') = false := beq_eq_false_iff_ne.2 h6
    have b7 : (c == '\x0b') = false := beq_eq_false_iff_ne.2 h7
    have b8 : (c == '\\') = false := beq_eq_false_iff_ne.2 h8
    unfold escapeTable
    simp only [List.lookup, b1, b2, b3, b4, b5, b6, b7, b8]
  rw [hl]
  refine ⟨rfl, ?_, rfl⟩
  intro x hx
  rw [List.mem_singleton] at hx
  subst hx
  unfold escapedControls
  simp [h1, h2, h3, h4, h5, h6, h7]

/-- C32: `escape(s)` is `s` with each character of the table replaced by a
backslash and its letter, every other character copied, in order; the result
holds none of the seven control characters, and its length is the length of
`s` plus the number of replaced characters. -/
theorem escape_spec (s : List Char) :
    escape s = specEscape s
      ∧ (∀ c ∈ escape s, c ∉ escapedControls)
      ∧ (escape s).length = s.length + s.countP isEscaped := by
  induction s with
  | nil => exact ⟨rfl, by simp [escape], rfl⟩
  | cons c s ih =>
    obtain ⟨h1, h2, h3⟩ := escapeChar_spec c
    have e : escape (c :: s) = escapeChar c ++ escape s := by
      unfold escape; rw [List.flatMap_cons]
    refine ⟨?_, ?_, ?_⟩
    · rw [e, h1, ih.1]
      cases hlk : escapeTable.lookup c with
      | none => simp [specEscape, hlk]
      | some letter => simp [specEscape, hlk]
    · intro x hx
      rw [e, List.mem_append] at hx
      exact hx.elim (h2 x) (ih.2.1 x)
    · rw [e, List.length_append, h3, ih.2.2, List.length_cons, List.countP_cons]
      split <;> omega

/-! ## FIFOs of a pipeline (`createPipes`) -/

theorem createPipesLoop_ok (host : Host) (numbers : List Nat) :
    ∀ (pipesArray : List (List Char)) (made : List JobEvent),
      (∀ i ∈ numbers, host.fifoExists i = true ∨ host.mkfifoFails i = false) →
      createPipesLoop host numbers pipesArray made
        = (pipesArray ++ numbers.map fifoName,
           made ++ (numbers.filter (fun i => !host.fifoExists i)).map
             (fun i => JobEvent.mkfifo (fifoName i)),
           false) := by
  induction numbers with
  | nil => intro pipesArray made _; simp [createPipesLoop]
  | cons i rest ih =>
    intro pipesArray made h
    have hi := h i (List.mem_cons_self _ _)
    have hrest : ∀ j ∈ rest, host.fifoExists j = true ∨ host.mkfifoFails j = false :=
      fun j hj => h j (List.mem_cons_of_mem _ hj)
    unfold createPipesLoop
    cases he : host.fifoExists i with
    | true =>
      rw [if_neg (by decide), ih _ _ hrest]
      simp [he]
    | false =>
      have hm : host.mkfifoFails i = false := by
        rcases hi with hi | hi
        · rw [he] at hi; exact absurd hi (by decide)
        · exact hi
      rw [if_pos rfl, hm, if_neg (by decide), ih _ _ hrest]
      simp [he]

/-- C36: for a pipeline of `k ≥ 1` stages `createPipes` returns -1 and makes
no FIFO when `k - 1` exceeds `MAX_PIPES_PER_JOB`; otherwise, when no `mkfifo`
fails, it returns `k - 1`, and `pipesArray[i]` holds `fifo` followed by the
decimal text of `i` for every `i` below `k - 1`; a FIFO is made for each name
that does not exist yet. -/
theorem createPipes_spec (host : Host) (k : Nat) (hk : 1 ≤ k) :
    (MAX_PIPES_PER_JOB < k - 1 → createPipes host k = (-1, [], []))
    ∧ (k - 1 ≤ MAX_PIPES_PER_JOB →
        (∀ i, i < k - 1 → host.fifoExists i = true ∨ host.mkfifoFails i = false) →
        (createPipes host k).1 = ((k - 1 : Nat) : Int)
        ∧ (createPipes host k).2.1 = (List.range (k - 1)).map fifoName
        ∧ (∀ i, i < k - 1 →
            (createPipes host k).2.1.getD i [] = "fifo".toList ++ decimal (i : Int))
        ∧ (createPipes host k).2.2
            = ((List.range (k - 1)).filter (fun i => !host.fifoExists i)).map
                (fun i => JobEvent.mkfifo (fifoName i))) := by
  have hcast : ((k : Int) - 1) = ((k - 1 : Nat) : Int) := by omega
  constructor
  · intro h
    unfold createPipes
    dsimp only
    rw [if_pos (by rw [hcast]; exact_mod_cast h)]
  · intro h hok
    have hloop := createPipesLoop_ok host (List.range (k - 1)) [] []
      (fun i hi => hok i (List.mem_range.1 hi))
    have hval : createPipes host k
        = (((k - 1 : Nat) : Int), (List.range (k - 1)).map fifoName,
           ((List.range (k - 1)).filter (fun i => !host.fifoExists i)).map
             (fun i => JobEvent.mkfifo (fifoName i))) := by
      unfold createPipes
      dsimp only
      rw [if_neg (by rw [hcast]; exact_mod_cast (not_lt.2 h)), hcast, Int.toNat_ofNat, hloop]
      simp
    rw [hval]
    refine ⟨rfl, rfl, ?_, rfl⟩
    intro i hi
    show ((List.range (k - 1)).map fifoName).getD i [] = _
    rw [List.getD_eq_getElem?_getD, List.getElem?_map, List.getElem?_range hi]
    rfl

theorem createPipes_spec_witness :
    createPipes Host.quiet 258 = (-1, [], [])
      ∧ (createPipes Host.quiet 3).1 = 2
      ∧ (createPipes Host.quiet 3).2.1 = ["fifo0".toList, "fifo1".toList] :=
  ⟨(createPipes_spec Host.quiet 258 (by decide)).1 (by decide),
   ((createPipes_spec Host.quiet 3 (by decide)).2 (by decide)
      (fun _ _ => Or.inr rfl)).1,
   (((createPipes_spec Host.quiet 3 (by decide)).2 (by decide)
      (fun _ _ => Or.inr rfl)).2.1).trans (by decide)⟩

/-! ## Pipelines (`handlePipedCommands`) -/

theorem executeProcess_background_events (s : Tables) (jobIndex : Nat) (forkResult : Int)
    (lastInBackground : Bool) (r : Int × Tables × List JobEvent)
    (h : executeProcess s jobIndex forkResult true lastInBackground = some r) :
    r.2.2.filter JobEvent.inForeground = [] := by
  unfold executeProcess at h
  split at h
  · cases h
  · split at h
    · cases h; rfl
    · split at h
      · cases h; rfl
      · split at h
        · cases h; rfl
        · split at h
          · cases h; rfl
          · split at h
            · cases h
            · split at h
              · cases h
              · cases h; rfl

theorem stageBody_pipeline_events (host : Host) (pipedCount : Nat) (pipedJob : List Char)
    (lastInBackground : Bool) (vars : StageLoop) (i : Nat) (stage : List Char)
    (out : StageOutcome) (hk : pipedCount ≠ 1)
    (h : stageBody host pipedCount pipedJob lastInBackground vars i stage = some out) :
    out.shellOf.events.filter JobEvent.inForeground
      = vars.shell.events.filter JobEvent.inForeground := by
  have hev := executeProcess_background_events
  unfold stageBody at h
  simp only [hk, if_false, false_and] at h
  repeat' split at h
  all_goals first
    | (cases h; done)
    | (cases h; rfl)
    | (have he := hev _ _ _ _ _ ‹executeProcess _ _ _ true _ = some _›
       cases h
       simp only [StageOutcome.shellOf, List.filter_append, he, List.append_nil]
       simp [JobEvent.inForeground])
    | (cases h
       simp [StageOutcome.shellOf, List.filter_append, JobEvent.inForeground])

theorem stageLoop_pipeline_events (host : Host) (pipedCount : Nat) (pipedJob : List Char)
    (lastInBackground : Bool) (hk : pipedCount ≠ 1) (stages : List (List Char)) :
    ∀ (vars : StageLoop) (i : Nat) (out : StageOutcome),
      stageLoop host pipedCount pipedJob lastInBackground vars i stages = some out →
      out.shellOf.events.filter JobEvent.inForeground
        = vars.shell.events.filter JobEvent.inForeground := by
  induction stages with
  | nil =>
    intro vars i out h
    unfold stageLoop at h
    cases h
    rfl
  | cons stage rest ih =>
    intro vars i out h
    unfold stageLoop at h
    cases hs : stageBody host pipedCount pipedJob lastInBackground vars i stage with
    | none => rw [hs] at h; cases h
    | some o =>
      have hb := stageBody_pipeline_events host pipedCount pipedJob lastInBackground vars i
        stage o hk hs
      rw [hs] at h
      cases o with
      | returned value shell =>
        dsimp only at h
        cases h
        exact hb
      | completed vars1 =>
        dsimp only at h
        rw [ih vars1 (i + 1) out h]
        exact hb

theorem createPipesLoop_no_foreground (host : Host) (numbers : List Nat) :
    ∀ (pipesArray : List (List Char)) (made : List JobEvent),
      made.filter JobEvent.inForeground = [] →
      (createPipesLoop host numbers pipesArray made).2.1.filter JobEvent.inForeground
        = [] := by
  induction numbers with
  | nil => intro pipesArray made h; exact h
  | cons i rest ih =>
    intro pipesArray made h
    unfold createPipesLoop
    split
    · split
      · exact h
      · apply ih
        rw [List.filter_append, h]
        rfl
    · exact ih _ _ h

theorem createPipes_no_foreground (host : Host) (pipedProcesses : Nat) :
    (createPipes host pipedProcesses).2.2.filter JobEvent.inForeground = [] := by
  unfold createPipes
  dsimp only
  split
  · rfl
  · have h := createPipesLoop_no_foreground host
      (List.range ((pipedProcesses : Int) - 1).toNat) [] [] rfl
    split
    · rename_i heq
      rw [heq] at h; exact h
    · rename_i heq
      rw [heq] at h; exact h

theorem destroyPipes_no_foreground (pipedProcesses : Nat) (pipesArray : List (List Char)) :
    (destroyPipes pipedProcesses pipesArray).2.filter JobEvent.inForeground = [] := by
  unfold destroyPipes
  dsimp only
  split
  · rfl
  · rw [List.filter_map]
    simp [Function.comp_def, JobEvent.inForeground]

theorem waitpid_no_foreground (waited : List Int) :
    (waited.map JobEvent.waitpid).filter JobEvent.inForeground = [] := by
  rw [List.filter_map]
  simp [Function.comp_def, JobEvent.inForeground]

theorem kill_no_foreground (pids : List Nat) (f : Nat → Int) (signalCode : Int) :
    (pids.map (fun processIndex => JobEvent.kill (f processIndex) signalCode)).filter
      JobEvent.inForeground = [] := by
  rw [List.filter_map]
  simp [Function.comp_def, JobEvent.inForeground]

theorem handlePipedCommands_pipeline_events (host : Host) (shell : ShellState)
    (pipedCount : Nat) (pipedJob : List Char) (r : Int × ShellState) (hk : 2 ≤ pipedCount)
    (hr : handlePipedCommands host shell pipedCount pipedJob = some r) :
    r.2.events.filter JobEvent.inForeground
      = shell.events.filter JobEvent.inForeground := by
  have hk1 : pipedCount > 1 := hk
  have hk0 : pipedCount ≠ 0 := by omega
  have hkne : pipedCount ≠ 1 := by omega
  unfold handlePipedCommands at hr
  rw [if_neg hk0] at hr
  cases hp : getPipedProcesses pipedJob with
  | none => rw [hp] at hr; cases hr
  | some pipedProcesses =>
    rw [hp] at hr
    simp only [hk1, if_true, true_and] at hr
    have hpipes : (shell.events ++ (createPipes host pipedCount).2.2).filter
        JobEvent.inForeground = shell.events.filter JobEvent.inForeground := by
      rw [List.filter_append, createPipes_no_foreground, List.append_nil]
    by_cases hc : (createPipes host pipedCount).1 = -1
    · rw [if_pos hc] at hr
      cases hr
      exact hpipes
    rw [if_neg hc] at hr
    by_cases hj : (jobStarted shell.tables).1 = -1
    · rw [if_pos hj] at hr
      cases hr
      exact hpipes
    rw [if_neg hj] at hr
    cases hl : stageLoop host pipedCount pipedJob
        (decide (charAt pipedJob (pipedJob.length - 1) = '&'))
        { shell := { builtins := shell.builtins, tables := (jobStarted shell.tables).2,
                     events := shell.events ++ (createPipes host pipedCount).2.2 },
          jobIndex := 0, forkedProcesses := 0, processError := false } 0
        (pipedProcesses.take pipedCount) with
    | none => rw [hl] at hr; cases hr
    | some out =>
      have hloop := stageLoop_pipeline_events host pipedCount pipedJob _ hkne _ _ 0 out hl
      rw [hpipes] at hloop
      rw [hl] at hr
      cases out with
      | returned value shell1 =>
        dsimp only at hr
        cases hr
        exact hloop
      | completed vars =>
        dsimp only at hr
        have hloop1 : vars.shell.events.filter JobEvent.inForeground
            = shell.events.filter JobEvent.inForeground := hloop
        split at hr
        · cases hr
          show List.filter _ (vars.shell.events ++ _) = _
          rw [List.filter_append, kill_no_foreground, List.append_nil]
          exact hloop1
        · split at hr
          · cases hr
          · split at hr
            · cases hr
              show List.filter _ (vars.shell.events ++ _ ++ _) = _
              rw [List.filter_append, List.filter_append, waitpid_no_foreground,
                destroyPipes_no_foreground, List.append_nil, List.append_nil]
              exact hloop1
            · cases hr
              show List.filter _ (vars.shell.events ++ _ ++ _) = _
              rw [List.filter_append, List.filter_append, waitpid_no_foreground,
                destroyPipes_no_foreground, List.append_nil, List.append_nil]
              exact hloop1

/-- C33: for a job of two or more stages `handlePipedCommands` adds no
foreground launch to what has happened: every call of `executeProcess` it
makes passes `isBackground = 1`, whatever trailing `&` the stage or the job
carries, and `executeProcess` performs no blocking `wait`. -/
theorem handlePipedCommands_pipeline_background (host : Host) (shell : ShellState)
    (pipedCount : Nat) (pipedJob : List Char) (r : Int × ShellState) (hk : 2 ≤ pipedCount)
    (hr : handlePipedCommands host shell pipedCount pipedJob = some r) :
    r.2.events.filter JobEvent.inForeground = shell.events.filter JobEvent.inForeground
      ∧ (∀ (i : Nat) (commandName : List Char) (isBackground lastInBackground : Bool),
          JobEvent.executeProcess i commandName isBackground lastInBackground ∈ r.2.events →
          isBackground = true
            ∨ JobEvent.executeProcess i commandName isBackground lastInBackground
                ∈ shell.events)
      ∧ (∀ pid : Int, JobEvent.waitForeground pid ∈ r.2.events →
          JobEvent.waitForeground pid ∈ shell.events) := by
  have h := handlePipedCommands_pipeline_events host shell pipedCount pipedJob r hk hr
  refine ⟨h, ?_, ?_⟩
  · intro i commandName isBackground lastInBackground hmem
    cases isBackground with
    | true => exact Or.inl rfl
    | false =>
      right
      have hf : JobEvent.executeProcess i commandName false lastInBackground
          ∈ r.2.events.filter JobEvent.inForeground :=
        List.mem_filter.2 ⟨hmem, rfl⟩
      rw [h] at hf
      exact (List.mem_filter.1 hf).1
  · intro pid hmem
    have hf : JobEvent.waitForeground pid ∈ r.2.events.filter JobEvent.inForeground :=
      List.mem_filter.2 ⟨hmem, rfl⟩
    rw [h] at hf
    exact (List.mem_filter.1 hf).1

theorem handlePipedCommands_pipeline_background_witness :
    handlePipedCommands Host.running ShellState.init 2 "ls | wc".toList = some lsWcOutcome
      ∧ lsWcOutcome.2.events.filter JobEvent.inForeground = []
      ∧ JobEvent.executeProcess 0 "ls".toList true false ∈ lsWcOutcome.2.events
      ∧ JobEvent.executeProcess 1 "wc".toList true false ∈ lsWcOutcome.2.events :=
  ⟨by decide,
   (handlePipedCommands_pipeline_background Host.running ShellState.init 2
      "ls | wc".toList lsWcOutcome (by decide) (by decide)).1,
   by decide, by decide⟩

/-- C34: for the foreground job `ls | wc`, whose row holds the PIDs 41 and 42
when the launch loop ends, the final wait loop of `handlePipedCommands` waits
for 41 twice and never for 42: each round takes the first non-zero PID of the
row and clears the entry at index `i`, the loop variable of the launch loop,
which is 2 by then, so the PID just waited for stays first in the row. -/
theorem handlePipedCommands_waits_first_pid_again :
    getPipedProcesses "ls | wc".toList = some ["ls ".toList, "wc".toList]
      ∧ (stageLoop Host.running 2 "ls | wc".toList false
          { shell := { ShellState.init with tables := (jobStarted Tables.empty).2 },
            jobIndex := 0, forkedProcesses := 0, processError := false } 0
          ["ls ".toList, "wc".toList]).map
            (fun out => ((out.shellOf.tables.jobPIDs.getD 0 []).take 3,
              out.shellOf.tables.jobProcessesActive.getD 0 0))
        = some ([41, 42, 0], 2)
      ∧ (handlePipedCommands Host.running ShellState.init 2 "ls | wc".toList).map
          (fun r => (r.1, r.2.events.drop 5, (r.2.tables.jobPIDs.getD 0 []).take 3))
        = some (2, [JobEvent.waitpid 41, JobEvent.waitpid 41,
                    JobEvent.removeFifo "fifo0".toList], [41, 42, 0]) := by
  decide

/-! ## Further evaluations -/

/-- C35: `removeSpacesFromBeginning` moves the pointer and the index it reads
at together, so it tests the characters at the offsets 0, 2, 4, ... of the
string: of the two leading spaces of `  ab` one is left, the command name of
` w -h` is removed with the spaces around it, and for a single space the loop
reads behind the terminator.  A string without a leading space is left as it
is. -/
theorem removeSpacesFromBeginning_skips_every_other :
    removeSpacesFromBeginning "  ab".toList = some " ab".toList
      ∧ specTrimLeadingSpaces "  ab".toList = "ab".toList
      ∧ removeSpacesFromBeginning " w -h".toList = some " -h".toList
      ∧ specTrimLeadingSpaces " w -h".toList = "w -h".toList
      ∧ removeSpacesFromBeginning " ".toList = none
      ∧ removeSpacesFromBeginning "ab c".toList = some "ab c".toList := by
  decide

/-- C37: in the tables reached by `jobStarted`, two calls of `processStarted`
(41, 42) and `jobProcessCompleted` for 41, the row of the job is `[0, 42, ...]`
with count 1; `processStarted(0, 43)` returns 0, raises the count to 2 and
writes 43 at index 1, the count, over the live PID 42, while index 0 stays
free. -/
theorem processStarted_overwrites_live_pid :
    (Tables.firstOfTwoLeft.jobPIDs.getD 0 []).take 3 = [0, 42, 0]
      ∧ Tables.firstOfTwoLeft.jobProcessesActive.getD 0 0 = 1
      ∧ (processStarted Tables.firstOfTwoLeft 0 43).1 = 0
      ∧ (processStarted Tables.firstOfTwoLeft 0 43).2.jobProcessesActive.getD 0 0 = 2
      ∧ (processStarted Tables.firstOfTwoLeft 0 43).2.jobPIDs.getD 0 []
          = [0, 43, 0, 0, 0, 0, 0, 0, 0, 0]
      ∧ (42 : Int) ∉ (processStarted Tables.firstOfTwoLeft 0 43).2.jobPIDs.getD 0 [] := by
  decide

/-- C38: the script `a;b;c` is one word, so `executeScript` allocates
`splittedJobs` for one job, and `splitJobs` writes three jobs, at the indices
0, 1 and 2. -/
theorem splitJobs_more_jobs_than_words :
    (splitJobsWords "a;b;c".toList).length = 1
      ∧ executeScriptJobs "a;b;c".toList = some ["a".toList, "b".toList, "c".toList]
      ∧ (executeScriptJobs "a;b;c".toList).map List.length = some 3 := by
  decide

/-- C39: for the single-stage job `pwd`, a built-in without a trailing `&`,
`handlePipedCommands` starts no job and still runs `jobsRunning[0] = 0;
activeJobs--`: from the initial tables `activeJobs` becomes -1, and while two
background jobs run the slot of job 1 is marked free and `activeJobs` drops
from 2 to 1. -/
theorem handlePipedCommands_builtin_frees_job_slot :
    getPipedProcesses "pwd".toList = some ["pwd".toList]
      ∧ (handlePipedCommands Host.quiet ShellState.init 1 "pwd".toList).map
          (fun r => (r.1, r.2.tables.activeJobs)) = some (0, -1)
      ∧ Tables.twoJobs.activeJobs = 2
      ∧ Tables.twoJobs.jobsRunning = [1, 1, 0, 0, 0, 0, 0, 0, 0, 0]
      ∧ (handlePipedCommands Host.quiet { ShellState.init with tables := Tables.twoJobs } 1
          "pwd".toList).map (fun r => (r.1, r.2.tables.activeJobs, r.2.tables.jobsRunning))
        = some (0, 1, [0, 1, 0, 0, 0, 0, 0, 0, 0, 0]) := by
  decide

/-- C40: `parseLetCommand` accepts `X=1/0`, `X=1%0` and `X=1/a` with the right
operand 0, and `executeLet` evaluates `value1 / value2` or `value1 % value2`
with it: no test of the right operand precedes the division, so the behaviour
is undefined and no result state exists. -/
theorem executeLet_divides_by_zero :
    parseLetCommand "X=1/0".toList
        = some (some { variableName := some "X".toList, value1 := 1, value2 := 0,
                       operator := '/' })
      ∧ parseLetCommand "X=1%0".toList
        = some (some { variableName := some "X".toList, value1 := 1, value2 := 0,
                       operator := '%' })
      ∧ parseLetCommand "X=1/a".toList
        = some (some { variableName := some "X".toList, value1 := 1, value2 := 0,
                       operator := '/' })
      ∧ letResult 1 0 '/' = none ∧ letResult 1 0 '%' = none
      ∧ executeLet (BuiltinState.init []) ["X=1/0".toList] 1 = none
      ∧ executeLet (BuiltinState.init []) ["X=1%0".toList] 1 = none
      ∧ executeLet (BuiltinState.init []) ["X=1/a".toList] 1 = none
      ∧ executeBashBuiltinFunction false (BuiltinState.init []) "let".toList
          ["X=1/0".toList] 1 = none := by
  decide

end Shell
